import Mathlib

/-!
# googlephotos-upload: a model of the upload pipeline of `main.go`

The development embeds `uploadFile` and the worker pool of `main` as Lean
functions over explicit state.  Go strings and byte slices are lists of
natural numbers (one number below 256 per byte); file paths, header names
and hexadecimal fingerprints are Lean strings.  Everything the program gets
from outside (the file system, the answers of the remote service, failures of
the database) is an explicit argument.
-/

namespace GooglePhotosUpload

/-! ## Constants of `main.go` -/

/-- Source: `const defaultWorkers = 4`. -/
def defaultWorkers : Nat := 4

/-- Source: `const imageFingerprintSize = 8192`. -/
def imageFingerprintSize : Nat := 8192

/-! ## `encoding/hex` and `crypto/sha256` -/

/-- The digit table of `encoding/hex`: `"0123456789abcdef"`. -/
def hextable : List Char := "0123456789abcdef".toList

/-- One lowercase hexadecimal digit. -/
def hexDigit (n : Nat) : Char := hextable.getD n '0'

/-- The function `hex.EncodeToString`: two digits per byte, high nibble first. -/
def hexEncodeToString (src : List Nat) : String :=
  String.mk (src.flatMap fun v => [hexDigit ((v / 16) % 16), hexDigit (v % 16)])

/-- Words of SHA-256 are 32 bits wide. -/
def mask32 : Nat := 2 ^ 32

/-- Rotate a 32-bit word right. -/
def rotr (x n : Nat) : Nat := ((x >>> n) ||| (x <<< (32 - n))) % mask32

/-- Bitwise complement of a 32-bit word. -/
def not32 (x : Nat) : Nat := (mask32 - 1) ^^^ (x % mask32)

/-- FIPS 180-4, function Sigma0 for SHA-256. -/
def bigSigma0 (x : Nat) : Nat := rotr x 2 ^^^ rotr x 13 ^^^ rotr x 22

/-- FIPS 180-4, function Sigma1 for SHA-256. -/
def bigSigma1 (x : Nat) : Nat := rotr x 6 ^^^ rotr x 11 ^^^ rotr x 25

/-- FIPS 180-4, function sigma0 for SHA-256. -/
def smallSigma0 (x : Nat) : Nat := rotr x 7 ^^^ rotr x 18 ^^^ (x >>> 3)

/-- FIPS 180-4, function sigma1 for SHA-256. -/
def smallSigma1 (x : Nat) : Nat := rotr x 17 ^^^ rotr x 19 ^^^ (x >>> 10)

/-- The 64 round constants of SHA-256. -/
def sha256K : List Nat := [
  0x428a2f98, 0x71374491, 0xb5c0fbcf, 0xe9b5dba5, 0x3956c25b, 0x59f111f1, 0x923f82a4, 0xab1c5ed5,
  0xd807aa98, 0x12835b01, 0x243185be, 0x550c7dc3, 0x72be5d74, 0x80deb1fe, 0x9bdc06a7, 0xc19bf174,
  0xe49b69c1, 0xefbe4786, 0x0fc19dc6, 0x240ca1cc, 0x2de92c6f, 0x4a7484aa, 0x5cb0a9dc, 0x76f988da,
  0x983e5152, 0xa831c66d, 0xb00327c8, 0xbf597fc7, 0xc6e00bf3, 0xd5a79147, 0x06ca6351, 0x14292967,
  0x27b70a85, 0x2e1b2138, 0x4d2c6dfc, 0x53380d13, 0x650a7354, 0x766a0abb, 0x81c2c92e, 0x92722c85,
  0xa2bfe8a1, 0xa81a664b, 0xc24b8b70, 0xc76c51a3, 0xd192e819, 0xd6990624, 0xf40e3585, 0x106aa070,
  0x19a4c116, 0x1e376c08, 0x2748774c, 0x34b0bcb5, 0x391c0cb3, 0x4ed8aa4a, 0x5b9cca4f, 0x682e6ff3,
  0x748f82ee, 0x78a5636f, 0x84c87814, 0x8cc70208, 0x90befffa, 0xa4506ceb, 0xbef9a3f7, 0xc67178f2]

/-- The initial hash value of SHA-256. -/
def sha256Init : List Nat := [
  0x6a09e667, 0xbb67ae85, 0x3c6ef372, 0xa54ff53a, 0x510e527f, 0x9b05688c, 0x1f83d9ab, 0x5be0cd19]

/-- Big-endian bytes of `v`, `width` of them. -/
def bigEndian (width v : Nat) : List Nat :=
  (List.range width).map fun i => (v >>> (8 * (width - 1 - i))) % 256

/-- Message padding: a 1 bit, zeros up to 56 modulo 64, the bit length on 8 bytes. -/
def sha256Pad (msg : List Nat) : List Nat :=
  msg ++ [0x80] ++ List.replicate ((119 - msg.length % 64) % 64) 0
    ++ bigEndian 8 ((8 * msg.length) % 2 ^ 64)

/-- Group bytes four by four into big-endian 32-bit words. -/
def wordsOf : List Nat → List Nat
  | a :: b :: c :: d :: rest =>
    ((((a % 256) * 256 + b % 256) * 256 + c % 256) * 256 + d % 256) :: wordsOf rest
  | _ => []

/-- Extend the message schedule by `n` words. -/
def extendSchedule : Nat → List Nat → List Nat
  | 0, w => w
  | n + 1, w =>
    let t := w.length
    let x := (smallSigma1 (w.getD (t - 2) 0) + w.getD (t - 7) 0
      + smallSigma0 (w.getD (t - 15) 0) + w.getD (t - 16) 0) % mask32
    extendSchedule n (w ++ [x])

/-- One round of the compression function on the eight working variables. -/
def sha256Round (s : List Nat) (kw : Nat × Nat) : List Nat :=
  match s with
  | [a, b, c, d, e, f, g, h] =>
    let ch := (e &&& f) ^^^ (not32 e &&& g)
    let maj := (a &&& b) ^^^ (a &&& c) ^^^ (b &&& c)
    let t1 := (h + bigSigma1 e + ch + kw.1 + kw.2) % mask32
    let t2 := (bigSigma0 a + maj) % mask32
    [(t1 + t2) % mask32, a, b, c, (d + t1) % mask32, e, f, g]
  | _ => s

/-- Compress one 64-byte block into the running hash value. -/
def sha256Block (s : List Nat) (block : List Nat) : List Nat :=
  let w := extendSchedule 48 (wordsOf block)
  List.zipWith (fun x y => (x + y) % mask32) s ((sha256K.zip w).foldl sha256Round s)

/-- Cut a list into `n` consecutive blocks of 64 bytes. -/
def chunks64 : Nat → List Nat → List (List Nat)
  | 0, _ => []
  | n + 1, l => l.take 64 :: chunks64 n (l.drop 64)

/-- The SHA-256 digest (32 bytes) of a byte string. -/
def sha256 (msg : List Nat) : List Nat :=
  let p := sha256Pad msg
  ((chunks64 (p.length / 64) p).foldl sha256Block sha256Init).flatMap (bigEndian 4)

/-- A `hash.Hash` made by `sha256.New()`: it is determined by the bytes
written to it so far. -/
structure Hash where
  written : List Nat
  deriving DecidableEq, Repr

/-- Source: `sha256.New()`. -/
def sha256New : Hash := ⟨[]⟩

/-- The method `h.Write(p)`: it never fails. -/
def Hash.write (h : Hash) (p : List Nat) : Hash := ⟨h.written ++ p⟩

/-- The method `h.Sum(nil)`: the digest of everything written. -/
def Hash.sum (h : Hash) : List Nat := sha256 h.written

/-! ## Files -/

/-- What `os.Open` finds at a path: the bytes of the file and whether reading
them works (`readable = false`: every read fails with an I/O error). -/
structure OSFile where
  content : List Nat
  readable : Bool
  deriving DecidableEq, Repr

/-- The file system as seen by `os.Open`: `none` where the open fails. -/
abbrev FileSystem := String → Option OSFile

/-- An open `*os.File`: the file and the read offset of the handle. -/
structure File where
  content : List Nat
  readable : Bool
  offset : Nat
  deriving DecidableEq, Repr

/-- Source: `os.Open(filename)`; `none` is the error result. -/
def osOpen (fs : FileSystem) (filename : String) : Option File :=
  (fs filename).map fun f => { content := f.content, readable := f.readable, offset := 0 }

/-- The two kinds of error a read can end in. -/
inductive ReadError
  | eof
  | fault
  deriving DecidableEq, Repr

/-- The call `io.CopyN(dst, src, n)`: copies `n` bytes from the handle to the
hash, or until the file ends.  The error is nil exactly when `n` bytes were
written; it is `io.EOF` when the file ended before that. Returns the hash, the
handle, the number of bytes written and the error. -/
def copyN (dst : Hash) (src : File) (n : Nat) : Hash × File × Nat × Option ReadError :=
  if src.readable then
    let p := (src.content.drop src.offset).take n
    (dst.write p, { src with offset := src.offset + p.length }, p.length,
      if p.length = n then none else some ReadError.eof)
  else (dst, src, 0, some ReadError.fault)

/-- The call `upload.Seek(0, 0)` (whence 0: relative to the start). -/
def File.seek (f : File) (off : Nat) : File := { f with offset := off }

/-- What a reader of the handle gets until the end of the file: the request
body that `client.Do` streams from `upload`. -/
def File.remaining (f : File) : List Nat := f.content.drop f.offset

/-! ## `path/filepath` -/

/-- The function `filepath.Base` (Unix separator): the last element of the
path, after removing trailing slashes; `"."` for the empty path and `"/"` for a
path of slashes only. -/
def filepathBase (path : String) : String :=
  if path.data = [] then "."
  else
    let stripped := (path.data.reverse.dropWhile fun c => c == '/')
    let last := (stripped.takeWhile fun c => c != '/').reverse
    if last = [] then "/" else String.mk last

/-! ## `net/http` -/

/-- Bytes of an ASCII string constant. -/
def bytesOf (s : String) : List Nat := s.data.map Char.toNat

/-- The bytes allowed in a header field name (`validHeaderFieldByte`): the
token characters of RFC 7230. -/
def validHeaderFieldByte (c : Char) : Bool :=
  c.isAlphanum || "!#$%&'*+-.^_`|~".data.contains c

/-- Upper-case the first letter and every letter after a hyphen, lower-case
the others. -/
def canonicalLetters : Bool → List Char → List Char
  | _, [] => []
  | upper, c :: cs =>
    (if upper then c.toUpper else c.toLower) :: canonicalLetters (c == '-') cs

/-- The function `textproto.CanonicalMIMEHeaderKey`, which `Header.Set`
applies to the key: a key with a byte outside the token characters is left
as it is. -/
def canonicalMIMEHeaderKey (s : String) : String :=
  if s.data.all validHeaderFieldByte then String.mk (canonicalLetters true s.data) else s

/-- A `http.Header`, one value per key (the program only uses `Set`). -/
abbrev Header := List (String × String)

/-- The method `Header.Set(key, value)`: replaces the values of the
canonical key. -/
def Header.set (h : Header) (key value : String) : Header :=
  (h.filter fun kv => kv.1 != canonicalMIMEHeaderKey key) ++ [(canonicalMIMEHeaderKey key, value)]

/-- The method `Header.Get(key)`. -/
def Header.get (h : Header) (key : String) : Option String :=
  (h.find? fun kv => kv.1 == canonicalMIMEHeaderKey key).map Prod.snd

/-- A `*http.Request` as handed to `client.Do`: method, URL, header and the
bytes the body reader yields. -/
structure Request where
  method : String
  url : String
  header : Header
  body : List Nat
  deriving DecidableEq, Repr

/-- The call `http.NewRequest(method, url, body)`.  With the constant method
`"POST"` and the two constant URLs of `uploadFile` it returns no error, so the
error branches at the two call sites are not reachable and not modelled. -/
def newRequest (method url : String) (body : List Nat) : Request :=
  { method := method, url := url, header := [], body := body }

/-- The method `request.Header.Set(key, value)`. -/
def Request.headerSet (r : Request) (key value : String) : Request :=
  { r with header := r.header.set key value }

/-- An `*oauth2.Token`, reduced to what `uploadFile` uses of it: the value
`t.Type() + " " + t.AccessToken` that `SetAuthHeader` writes. -/
structure Token where
  authorization : String
  deriving DecidableEq, Repr

/-- The method `token.SetAuthHeader(request)`. -/
def Token.setAuthHeader (t : Token) (r : Request) : Request :=
  r.headerSet "Authorization" t.authorization

/-- A `*http.Response`: the status code and what `ioutil.ReadAll(resp.Body)`
returns (`none`: the read of the body fails). -/
structure Response where
  statusCode : Nat
  body : Option (List Nat)
  deriving DecidableEq, Repr

/-- Source: the URL of the raw upload. -/
def uploadsURL : String := "https://photoslibrary.googleapis.com/v1/uploads"

/-- Source: the URL of the item registration. -/
def batchCreateURL : String := "https://photoslibrary.googleapis.com/v1/mediaItems:batchCreate"

/-! ## `unicode/utf8` and `encoding/json` (encoder) -/

/-- Source: `utf8.RuneError`, U+FFFD. -/
def runeError : Nat := 0xFFFD

/-- A continuation byte, `0x80..0xBF`. -/
def isCont (b : Nat) : Bool := 0x80 ≤ b && b ≤ 0xBF

/-- The range accepted for the second byte after the leading byte `b0`
(the `acceptRanges` table of `unicode/utf8`). -/
def acceptSecond (b0 b1 : Nat) : Bool :=
  if b0 = 0xE0 then 0xA0 ≤ b1 && b1 ≤ 0xBF
  else if b0 = 0xED then 0x80 ≤ b1 && b1 ≤ 0x9F
  else if b0 = 0xF0 then 0x90 ≤ b1 && b1 ≤ 0xBF
  else if b0 = 0xF4 then 0x80 ≤ b1 && b1 ≤ 0x8F
  else isCont b1

/-- The function `utf8.DecodeRuneInString`: the first rune of the string and
its width in bytes; `(RuneError, 1)` for an invalid or truncated encoding and
`(RuneError, 0)` for the empty string.  The bit operations of the original are
written arithmetically (`b % 64` for `b & 0x3F`, `* 64` for `<< 6`). -/
def decodeRune : List Nat → Nat × Nat
  | [] => (runeError, 0)
  | b0 :: rest =>
    if b0 < 0x80 then (b0, 1)
    else if 0xC2 ≤ b0 ∧ b0 ≤ 0xDF then
      match rest with
      | b1 :: _ =>
        if acceptSecond b0 b1 then ((b0 % 32) * 64 + b1 % 64, 2) else (runeError, 1)
      | _ => (runeError, 1)
    else if 0xE0 ≤ b0 ∧ b0 ≤ 0xEF then
      match rest with
      | b1 :: b2 :: _ =>
        if acceptSecond b0 b1 ∧ isCont b2 then
          (((b0 % 16) * 64 + b1 % 64) * 64 + b2 % 64, 3)
        else (runeError, 1)
      | _ => (runeError, 1)
    else if 0xF0 ≤ b0 ∧ b0 ≤ 0xF4 then
      match rest with
      | b1 :: b2 :: b3 :: _ =>
        if acceptSecond b0 b1 ∧ isCont b2 ∧ isCont b3 then
          ((((b0 % 8) * 64 + b1 % 64) * 64 + b2 % 64) * 64 + b3 % 64, 4)
        else (runeError, 1)
      | _ => (runeError, 1)
    else (runeError, 1)

/-- The table `htmlSafeSet` of `encoding/json`: the ASCII bytes written as
they are, that is all from the space on except the double quote, the
backslash and the three characters escaped for HTML. -/
def htmlSafeSet (b : Nat) : Bool :=
  0x20 ≤ b && b < 0x80 && b != 0x22 && b != 0x5C && b != 0x26 && b != 0x3C && b != 0x3E

/-- A hexadecimal digit as a byte. -/
def hexByte (n : Nat) : Nat := (hexDigit n).toNat

/-- The escape the encoder writes for an ASCII byte outside `htmlSafeSet`. -/
def escapeByte (b : Nat) : List Nat :=
  if b = 0x5C ∨ b = 0x22 then [0x5C, b]
  else if b = 0x0A then [0x5C, 0x6E]
  else if b = 0x0D then [0x5C, 0x72]
  else if b = 0x09 then [0x5C, 0x74]
  else [0x5C, 0x75, 0x30, 0x30, hexByte (b / 16), hexByte (b % 16)]

/-- The loop of the string encoder of `encoding/json` (with HTML escaping,
the default of `json.NewEncoder`): safe ASCII bytes and valid multi-byte runes
are copied, other ASCII bytes are escaped, a byte that starts no valid
encoding becomes the six bytes of the escape for U+FFFD, and the two line
separators U+2028 and U+2029 are escaped.  The first argument bounds the
number of iterations. -/
def appendStringLoop : Nat → List Nat → List Nat
  | 0, _ => []
  | _, [] => []
  | fuel + 1, b :: rest =>
    if b < 0x80 then
      (if htmlSafeSet b then [b] else escapeByte b) ++ appendStringLoop fuel rest
    else
      let (c, size) := decodeRune (b :: rest)
      if c = runeError ∧ size = 1 then
        bytesOf "\\ufffd" ++ appendStringLoop fuel rest
      else if c = 0x2028 ∨ c = 0x2029 then
        [0x5C, 0x75, 0x32, 0x30, 0x32, hexByte (c % 16)]
          ++ appendStringLoop fuel ((b :: rest).drop size)
      else
        (b :: rest).take size ++ appendStringLoop fuel ((b :: rest).drop size)

/-- A Go string as a JSON string literal. -/
def jsonString (s : List Nat) : List Nat :=
  [0x22] ++ appendStringLoop s.length s ++ [0x22]

/-- Byte-wise lexicographic order on strings, the order of Go's `<`. -/
def bytesLE : List Nat → List Nat → Bool
  | [], _ => true
  | _ :: _, [] => false
  | a :: as, b :: bs => a < b || (a == b && bytesLE as bs)

/-- Join the encoded elements with commas. -/
def joinComma : List (List Nat) → List Nat
  | [] => []
  | [x] => x
  | x :: y :: rest => x ++ [0x2C] ++ joinComma (y :: rest)

/-- Insert a member into a list of members sorted by key. -/
def insertMember (m : List Nat × List Nat) : List (List Nat × List Nat) → List (List Nat × List Nat)
  | [] => [m]
  | x :: xs => if bytesLE m.1 x.1 then m :: x :: xs else x :: insertMember m xs

/-- Sort the members of a map by key. -/
def sortMembers : List (List Nat × List Nat) → List (List Nat × List Nat)
  | [] => []
  | m :: ms => insertMember m (sortMembers ms)

/-- A Go map with string keys as a JSON object: the keys are sorted, each
member is the key as a string literal, a colon and the encoded value. -/
def jsonObject (members : List (String × List Nat)) : List Nat :=
  [0x7B] ++ joinComma ((sortMembers (members.map fun m => (bytesOf m.1, m.2))).map
    fun m => jsonString m.1 ++ [0x3A] ++ m.2) ++ [0x7D]

/-- A Go slice as a JSON array. -/
def jsonArray (elems : List (List Nat)) : List Nat :=
  [0x5B] ++ joinComma elems ++ [0x5D]

/-- The method `Encoder.Encode(v)`: the encoding of the value and a newline. -/
def encoderEncode (v : List Nat) : List Nat := v ++ [0x0A]

/-! ## The `uploads` table -/

/-- A row of `uploads (fingerprint TEXT PRIMARY KEY, filename TEXT, uploaded INTEGER)`. -/
structure Row where
  fingerprint : String
  filename : String
  uploaded : Int
  deriving DecidableEq, Repr

/-- The rows of the table, in insertion order. -/
abbrev Table := List Row

/-- Whether a row with this primary key is in the table. -/
def Table.hasKey (t : Table) (fingerprint : String) : Bool :=
  t.any fun r => r.fingerprint == fingerprint

/-- The errors of the store: `sql.ErrNoRows`, a violated primary-key
constraint, and any other failure of the database. -/
inductive StoreError
  | noRows
  | constraint
  | fault
  deriving DecidableEq, Repr

/-! ## `uploadFile` -/

/-- The effects of `uploadFile` that can be seen from outside, in the order
in which they happen. -/
inductive Event
  | query (fingerprint : String)
  | send (request : Request)
  | insert (row : Row)
  deriving DecidableEq, Repr

/-- The state shared by all calls of `uploadFile`: the table and the trace of
effects so far. -/
structure World where
  db : Table
  log : List Event
  deriving DecidableEq, Repr

/-- What the outside does during one call of `uploadFile`: whether the SELECT
fails in the database, what `client.Do` returns for a request (`none`: a
transport error), whether the INSERT fails for a reason other than the key
constraint, and the value of `time.Now().Unix()`. -/
structure Env where
  queryFault : Bool
  roundTrip : Request → Option Response
  execFault : Bool
  now : Int

/-- The error values `uploadFile` returns, one per `return` of the source. -/
inductive UploadError
  | openingFile
  | readingFile (e : ReadError)
  | alreadyExists
  | uploadingImage
  | readingUploadToken
  | badStatusUploading
  | addingMediaItem
  | badStatusAdding (statusCode : Nat)
  | store (e : StoreError)
  deriving DecidableEq, Repr

/-- Append an event to the trace. -/
def World.emit (w : World) (e : Event) : World := { w with log := w.log ++ [e] }

/-- Source: `db.QueryRow("SELECT 1 FROM uploads WHERE fingerprint = ?",
fingerprint).Scan(&junk)`: nil when a row is found, `sql.ErrNoRows` when none
is, another error when the database fails. -/
def queryRowScan (env : Env) (fingerprint : String) (w : World) : Option StoreError × World :=
  if env.queryFault then (some StoreError.fault, w.emit (Event.query fingerprint))
  else if w.db.hasKey fingerprint then (none, w.emit (Event.query fingerprint))
  else (some StoreError.noRows, w.emit (Event.query fingerprint))

/-- Source: `client.Do(request)`. -/
def clientDo (env : Env) (request : Request) (w : World) : Option Response × World :=
  (env.roundTrip request, w.emit (Event.send request))

/-- Source: `db.Exec("INSERT INTO uploads (fingerprint, filename, uploaded)
VALUES (?, ?, ?)", ...)`: the primary key rejects a fingerprint that is already
in the table. -/
def dbExecInsert (env : Env) (row : Row) (w : World) : Option StoreError × World :=
  if env.execFault then (some StoreError.fault, w.emit (Event.insert row))
  else if w.db.hasKey row.fingerprint then (some StoreError.constraint, w.emit (Event.insert row))
  else (none, { db := w.db ++ [row], log := w.log ++ [Event.insert row] })

/-- Lines 146-153: the raw-upload request built from the handle. -/
def rawUploadRequest (token : Token) (filename : String) (upload : File) : Request :=
  let request := newRequest "POST" uploadsURL upload.remaining
  let request := token.setAuthHeader request
  let request := request.headerSet "Content-type" "application/octet-stream"
  let request := request.headerSet "X-Goog-Upload-Protocol" "raw"
  request.headerSet "X-Goog-Upload-File-Name" (filepathBase filename)

/-- Lines 169-181: the JSON body of the registration.  Encoding a map of
strings cannot fail, so the error branch is not modelled. -/
def newMediaItemsBody (uploadToken : List Nat) : List Nat :=
  encoderEncode (jsonObject [
    ("newMediaItems", jsonArray [
      jsonObject [
        ("description", jsonString []),
        ("simpleMediaItem", jsonObject [("uploadToken", jsonString uploadToken)])]])])

/-- Lines 182-186: the registration request. -/
def batchCreateRequest (token : Token) (uploadToken : List Nat) : Request :=
  let request := newRequest "POST" batchCreateURL (newMediaItemsBody uploadToken)
  token.setAuthHeader request

/-- Lines 166-197 of `uploadFile`: with the upload token in hand, register
the item and, when that succeeded, record the fingerprint. -/
def registerAndRecord (env : Env) (filename : String) (token : Token) (fingerprint : String)
    (uploadToken : List Nat) (w : World) : Option UploadError × World :=
  match clientDo env (batchCreateRequest token uploadToken) w with
  | (none, w) => (some UploadError.addingMediaItem, w)
  | (some resp, w) =>
    if resp.statusCode / 100 ≠ 2 then (some (UploadError.badStatusAdding resp.statusCode), w)
    else
      match dbExecInsert env
          { fingerprint := fingerprint, filename := filepathBase filename,
            uploaded := env.now } w with
      | (err, w) => (err.map UploadError.store, w)

/-- Lines 140-165 of `uploadFile`, followed by `registerAndRecord`: look the
fingerprint up, rewind the handle, send the raw upload and read the upload
token. -/
def uploadFingerprinted (env : Env) (filename : String) (token : Token) (fingerprint : String)
    (upload : File) (w : World) : Option UploadError × World :=
  match queryRowScan env fingerprint w with
  | (none, w) => (some UploadError.alreadyExists, w)
  | (some _, w) =>
    let upload := upload.seek 0
    match clientDo env (rawUploadRequest token filename upload) w with
    | (none, w) => (some UploadError.uploadingImage, w)
    | (some resp, w) =>
      match resp.body with
      | none => (some UploadError.readingUploadToken, w)
      | some body =>
        if resp.statusCode / 100 ≠ 2 then (some UploadError.badStatusUploading, w)
        else registerAndRecord env filename token fingerprint body w

/-- The function `uploadFile` of `main.go` (lines 127-139, then
`uploadFingerprinted`).  The result is the returned error (`none` for nil)
and the state after the call. -/
def uploadFile (fs : FileSystem) (env : Env) (filename : String) (token : Token) (w : World) :
    Option UploadError × World :=
  match osOpen fs filename with
  | none => (some UploadError.openingFile, w)
  | some upload =>
    match copyN sha256New upload imageFingerprintSize with
    | (_, _, _, some e) => (some (UploadError.readingFile e), w)
    | (h, upload, _, none) =>
      uploadFingerprinted env filename token (hexEncodeToString h.sum) upload w

/-- The fingerprint of a file content: the hexadecimal SHA-256 of its first
`imageFingerprintSize` bytes. -/
def fingerprintOf (content : List Nat) : String :=
  hexEncodeToString (sha256 (content.take imageFingerprintSize))

/-- The requests of a trace, in order. -/
def sentRequests : List Event → List Request
  | [] => []
  | Event.send r :: es => r :: sentRequests es
  | _ :: es => sentRequests es

/-- The fingerprints looked up in a trace, in order. -/
def queriedKeys : List Event → List String
  | [] => []
  | Event.query k :: es => k :: queriedKeys es
  | _ :: es => queriedKeys es

/-- The rows a trace tried to insert, in order. -/
def insertedRows : List Event → List Row
  | [] => []
  | Event.insert r :: es => r :: insertedRows es
  | _ :: es => insertedRows es

/-- The primary keys of a table. -/
def Table.keys (t : Table) : List String := t.map Row.fingerprint

/-- The paths through `uploadFingerprinted`: for each `return` of lines
140-197, the conditions under which it is reached and the result it gives.
The lookup misses when it ends in any error. -/
inductive Path (env : Env) (filename : String) (token : Token) (fp : String) (upload : File)
    (w : World) : Option UploadError × World → Prop
  | found (hq : env.queryFault = false) (hk : w.db.hasKey fp = true) :
      Path env filename token fp upload w
        (some UploadError.alreadyExists, { db := w.db, log := w.log ++ [Event.query fp] })
  | rawTransport (hq : env.queryFault = true ∨ w.db.hasKey fp = false)
      (h1 : env.roundTrip (rawUploadRequest token filename (upload.seek 0)) = none) :
      Path env filename token fp upload w
        (some UploadError.uploadingImage,
          { db := w.db,
            log := w.log ++ [Event.query fp,
              Event.send (rawUploadRequest token filename (upload.seek 0))] })
  | rawUnread (resp : Response) (hq : env.queryFault = true ∨ w.db.hasKey fp = false)
      (h1 : env.roundTrip (rawUploadRequest token filename (upload.seek 0)) = some resp)
      (hb : resp.body = none) :
      Path env filename token fp upload w
        (some UploadError.readingUploadToken,
          { db := w.db,
            log := w.log ++ [Event.query fp,
              Event.send (rawUploadRequest token filename (upload.seek 0))] })
  | rawStatus (resp : Response) (body : List Nat)
      (hq : env.queryFault = true ∨ w.db.hasKey fp = false)
      (h1 : env.roundTrip (rawUploadRequest token filename (upload.seek 0)) = some resp)
      (hb : resp.body = some body) (hs : resp.statusCode / 100 ≠ 2) :
      Path env filename token fp upload w
        (some UploadError.badStatusUploading,
          { db := w.db,
            log := w.log ++ [Event.query fp,
              Event.send (rawUploadRequest token filename (upload.seek 0))] })
  | regTransport (resp : Response) (body : List Nat)
      (hq : env.queryFault = true ∨ w.db.hasKey fp = false)
      (h1 : env.roundTrip (rawUploadRequest token filename (upload.seek 0)) = some resp)
      (hb : resp.body = some body) (hs : resp.statusCode / 100 = 2)
      (h2 : env.roundTrip (batchCreateRequest token body) = none) :
      Path env filename token fp upload w
        (some UploadError.addingMediaItem,
          { db := w.db,
            log := w.log ++ [Event.query fp,
              Event.send (rawUploadRequest token filename (upload.seek 0)),
              Event.send (batchCreateRequest token body)] })
  | regStatus (resp : Response) (body : List Nat) (resp2 : Response)
      (hq : env.queryFault = true ∨ w.db.hasKey fp = false)
      (h1 : env.roundTrip (rawUploadRequest token filename (upload.seek 0)) = some resp)
      (hb : resp.body = some body) (hs : resp.statusCode / 100 = 2)
      (h2 : env.roundTrip (batchCreateRequest token body) = some resp2)
      (hs2 : resp2.statusCode / 100 ≠ 2) :
      Path env filename token fp upload w
        (some (UploadError.badStatusAdding resp2.statusCode),
          { db := w.db,
            log := w.log ++ [Event.query fp,
              Event.send (rawUploadRequest token filename (upload.seek 0)),
              Event.send (batchCreateRequest token body)] })
  | insertFailed (resp : Response) (body : List Nat) (resp2 : Response) (e : StoreError)
      (hq : env.queryFault = true ∨ w.db.hasKey fp = false)
      (h1 : env.roundTrip (rawUploadRequest token filename (upload.seek 0)) = some resp)
      (hb : resp.body = some body) (hs : resp.statusCode / 100 = 2)
      (h2 : env.roundTrip (batchCreateRequest token body) = some resp2)
      (hs2 : resp2.statusCode / 100 = 2)
      (he : (env.execFault = true ∧ e = StoreError.fault)
        ∨ (env.execFault = false ∧ w.db.hasKey fp = true ∧ e = StoreError.constraint)) :
      Path env filename token fp upload w
        (some (UploadError.store e),
          { db := w.db,
            log := w.log ++ [Event.query fp,
              Event.send (rawUploadRequest token filename (upload.seek 0)),
              Event.send (batchCreateRequest token body),
              Event.insert { fingerprint := fp, filename := filepathBase filename,
                             uploaded := env.now }] })
  | recorded (resp : Response) (body : List Nat) (resp2 : Response)
      (hq : env.queryFault = true ∨ w.db.hasKey fp = false)
      (h1 : env.roundTrip (rawUploadRequest token filename (upload.seek 0)) = some resp)
      (hb : resp.body = some body) (hs : resp.statusCode / 100 = 2)
      (h2 : env.roundTrip (batchCreateRequest token body) = some resp2)
      (hs2 : resp2.statusCode / 100 = 2)
      (hx : env.execFault = false) (hk : w.db.hasKey fp = false) :
      Path env filename token fp upload w
        (none,
          { db := w.db ++ [{ fingerprint := fp, filename := filepathBase filename,
                             uploaded := env.now }],
            log := w.log ++ [Event.query fp,
              Event.send (rawUploadRequest token filename (upload.seek 0)),
              Event.send (batchCreateRequest token body),
              Event.insert { fingerprint := fp, filename := filepathBase filename,
                             uploaded := env.now }] })

/-- The effects of one call of `uploadFile`: what it adds to the trace. -/
def effectsOf (fs : FileSystem) (env : Env) (filename : String) (token : Token) (w : World) :
    List Event :=
  (uploadFile fs env filename token w).2.log.drop w.log.length

/-- The pipeline run sequentially: `uploadFile` on each path in turn, each
call with its own behaviour of the outside. -/
def runAll (fs : FileSystem) (token : Token) : List (String × Env) → World → World
  | [], w => w
  | job :: rest, w => runAll fs token rest (uploadFile fs job.2 job.1 token w).2

/-! ## Interleaved calls of `uploadFile`

Several calls of `uploadFile` run at the same time on the shared table.  The
steps that touch the shared state are the lookup, the two remote calls and the
insert; each is one atomic step of a call, and a schedule says which call moves
next. -/

/-- Where a call of `uploadFile` stands after the fingerprint, with the local
variables it still needs: before the lookup (line 141), before the raw upload
(lines 145-165), before the registration (lines 166-194), before the insert
(line 196), or returned. -/
inductive Run
  | lookup (filename fingerprint : String) (upload : File)
  | rawUpload (filename fingerprint : String) (upload : File)
  | register (filename fingerprint : String) (uploadToken : List Nat)
  | insert (filename fingerprint : String)
  | done (err : Option UploadError)
  deriving DecidableEq, Repr

/-- One atomic step of a call: the statements of `uploadFingerprinted` up to
and including the next access to the table or to the service. -/
def Run.step (env : Env) (token : Token) : Run → World → Run × World
  | Run.lookup filename fingerprint upload, w =>
    match queryRowScan env fingerprint w with
    | (none, w) => (Run.done (some UploadError.alreadyExists), w)
    | (some _, w) => (Run.rawUpload filename fingerprint upload, w)
  | Run.rawUpload filename fingerprint upload, w =>
    let upload := upload.seek 0
    match clientDo env (rawUploadRequest token filename upload) w with
    | (none, w) => (Run.done (some UploadError.uploadingImage), w)
    | (some resp, w) =>
      match resp.body with
      | none => (Run.done (some UploadError.readingUploadToken), w)
      | some body =>
        if resp.statusCode / 100 ≠ 2 then (Run.done (some UploadError.badStatusUploading), w)
        else (Run.register filename fingerprint body, w)
  | Run.register filename fingerprint uploadToken, w =>
    match clientDo env (batchCreateRequest token uploadToken) w with
    | (none, w) => (Run.done (some UploadError.addingMediaItem), w)
    | (some resp, w) =>
      if resp.statusCode / 100 ≠ 2 then
        (Run.done (some (UploadError.badStatusAdding resp.statusCode)), w)
      else (Run.insert filename fingerprint, w)
  | Run.insert filename fingerprint, w =>
    match dbExecInsert env
        { fingerprint := fingerprint, filename := filepathBase filename,
          uploaded := env.now } w with
    | (err, w) => (Run.done (err.map UploadError.store), w)
  | Run.done err, w => (Run.done err, w)

/-- Let the call number `i` of the list make one step (nothing happens when
there is no such call or when it has returned). -/
def stepAt (token : Token) : Nat → List (Env × Run) → World → List (Env × Run) × World
  | _, [], w => ([], w)
  | 0, t :: rest, w => ((t.1, (t.2.step t.1 token w).1) :: rest, (t.2.step t.1 token w).2)
  | i + 1, t :: rest, w => (t :: (stepAt token i rest w).1, (stepAt token i rest w).2)

/-- Run a schedule: the calls move one step at a time in the given order. -/
def exec (token : Token) : List Nat → List (Env × Run) × World → List (Env × Run) × World
  | [], s => s
  | i :: schedule, s => exec token schedule (stepAt token i s.1 s.2)

/-- The outside of a call in which nothing fails: the database answers, and
the service answers every request with a 2xx status and a readable body. -/
def Env.succeeds (env : Env) : Prop :=
  env.queryFault = false ∧ env.execFault = false
    ∧ ∀ r, ∃ resp body, env.roundTrip r = some resp ∧ resp.body = some body
        ∧ resp.statusCode / 100 = 2

/-- The calls start at the lookup of the same fingerprint, each with its own
file name, handle and outside. -/
def startAll (fp : String) (calls : List (Env × String × File)) : List (Env × Run) :=
  calls.map fun c => (c.1, Run.lookup c.2.1 fp c.2.2)

/-- The number of rows of the table with this fingerprint. -/
def Table.rowsOf (t : Table) (fp : String) : Nat :=
  (t.filter fun r => r.fingerprint = fp).length

/-- The number of calls that returned nil. -/
def succeeded (runs : List (Env × Run)) : Nat :=
  (runs.filter fun t => t.2 = Run.done none).length

/-- A call on the fingerprint `fp` that is still running, or that returned
nil, the duplicate error of the lookup, or the key-constraint error of the
insert. -/
def Run.onKey (fp : String) : Run → Prop
  | Run.lookup _ k _ => k = fp
  | Run.rawUpload _ k _ => k = fp
  | Run.register _ k _ => k = fp
  | Run.insert _ k => k = fp
  | Run.done e => e = none ∨ e = some UploadError.alreadyExists
      ∨ e = some (UploadError.store StoreError.constraint)

/-- A call that returned an error. -/
def Run.failed : Run → Prop
  | Run.done (some _) => True
  | _ => False

/-- A call that has returned. -/
def Run.returned : Run → Prop
  | Run.done _ => True
  | _ => False

/-- The state of calls racing on the fingerprint `fp` with nothing failing:
the rows of `fp` are as many as the calls that returned nil, at most one, and
exactly one as soon as a call returned an error. -/
def Settled (fp : String) (runs : List (Env × Run)) (w : World) : Prop :=
  (∀ t ∈ runs, t.1.succeeds ∧ t.2.onKey fp)
    ∧ w.db.rowsOf fp = succeeded runs
    ∧ w.db.rowsOf fp ≤ 1
    ∧ ((∃ t ∈ runs, t.2.failed) → w.db.rowsOf fp = 1)

/-- The number of steps a call can still make. -/
def Run.stepsLeft : Run → Nat
  | Run.lookup _ _ _ => 4
  | Run.rawUpload _ _ _ => 3
  | Run.register _ _ _ => 2
  | Run.insert _ _ => 1
  | Run.done _ => 0

/-- The schedule in which each of `n` calls makes one step, in order, four
times over. -/
def fourSweeps (n : Nat) : List Nat :=
  List.range n ++ List.range n ++ List.range n ++ List.range n

/-! ## The worker pool of `main`

Lines 100-124: the producer walks the directories and, for each image path,
runs `wg.Add(1)` and then sends the path on the channel `jobs` (capacity 100);
each worker receives a path, calls `uploadFile` and runs `wg.Done()`; the
producer closes the channel at the end.  Every statement that touches the
shared state is one atomic action; a scheduler picks the next action. -/

/-- Source: `make(chan string, 100)`. -/
def queueCapacity : Nat := 100

/-- Lines 127-139 of `uploadFile`, seen as the first step of a call: the open
and the fingerprint, which touch no shared state. -/
def startRun (fs : FileSystem) (filename : String) : Run :=
  match osOpen fs filename with
  | none => Run.done (some UploadError.openingFile)
  | some upload =>
    match copyN sha256New upload imageFingerprintSize with
    | (_, _, _, some e) => Run.done (some (UploadError.readingFile e))
    | (h, upload, _, none) => Run.lookup filename (hexEncodeToString h.sum) upload

/-- A worker goroutine (lines 105-110): waiting at `range jobs`, holding a
received path, inside `uploadFile` (when the run is done, `uploadFile` has
returned and `wg.Done()` comes next), or past the end of its loop. -/
inductive Worker
  | idle
  | received (path : String)
  | inCall (path : String) (run : Run)
  | exited
  deriving DecidableEq, Repr

/-- Everything the goroutines share, with what the producer still has to do:
the paths not yet reached by the walk, the path for which `wg.Add(1)` ran and
which is about to be sent, the channel buffer, whether the channel is closed,
the counter of the wait group, the table and trace, and three records kept for
the proofs: the paths added, the paths `uploadFile` was called with, and the
calls after which `wg.Done()` ran, with their results. -/
structure Shared where
  pending : List String
  holding : Option String
  queue : List String
  closed : Bool
  counter : Int
  world : World
  added : List String
  called : List String
  finished : List (String × Option UploadError)

/-- One action of a worker.  `range jobs` takes the oldest path of the buffer,
ends the loop when the channel is closed and empty, and blocks otherwise; the
result of `uploadFile` is dropped, whatever it is. -/
def Worker.step (fs : FileSystem) (env : Env) (token : Token) :
    Worker → Shared → Worker × Shared
  | Worker.idle, s =>
    match s.queue with
    | p :: rest => (Worker.received p, { s with queue := rest })
    | [] => if s.closed then (Worker.exited, s) else (Worker.idle, s)
  | Worker.received p, s =>
    (Worker.inCall p (startRun fs p), { s with called := s.called ++ [p] })
  | Worker.inCall p (Run.done e), s =>
    (Worker.idle, { s with counter := s.counter - 1, finished := s.finished ++ [(p, e)] })
  | Worker.inCall p r, s =>
    (Worker.inCall p (r.step env token s.world).1,
      { s with world := (r.step env token s.world).2 })
  | Worker.exited, s => (Worker.exited, s)

/-- Let the worker number `i` act. -/
def workAt (fs : FileSystem) (env : Env) (token : Token) :
    Nat → List Worker → Shared → List Worker × Shared
  | _, [], s => ([], s)
  | 0, wk :: rest, s =>
    ((wk.step fs env token s).1 :: rest, (wk.step fs env token s).2)
  | i + 1, wk :: rest, s =>
    (wk :: (workAt fs env token i rest s).1, (workAt fs env token i rest s).2)

/-- The actions of the pool: the producer adds to the wait group, sends, or
closes the channel; a worker acts, with the outside behaving as `env`. -/
inductive Action
  | add
  | send
  | close
  | work (i : Nat) (env : Env)

/-- One action.  An action that is not enabled (a send on a full buffer, a
receive on an empty open channel, ...) changes nothing. -/
def poolStep (fs : FileSystem) (token : Token) :
    Action → List Worker × Shared → List Worker × Shared
  | Action.add, (ws, s) =>
    match s.holding, s.pending with
    | none, p :: rest =>
      (ws, { s with pending := rest, holding := some p, counter := s.counter + 1,
                    added := s.added ++ [p] })
    | _, _ => (ws, s)
  | Action.send, (ws, s) =>
    match s.holding with
    | some p =>
      if s.queue.length < queueCapacity then
        (ws, { s with holding := none, queue := s.queue ++ [p] })
      else (ws, s)
    | none => (ws, s)
  | Action.close, (ws, s) =>
    match s.holding, s.pending with
    | none, [] => (ws, { s with closed := true })
    | _, _ => (ws, s)
  | Action.work i env, (ws, s) => workAt fs env token i ws s

/-- Run a sequence of actions. -/
def poolExec (fs : FileSystem) (token : Token) :
    List Action → List Worker × Shared → List Worker × Shared
  | [], st => st
  | a :: rest, st => poolExec fs token rest (poolStep fs token a st)

/-- The start of the pool: `n` idle workers, nothing added yet. -/
def poolStart (n : Nat) (paths : List String) (w : World) : List Worker × Shared :=
  (List.replicate n Worker.idle,
    { pending := paths, holding := none, queue := [], closed := false, counter := 0,
      world := w, added := [], called := [], finished := [] })

/-- How many workers hold the path `p` without having called `uploadFile`. -/
def receivedCount (p : String) : List Worker → Nat
  | [] => 0
  | Worker.received q :: rest => (if q = p then 1 else 0) + receivedCount p rest
  | _ :: rest => receivedCount p rest

/-- How many workers are inside a call with the path `p`, or between its
return and `wg.Done()`. -/
def inCallCount (p : String) : List Worker → Nat
  | [] => 0
  | Worker.inCall q _ :: rest => (if q = p then 1 else 0) + inCallCount p rest
  | _ :: rest => inCallCount p rest

/-- How many workers hold a path. -/
def busyCount : List Worker → Nat
  | [] => 0
  | Worker.received _ :: rest => 1 + busyCount rest
  | Worker.inCall _ _ :: rest => 1 + busyCount rest
  | _ :: rest => busyCount rest

/-- How many workers wait at the channel. -/
def idleCount : List Worker → Nat
  | [] => 0
  | Worker.idle :: rest => 1 + idleCount rest
  | _ :: rest => idleCount rest

/-- How many workers have left their loop. -/
def exitedCount : List Worker → Nat
  | [] => 0
  | Worker.exited :: rest => 1 + exitedCount rest
  | _ :: rest => exitedCount rest

/-- A bound on the actions a worker can still take on its own. -/
def Worker.weight : Worker → Nat
  | Worker.idle => 1
  | Worker.received _ => 8
  | Worker.inCall _ r => r.stepsLeft + 2
  | Worker.exited => 0

/-- The sum of the weights of the workers. -/
def weightSum : List Worker → Nat
  | [] => 0
  | wk :: rest => wk.weight + weightSum rest

/-- A bound on the number of actions that can still change the state. -/
def poolMeasure (st : List Worker × Shared) : Nat :=
  10 * st.2.pending.length + 9 * st.2.holding.toList.length + 8 * st.2.queue.length
    + weightSum st.1 + (if st.2.closed then 0 else 1)

/-- The invariant of the pool for the paths `paths` handed to the producer. -/
structure PoolInv (paths : List String) (st : List Worker × Shared) : Prop where
  walked : st.2.added ++ st.2.pending = paths
  count : st.2.counter + st.2.finished.length = st.2.added.length
  flow : st.2.added.length
    = st.2.holding.toList.length + st.2.queue.length + busyCount st.1 + st.2.finished.length
  uncalled : ∀ p, st.2.added.count p
    = st.2.holding.toList.count p + st.2.queue.count p + receivedCount p st.1
      + st.2.called.count p
  calls : ∀ p, st.2.called.count p
    = inCallCount p st.1 + (st.2.finished.map Prod.fst).count p
  closing : st.2.closed = true → st.2.holding = none ∧ st.2.pending = []
  leaving : 0 < exitedCount st.1 → st.2.closed = true ∧ st.2.queue = []

/-- What an action of the workers `ws` keeps and changes: it leaves the
producer alone, hands each path on from the buffer to a worker, to the calls
and to the finished calls, and takes the state closer to the end. -/
structure WorkRel (ws : List Worker) (s : Shared) (ws2 : List Worker) (s2 : Shared) : Prop where
  pending : s2.pending = s.pending
  holding : s2.holding = s.holding
  added : s2.added = s.added
  closed : s2.closed = s.closed
  count : s2.counter + s2.finished.length = s.counter + s.finished.length
  flow : s2.queue.length + busyCount ws2 + s2.finished.length
    = s.queue.length + busyCount ws + s.finished.length
  uncalled : ∀ p, s2.queue.count p + receivedCount p ws2 + s2.called.count p
    = s.queue.count p + receivedCount p ws + s.called.count p
  calls : ∀ p, s2.called.count p + inCallCount p ws + (s.finished.map Prod.fst).count p
    = s.called.count p + inCallCount p ws2 + (s2.finished.map Prod.fst).count p
  leaving : 0 < exitedCount ws2 → 0 < exitedCount ws ∨ (s.closed = true ∧ s.queue = [])
  drained : s.queue = [] → s2.queue = []
  measure : (ws2, s2) = (ws, s)
    ∨ 8 * s2.queue.length + weightSum ws2 < 8 * s.queue.length + weightSum ws
  length : ws2.length = ws.length

/-- The state of the pool of `n` workers on the paths `paths` after a sequence
of actions. -/
def poolAfter (fs : FileSystem) (token : Token) (n : Nat) (paths : List String) (w : World)
    (actions : List Action) : List Worker × Shared :=
  poolExec fs token actions (poolStart n paths w)

/-! ## Decoding JSON

The registration body is read back with a decoder written from RFC 8259. -/

/-- A JSON value (RFC 8259).  Strings are byte strings; a number keeps its
literal. -/
inductive JSON
  | null
  | bool (b : Bool)
  | number (literal : List Nat)
  | string (s : List Nat)
  | array (elems : List JSON)
  | object (members : List (List Nat × JSON))

/-- The four whitespace bytes of JSON. -/
def isSpace (b : Nat) : Bool := b = 0x20 || b = 0x09 || b = 0x0A || b = 0x0D

/-- Drop leading whitespace. -/
def skipSpace : List Nat → List Nat
  | [] => []
  | b :: rest => if isSpace b then skipSpace rest else b :: rest

/-- The value of a hexadecimal digit. -/
def hexValue (b : Nat) : Option Nat :=
  if 0x30 ≤ b ∧ b ≤ 0x39 then some (b - 0x30)
  else if 0x61 ≤ b ∧ b ≤ 0x66 then some (b - 0x61 + 10)
  else if 0x41 ≤ b ∧ b ≤ 0x46 then some (b - 0x41 + 10)
  else none

/-- The code unit written by four hexadecimal digits. -/
def hex4 (a b c d : Nat) : Option Nat :=
  match hexValue a, hexValue b, hexValue c, hexValue d with
  | some x, some y, some z, some w => some (((x * 16 + y) * 16 + z) * 16 + w)
  | _, _, _, _ => none

/-- The UTF-8 encoding of a code point. -/
def encodeRune (c : Nat) : List Nat :=
  if c < 0x80 then [c]
  else if c < 0x800 then [0xC0 + c / 64, 0x80 + c % 64]
  else if c < 0x10000 then [0xE0 + c / 4096, 0x80 + (c / 64) % 64, 0x80 + c % 64]
  else [0xF0 + c / 262144, 0x80 + (c / 4096) % 64, 0x80 + (c / 64) % 64, 0x80 + c % 64]

/-- The byte meant by a two-character escape. -/
def simpleEscape (c : Nat) : Option Nat :=
  if c = 0x22 then some 0x22
  else if c = 0x5C then some 0x5C
  else if c = 0x2F then some 0x2F
  else if c = 0x62 then some 0x08
  else if c = 0x66 then some 0x0C
  else if c = 0x6E then some 0x0A
  else if c = 0x72 then some 0x0D
  else if c = 0x74 then some 0x09
  else none

/-- Put decoded bytes in front of the rest of a decoded string. -/
def prepend (p : List Nat) (r : Option (List Nat × List Nat)) : Option (List Nat × List Nat) :=
  r.map fun x => (p ++ x.1, x.2)

/-- Decode a string literal after its opening quote: returns the decoded
bytes and the input after the closing quote.  Escapes are decoded (a pair of
surrogate escapes gives one code point, a lone surrogate U+FFFD), control
bytes are rejected, every other byte is copied.  The first argument bounds
the number of steps. -/
def parseStringBody : Nat → List Nat → Option (List Nat × List Nat)
  | 0, _ => none
  | _ + 1, [] => none
  | fuel + 1, b :: rest =>
    if b = 0x22 then some ([], rest)
    else if b = 0x5C then
      match rest with
      | [] => none
      | c :: rest2 =>
        if c = 0x75 then
          match rest2 with
          | h1 :: h2 :: h3 :: h4 :: rest3 =>
            match hex4 h1 h2 h3 h4 with
            | none => none
            | some hi =>
              if 0xD800 ≤ hi ∧ hi < 0xDC00 then
                match rest3 with
                | e1 :: e2 :: l1 :: l2 :: l3 :: l4 :: rest4 =>
                  match hex4 l1 l2 l3 l4 with
                  | some lo =>
                    if e1 = 0x5C ∧ e2 = 0x75 ∧ 0xDC00 ≤ lo ∧ lo < 0xE000 then
                      prepend (encodeRune (0x10000 + (hi - 0xD800) * 1024 + (lo - 0xDC00)))
                        (parseStringBody fuel rest4)
                    else prepend (encodeRune 0xFFFD) (parseStringBody fuel rest3)
                  | none => prepend (encodeRune 0xFFFD) (parseStringBody fuel rest3)
                | _ => prepend (encodeRune 0xFFFD) (parseStringBody fuel rest3)
              else if 0xDC00 ≤ hi ∧ hi < 0xE000 then
                prepend (encodeRune 0xFFFD) (parseStringBody fuel rest3)
              else prepend (encodeRune hi) (parseStringBody fuel rest3)
          | _ => none
        else
          match simpleEscape c with
          | some v => prepend [v] (parseStringBody fuel rest2)
          | none => none
    else if b < 0x20 then none
    else prepend [b] (parseStringBody fuel rest)

/-- The bytes of a number literal. -/
def isNumberByte (b : Nat) : Bool :=
  (0x30 ≤ b && b ≤ 0x39) || b = 0x2D || b = 0x2B || b = 0x2E || b = 0x65 || b = 0x45

mutual
/-- Decode one JSON value, with the input after it.  The first argument
bounds the depth and the number of elements. -/
def parseValue : Nat → List Nat → Option (JSON × List Nat)
  | 0, _ => none
  | fuel + 1, input =>
    match skipSpace input with
    | [] => none
    | b :: rest =>
      if b = 0x22 then (parseStringBody rest.length rest).map fun x => (JSON.string x.1, x.2)
      else if b = 0x5B then
        match skipSpace rest with
        | 0x5D :: rest2 => some (JSON.array [], rest2)
        | _ => (parseElements fuel rest).map fun x => (JSON.array x.1, x.2)
      else if b = 0x7B then
        match skipSpace rest with
        | 0x7D :: rest2 => some (JSON.object [], rest2)
        | _ => (parseMembers fuel rest).map fun x => (JSON.object x.1, x.2)
      else if (b :: rest).take 4 = [0x74, 0x72, 0x75, 0x65] then
        some (JSON.bool true, (b :: rest).drop 4)
      else if (b :: rest).take 5 = [0x66, 0x61, 0x6C, 0x73, 0x65] then
        some (JSON.bool false, (b :: rest).drop 5)
      else if (b :: rest).take 4 = [0x6E, 0x75, 0x6C, 0x6C] then
        some (JSON.null, (b :: rest).drop 4)
      else if (0x30 ≤ b ∧ b ≤ 0x39) ∨ b = 0x2D then
        some (JSON.number ((b :: rest).takeWhile isNumberByte),
          (b :: rest).dropWhile isNumberByte)
      else none
/-- Decode the elements of an array up to its closing bracket. -/
def parseElements : Nat → List Nat → Option (List JSON × List Nat)
  | 0, _ => none
  | fuel + 1, input =>
    match parseValue fuel input with
    | none => none
    | some (v, rest) =>
      match skipSpace rest with
      | b :: rest2 =>
        if b = 0x2C then (parseElements fuel rest2).map fun x => (v :: x.1, x.2)
        else if b = 0x5D then some ([v], rest2)
        else none
      | [] => none
/-- Decode the members of an object up to its closing brace. -/
def parseMembers : Nat → List Nat → Option (List (List Nat × JSON) × List Nat)
  | 0, _ => none
  | fuel + 1, input =>
    match skipSpace input with
    | b :: rest =>
      if b = 0x22 then
        match parseStringBody rest.length rest with
        | none => none
        | some (key, rest2) =>
          match skipSpace rest2 with
          | c :: rest3 =>
            if c = 0x3A then
              match parseValue fuel rest3 with
              | none => none
              | some (v, rest4) =>
                match skipSpace rest4 with
                | d :: rest5 =>
                  if d = 0x2C then (parseMembers fuel rest5).map fun x => ((key, v) :: x.1, x.2)
                  else if d = 0x7D then some ([(key, v)], rest5)
                  else none
                | [] => none
            else none
          | [] => none
      else none
    | [] => none
end

/-- Decode a JSON document: one value, with whitespace around it. -/
def jsonDecode (input : List Nat) : Option JSON :=
  match parseValue input.length input with
  | some (v, rest) => if skipSpace rest = [] then some v else none
  | none => none


/-- The loop of `utf8.Valid`: no position of the string yields `RuneError`
with width 1. -/
def validLoop : Nat → List Nat → Bool
  | 0, src => src.isEmpty
  | _ + 1, [] => true
  | fuel + 1, b :: rest =>
    if b < 0x80 then validLoop fuel rest
    else if (decodeRune (b :: rest)).1 = runeError ∧ (decodeRune (b :: rest)).2 = 1 then false
    else validLoop fuel ((b :: rest).drop (decodeRune (b :: rest)).2)

/-- The function `utf8.Valid`. -/
def validUTF8 (src : List Nat) : Bool := validLoop src.length src

/-- The document the registration endpoint is sent for the upload token `t`. -/
def expectedDocument (t : List Nat) : JSON :=
  JSON.object [(bytesOf "newMediaItems", JSON.array [JSON.object [
    (bytesOf "description", JSON.string []),
    (bytesOf "simpleMediaItem", JSON.object [(bytesOf "uploadToken", JSON.string t)])]])]

/-- A service that answers every request with status 200 and the one-byte
body `0xFF`, which is not valid UTF-8. -/
def garbledService : Env :=
  { queryFault := false
    roundTrip := fun _ => some { statusCode := 200, body := some [0xFF] }
    execFault := false
    now := 1700000000 }

/-! ## Sample inputs -/

/-- The content `"X"*9000`. -/
def imageX : List Nat := List.replicate 9000 88

/-- A content that shares with `imageX` its first 8192 bytes only. -/
def imageY : List Nat := List.replicate 8192 88 ++ [1, 2, 3]

/-- A directory with two images of 9000 bytes `X`, a third image that shares
their first 8192 bytes only, a six-byte image and an empty one. -/
def sampleFS : FileSystem := fun p =>
  if p = "dir/a.jpg" ∨ p = "dir/b.jpg" then some { content := imageX, readable := true }
  else if p = "dir/c.jpg" then some { content := imageY, readable := true }
  else if p = "dir/small.gif" then some { content := [71, 73, 70, 56, 57, 97], readable := true }
  else if p = "dir/empty.png" then some { content := [], readable := true }
  else none

/-- A service that answers every request with status 200 and the body `tok`,
and a database that does not fail. -/
def acceptAll : Env :=
  { queryFault := false
    roundTrip := fun _ => some { statusCode := 200, body := some (bytesOf "tok") }
    execFault := false
    now := 1700000000 }

/-- A database whose SELECT fails, and a service that cannot be reached. -/
def faultyLookup : Env :=
  { queryFault := true
    roundTrip := fun _ => none
    execFault := false
    now := 1700000000 }

/-- Some token. -/
def sampleToken : Token := { authorization := "Bearer secret" }

/-- The empty table and the empty trace. -/
def freshWorld : World := { db := [], log := [] }

/-- Two calls racing on the two images of 9000 bytes `X`, each past its
fingerprint, against a service that accepts everything. -/
def sampleCalls : List (Env × String × File) :=
  [(acceptAll, "dir/a.jpg", { content := imageX, readable := true, offset := 8192 }),
   (acceptAll, "dir/b.jpg", { content := imageX, readable := true, offset := 8192 })]

/-- A complete run of one worker on a path that cannot be opened and on the
six-byte image: both calls return an error. -/
def sampleActions : List Action :=
  [Action.add, Action.send, Action.work 0 acceptAll, Action.work 0 acceptAll,
   Action.work 0 acceptAll, Action.add, Action.send, Action.work 0 acceptAll,
   Action.work 0 acceptAll, Action.work 0 acceptAll, Action.close, Action.work 0 acceptAll]

/-! # Theorems -/

/-! ## Fingerprinting -/

theorem copyN_of_long (dst : Hash) (src : File) (n : Nat) (hr : src.readable = true)
    (hlen : src.offset + n ≤ src.content.length) :
    copyN dst src n
      = (dst.write ((src.content.drop src.offset).take n),
          { src with offset := src.offset + n }, n, none) := by
  have hl : ((src.content.drop src.offset).take n).length = n := by
    rw [List.length_take, List.length_drop]; omega
  simp [copyN, hr, hl]

theorem copyN_of_short (dst : Hash) (src : File) (n : Nat) (hr : src.readable = true)
    (hn : 0 < n) (hlen : src.content.length < src.offset + n) :
    (copyN dst src n).2.2.2 = some ReadError.eof := by
  have hl : ((src.content.drop src.offset).take n).length ≠ n := by
    rw [List.length_take, List.length_drop]; omega
  have hlt : src.content.length - src.offset < n := by omega
  simp [copyN, hr, hl, hlt]

theorem copyN_of_unreadable (dst : Hash) (src : File) (n : Nat) (hr : src.readable = false) :
    (copyN dst src n).2.2.2 = some ReadError.fault := by
  simp [copyN, hr]

/-- A file shorter than the fingerprint size makes `uploadFile` return the
read error, before anything is looked up or sent. -/
theorem uploadFile_of_short (fs : FileSystem) (env : Env) (filename : String) (token : Token)
    (w : World) (f : OSFile) (hf : fs filename = some f) (hr : f.readable = true)
    (hlen : f.content.length < imageFingerprintSize) :
    uploadFile fs env filename token w = (some (UploadError.readingFile ReadError.eof), w) := by
  have h := copyN_of_short sha256New
    { content := f.content, readable := f.readable, offset := 0 } imageFingerprintSize hr
    (by decide) (by simpa using hlen)
  simp only [uploadFile, osOpen, hf, Option.map_some']
  split
  · rename_i e heq
    rw [heq] at h
    simp only [Option.some.injEq] at h
    rw [h]
  · rename_i heq
    rw [heq] at h
    simp at h

theorem uploadFile_of_missing (fs : FileSystem) (env : Env) (filename : String) (token : Token)
    (w : World) (hf : fs filename = none) :
    uploadFile fs env filename token w = (some UploadError.openingFile, w) := by
  simp [uploadFile, osOpen, hf]

theorem uploadFile_of_unreadable (fs : FileSystem) (env : Env) (filename : String)
    (token : Token) (w : World) (f : OSFile) (hf : fs filename = some f)
    (hr : f.readable = false) :
    uploadFile fs env filename token w = (some (UploadError.readingFile ReadError.fault), w) := by
  simp [uploadFile, osOpen, hf, copyN, hr]

/-- A readable file of at least `imageFingerprintSize` bytes reaches the
lookup with the fingerprint of its first bytes and the handle left after
them. -/
theorem uploadFile_of_long (fs : FileSystem) (env : Env) (filename : String) (token : Token)
    (w : World) (f : OSFile) (hf : fs filename = some f) (hr : f.readable = true)
    (hlen : imageFingerprintSize ≤ f.content.length) :
    uploadFile fs env filename token w
      = uploadFingerprinted env filename token (fingerprintOf f.content)
          { content := f.content, readable := f.readable, offset := imageFingerprintSize } w := by
  have h := copyN_of_long sha256New
    { content := f.content, readable := f.readable, offset := 0 } imageFingerprintSize hr
    (by simpa using hlen)
  simp only [uploadFile, osOpen, hf, Option.map_some', h]
  simp [Hash.sum, Hash.write, sha256New, fingerprintOf]

@[simp] theorem emit_log (w : World) (e : Event) : (w.emit e).log = w.log ++ [e] := rfl

@[simp] theorem emit_db (w : World) (e : Event) : (w.emit e).db = w.db := rfl

theorem queryRowScan_snd (env : Env) (fp : String) (w : World) :
    (queryRowScan env fp w).2 = w.emit (Event.query fp) := by
  unfold queryRowScan
  split
  · rfl
  · split <;> rfl

theorem queryRowScan_fst_eq_none (env : Env) (fp : String) (w : World) :
    (queryRowScan env fp w).1 = none ↔ env.queryFault = false ∧ w.db.hasKey fp = true := by
  unfold queryRowScan
  cases hq : env.queryFault <;> cases hk : w.db.hasKey fp <;> simp

theorem queryRowScan_miss_iff (env : Env) (fp : String) (w : World) :
    (queryRowScan env fp w).1 ≠ none ↔ (env.queryFault = true ∨ w.db.hasKey fp = false) := by
  rw [Ne, queryRowScan_fst_eq_none]
  cases env.queryFault <;> cases w.db.hasKey fp <;> simp

theorem dbExecInsert_log (env : Env) (row : Row) (w : World) :
    (dbExecInsert env row w).2.log = w.log ++ [Event.insert row] := by
  unfold dbExecInsert
  split
  · rfl
  · split <;> rfl

theorem dbExecInsert_db (env : Env) (row : Row) (w : World) :
    (dbExecInsert env row w).2.db
      = if env.execFault = false ∧ w.db.hasKey row.fingerprint = false then w.db ++ [row]
        else w.db := by
  unfold dbExecInsert
  cases hq : env.execFault <;> cases hk : w.db.hasKey row.fingerprint <;> simp

theorem dbExecInsert_fst (env : Env) (row : Row) (w : World) :
    (dbExecInsert env row w).1
      = if env.execFault = true then some StoreError.fault
        else if w.db.hasKey row.fingerprint = true then some StoreError.constraint else none := by
  unfold dbExecInsert
  cases hq : env.execFault <;> cases hk : w.db.hasKey row.fingerprint <;> simp

/-! ### The paths through `registerAndRecord` -/

theorem registerAndRecord_of_transport (env : Env) (filename : String) (token : Token)
    (fp : String) (ut : List Nat) (w : World)
    (h : env.roundTrip (batchCreateRequest token ut) = none) :
    registerAndRecord env filename token fp ut w
      = (some UploadError.addingMediaItem, w.emit (Event.send (batchCreateRequest token ut))) := by
  simp [registerAndRecord, clientDo, h]

theorem registerAndRecord_of_status (env : Env) (filename : String) (token : Token)
    (fp : String) (ut : List Nat) (w : World) (resp : Response)
    (h : env.roundTrip (batchCreateRequest token ut) = some resp)
    (hs : resp.statusCode / 100 ≠ 2) :
    registerAndRecord env filename token fp ut w
      = (some (UploadError.badStatusAdding resp.statusCode),
          w.emit (Event.send (batchCreateRequest token ut))) := by
  simp [registerAndRecord, clientDo, h, hs]

theorem registerAndRecord_of_ok (env : Env) (filename : String) (token : Token)
    (fp : String) (ut : List Nat) (w : World) (resp : Response)
    (h : env.roundTrip (batchCreateRequest token ut) = some resp)
    (hs : resp.statusCode / 100 = 2) :
    registerAndRecord env filename token fp ut w
      = ((dbExecInsert env
            { fingerprint := fp, filename := filepathBase filename, uploaded := env.now }
            (w.emit (Event.send (batchCreateRequest token ut)))).1.map UploadError.store,
          (dbExecInsert env
            { fingerprint := fp, filename := filepathBase filename, uploaded := env.now }
            (w.emit (Event.send (batchCreateRequest token ut)))).2) := by
  simp [registerAndRecord, clientDo, h, hs]

/-! ### The paths through `uploadFingerprinted` -/

theorem queryRowScan_of_miss (env : Env) (fp : String) (w : World)
    (hq : env.queryFault = true ∨ w.db.hasKey fp = false) :
    ∃ e, queryRowScan env fp w = (some e, w.emit (Event.query fp)) := by
  unfold queryRowScan
  cases hf : env.queryFault
  · rcases hq with hq | hq
    · rw [hf] at hq; cases hq
    · exact ⟨StoreError.noRows, by simp [hq]⟩
  · exact ⟨StoreError.fault, by simp⟩

theorem uploadFingerprinted_of_found (env : Env) (filename : String) (token : Token)
    (fp : String) (upload : File) (w : World)
    (hq : env.queryFault = false) (hk : w.db.hasKey fp = true) :
    uploadFingerprinted env filename token fp upload w
      = (some UploadError.alreadyExists, w.emit (Event.query fp)) := by
  simp [uploadFingerprinted, queryRowScan, hq, hk]

theorem uploadFingerprinted_of_transport (env : Env) (filename : String) (token : Token)
    (fp : String) (upload : File) (w : World)
    (hq : env.queryFault = true ∨ w.db.hasKey fp = false)
    (h : env.roundTrip (rawUploadRequest token filename (upload.seek 0)) = none) :
    uploadFingerprinted env filename token fp upload w
      = (some UploadError.uploadingImage,
          (w.emit (Event.query fp)).emit
            (Event.send (rawUploadRequest token filename (upload.seek 0)))) := by
  obtain ⟨e, he⟩ := queryRowScan_of_miss env fp w hq
  simp [uploadFingerprinted, he, clientDo, h]

theorem uploadFingerprinted_of_unread (env : Env) (filename : String) (token : Token)
    (fp : String) (upload : File) (w : World) (resp : Response)
    (hq : env.queryFault = true ∨ w.db.hasKey fp = false)
    (h : env.roundTrip (rawUploadRequest token filename (upload.seek 0)) = some resp)
    (hb : resp.body = none) :
    uploadFingerprinted env filename token fp upload w
      = (some UploadError.readingUploadToken,
          (w.emit (Event.query fp)).emit
            (Event.send (rawUploadRequest token filename (upload.seek 0)))) := by
  obtain ⟨e, he⟩ := queryRowScan_of_miss env fp w hq
  simp [uploadFingerprinted, he, clientDo, h, hb]

theorem uploadFingerprinted_of_status (env : Env) (filename : String) (token : Token)
    (fp : String) (upload : File) (w : World) (resp : Response) (body : List Nat)
    (hq : env.queryFault = true ∨ w.db.hasKey fp = false)
    (h : env.roundTrip (rawUploadRequest token filename (upload.seek 0)) = some resp)
    (hb : resp.body = some body) (hs : resp.statusCode / 100 ≠ 2) :
    uploadFingerprinted env filename token fp upload w
      = (some UploadError.badStatusUploading,
          (w.emit (Event.query fp)).emit
            (Event.send (rawUploadRequest token filename (upload.seek 0)))) := by
  obtain ⟨e, he⟩ := queryRowScan_of_miss env fp w hq
  simp [uploadFingerprinted, he, clientDo, h, hb, hs]

theorem uploadFingerprinted_of_token (env : Env) (filename : String) (token : Token)
    (fp : String) (upload : File) (w : World) (resp : Response) (body : List Nat)
    (hq : env.queryFault = true ∨ w.db.hasKey fp = false)
    (h : env.roundTrip (rawUploadRequest token filename (upload.seek 0)) = some resp)
    (hb : resp.body = some body) (hs : resp.statusCode / 100 = 2) :
    uploadFingerprinted env filename token fp upload w
      = registerAndRecord env filename token fp body
          ((w.emit (Event.query fp)).emit
            (Event.send (rawUploadRequest token filename (upload.seek 0)))) := by
  obtain ⟨e, he⟩ := queryRowScan_of_miss env fp w hq
  simp [uploadFingerprinted, he, clientDo, h, hb, hs]

theorem emit_emit (w : World) (a b : Event) :
    (w.emit a).emit b = { db := w.db, log := w.log ++ [a, b] } := by
  simp [World.emit]

/-- Every call of `uploadFingerprinted` follows one of the paths. -/
theorem uploadFingerprinted_path (env : Env) (filename : String) (token : Token) (fp : String)
    (upload : File) (w : World) :
    Path env filename token fp upload w (uploadFingerprinted env filename token fp upload w) := by
  by_cases hq : env.queryFault = false ∧ w.db.hasKey fp = true
  · rw [uploadFingerprinted_of_found env filename token fp upload w hq.1 hq.2]
    exact Path.found hq.1 hq.2
  · have hq : env.queryFault = true ∨ w.db.hasKey fp = false := by
      cases h1 : env.queryFault <;> cases h2 : w.db.hasKey fp <;> simp_all
    cases h1 : env.roundTrip (rawUploadRequest token filename (upload.seek 0)) with
    | none =>
      rw [uploadFingerprinted_of_transport env filename token fp upload w hq h1, emit_emit]
      exact Path.rawTransport hq h1
    | some resp =>
      cases hb : resp.body with
      | none =>
        rw [uploadFingerprinted_of_unread env filename token fp upload w resp hq h1 hb, emit_emit]
        exact Path.rawUnread resp hq h1 hb
      | some body =>
        by_cases hs : resp.statusCode / 100 = 2
        · rw [uploadFingerprinted_of_token env filename token fp upload w resp body hq h1 hb hs,
            emit_emit]
          cases h2 : env.roundTrip (batchCreateRequest token body) with
          | none =>
            rw [registerAndRecord_of_transport env filename token fp body _ h2]
            simpa [World.emit] using Path.regTransport resp body hq h1 hb hs h2
          | some resp2 =>
            by_cases hs2 : resp2.statusCode / 100 = 2
            · rw [registerAndRecord_of_ok env filename token fp body _ resp2 h2 hs2]
              cases hx : env.execFault with
              | true =>
                simpa [World.emit, dbExecInsert, hx] using
                  Path.insertFailed resp body resp2 StoreError.fault hq h1 hb hs h2 hs2
                    (Or.inl ⟨hx, rfl⟩)
              | false =>
                cases hk : w.db.hasKey fp with
                | true =>
                  simpa [World.emit, dbExecInsert, hx, hk] using
                    Path.insertFailed resp body resp2 StoreError.constraint hq h1 hb hs h2 hs2
                      (Or.inr ⟨hx, hk, rfl⟩)
                | false =>
                  simpa [World.emit, dbExecInsert, hx, hk] using
                    Path.recorded resp body resp2 hq h1 hb hs h2 hs2 hx hk
            · rw [registerAndRecord_of_status env filename token fp body _ resp2 h2 hs2]
              simpa [World.emit] using Path.regStatus resp body resp2 hq h1 hb hs h2 hs2
        · rw [uploadFingerprinted_of_status env filename token fp upload w resp body hq h1 hb hs,
            emit_emit]
          exact Path.rawStatus resp body hq h1 hb hs

/-- Every call of `uploadFile` ends at the open, at the read of the first
bytes, or on one of the paths of `uploadFingerprinted`. -/
theorem uploadFile_cases (fs : FileSystem) (env : Env) (filename : String) (token : Token)
    (w : World) :
    (fs filename = none
        ∧ uploadFile fs env filename token w = (some UploadError.openingFile, w))
      ∨ (∃ f e, fs filename = some f
          ∧ (f.readable = false ∨ f.content.length < imageFingerprintSize)
          ∧ uploadFile fs env filename token w = (some (UploadError.readingFile e), w))
      ∨ (∃ f, fs filename = some f ∧ f.readable = true
          ∧ imageFingerprintSize ≤ f.content.length
          ∧ Path env filename token (fingerprintOf f.content)
              { content := f.content, readable := f.readable, offset := imageFingerprintSize } w
              (uploadFile fs env filename token w)) := by
  cases hf : fs filename with
  | none => exact Or.inl ⟨rfl, uploadFile_of_missing fs env filename token w hf⟩
  | some f =>
    cases hr : f.readable with
    | false =>
      exact Or.inr (Or.inl ⟨f, _, rfl, Or.inl hr,
        uploadFile_of_unreadable fs env filename token w f hf hr⟩)
    | true =>
      by_cases hlen : imageFingerprintSize ≤ f.content.length
      · refine Or.inr (Or.inr ⟨f, rfl, hr, hlen, ?_⟩)
        rw [uploadFile_of_long fs env filename token w f hf hr hlen]
        exact uploadFingerprinted_path env filename token (fingerprintOf f.content)
          { content := f.content, readable := f.readable, offset := imageFingerprintSize } w
      · exact Or.inr (Or.inl ⟨f, _, rfl, Or.inr (by omega),
          uploadFile_of_short fs env filename token w f hf hr (by omega)⟩)

theorem sentRequests_append (a b : List Event) :
    sentRequests (a ++ b) = sentRequests a ++ sentRequests b := by
  induction a with
  | nil => rfl
  | cons e es ih => cases e <;> simp [sentRequests, ih]

theorem queriedKeys_append (a b : List Event) :
    queriedKeys (a ++ b) = queriedKeys a ++ queriedKeys b := by
  induction a with
  | nil => rfl
  | cons e es ih => cases e <;> simp [queriedKeys, ih]

theorem insertedRows_append (a b : List Event) :
    insertedRows (a ++ b) = insertedRows a ++ insertedRows b := by
  induction a with
  | nil => rfl
  | cons e es ih => cases e <;> simp [insertedRows, ih]

/-- On every path the first new effect is the lookup of the fingerprint. -/
theorem Path.log_starts_with_query {env : Env} {filename : String} {token : Token}
    {fp : String} {upload : File} {w : World} {r : Option UploadError × World}
    (h : Path env filename token fp upload w r) :
    ∃ t, r.2.log = w.log ++ Event.query fp :: t := by
  cases h <;> exact ⟨_, rfl⟩

/-- C1: two readable files of at least 8192 bytes that agree on their first
8192 bytes are looked up under the same fingerprint, whatever the rest of
their content, their paths and the rest of the run; the fingerprint is the
hexadecimal SHA-256 of those 8192 bytes. -/
theorem fingerprint_same_first_bytes (fs : FileSystem) (env1 env2 : Env) (p1 p2 : String)
    (token : Token) (w1 w2 : World) (f1 f2 : OSFile)
    (h1 : fs p1 = some f1) (h2 : fs p2 = some f2)
    (r1 : f1.readable = true) (r2 : f2.readable = true)
    (l1 : 8192 ≤ f1.content.length) (l2 : 8192 ≤ f2.content.length)
    (hsame : f1.content.take 8192 = f2.content.take 8192) :
    ∃ t1 t2,
      (uploadFile fs env1 p1 token w1).2.log
          = w1.log ++ Event.query (hexEncodeToString (sha256 (f1.content.take 8192))) :: t1
        ∧ (uploadFile fs env2 p2 token w2).2.log
          = w2.log ++ Event.query (hexEncodeToString (sha256 (f1.content.take 8192))) :: t2 := by
  have e1 := uploadFile_of_long fs env1 p1 token w1 f1 h1 r1 l1
  have e2 := uploadFile_of_long fs env2 p2 token w2 f2 h2 r2 l2
  obtain ⟨t1, ht1⟩ := (uploadFingerprinted_path env1 p1 token (fingerprintOf f1.content)
    { content := f1.content, readable := f1.readable, offset := imageFingerprintSize }
    w1).log_starts_with_query
  obtain ⟨t2, ht2⟩ := (uploadFingerprinted_path env2 p2 token (fingerprintOf f2.content)
    { content := f2.content, readable := f2.readable, offset := imageFingerprintSize }
    w2).log_starts_with_query
  refine ⟨t1, t2, ?_, ?_⟩
  · rw [e1, ht1]; rfl
  · rw [e2, ht2]
    have : fingerprintOf f2.content = hexEncodeToString (sha256 (f1.content.take 8192)) := by
      unfold fingerprintOf imageFingerprintSize
      rw [hsame]
    rw [this]

theorem sample_length_a : 8192 ≤ imageX.length := by
  unfold imageX
  rw [List.length_replicate]; decide

theorem sample_length_c : 8192 ≤ imageY.length := by
  unfold imageY
  rw [List.length_append, List.length_replicate]; decide

theorem sample_take : imageX.take 8192 = imageY.take 8192 := by
  unfold imageX imageY
  rw [List.take_replicate, List.take_left' (List.length_replicate 8192 88)]
  rfl

theorem fingerprint_same_first_bytes_witness :
    ∃ t1 t2,
      (uploadFile sampleFS acceptAll "dir/a.jpg" sampleToken freshWorld).2.log
          = freshWorld.log
            ++ Event.query (hexEncodeToString (sha256 (imageX.take 8192))) :: t1
        ∧ (uploadFile sampleFS faultyLookup "dir/c.jpg" sampleToken freshWorld).2.log
          = freshWorld.log
            ++ Event.query (hexEncodeToString (sha256 (imageX.take 8192))) :: t2 :=
  fingerprint_same_first_bytes sampleFS acceptAll faultyLookup "dir/a.jpg" "dir/c.jpg" sampleToken
    freshWorld freshWorld { content := imageX, readable := true }
    { content := imageY, readable := true }
    rfl rfl rfl rfl sample_length_a sample_length_c sample_take

/-- C2 (the code at a short file): for the six-byte image and for the empty
image, both readable, `uploadFile` returns the error of the read (`io.EOF`
from `io.CopyN`) and does nothing else: no lookup, no request, no row. -/
theorem short_file_is_read_error (env : Env) (token : Token) (w : World) :
    uploadFile sampleFS env "dir/small.gif" token w
        = (some (UploadError.readingFile ReadError.eof), w)
      ∧ uploadFile sampleFS env "dir/empty.png" token w
        = (some (UploadError.readingFile ReadError.eof), w) :=
  ⟨uploadFile_of_short sampleFS env "dir/small.gif" token w
      { content := [71, 73, 70, 56, 57, 97], readable := true } rfl rfl
      (by simp [imageFingerprintSize]),
    uploadFile_of_short sampleFS env "dir/empty.png" token w
      { content := [], readable := true } rfl rfl
      (by simp [imageFingerprintSize])⟩

/-! ## The order of the stages -/

theorem status_2xx_iff (n : Nat) : n / 100 = 2 ↔ 200 ≤ n ∧ n ≤ 299 := by omega

theorem drop_append_self (a b : List Event) : (a ++ b).drop a.length = b := by
  simp

/-- The summary of a call that got past the fingerprint: the effects, the
table and the conditions, path by path. -/
theorem Path.effects {env : Env} {filename : String} {token : Token}
    {fp : String} {upload : File} {w : World} {r : Option UploadError × World}
    (h : Path env filename token fp upload w r) :
    ∃ t, r.2.log = w.log ++ t
      ∧ t <+: [Event.query fp, Event.send (rawUploadRequest token filename (upload.seek 0)),
          Event.send (batchCreateRequest token
            (((env.roundTrip (rawUploadRequest token filename (upload.seek 0))).bind
              Response.body).getD [])),
          Event.insert { fingerprint := fp, filename := filepathBase filename,
                         uploaded := env.now }] := by
  cases h
  case found => exact ⟨_, rfl, by simp [List.prefix_iff_eq_take]⟩
  case rawTransport => exact ⟨_, rfl, by simp [List.prefix_iff_eq_take]⟩
  case rawUnread => exact ⟨_, rfl, by simp [List.prefix_iff_eq_take]⟩
  case rawStatus => exact ⟨_, rfl, by simp [List.prefix_iff_eq_take]⟩
  case regTransport resp body hq h1 hb hs h2 =>
    exact ⟨_, rfl, by simp [List.prefix_iff_eq_take, h1, hb]⟩
  case regStatus resp body resp2 hq h1 hb hs h2 hs2 =>
    exact ⟨_, rfl, by simp [List.prefix_iff_eq_take, h1, hb]⟩
  case insertFailed resp body resp2 e hq h1 hb hs h2 hs2 he =>
    exact ⟨_, rfl, by simp [List.prefix_iff_eq_take, h1, hb]⟩
  case recorded resp body resp2 hq h1 hb hs h2 hs2 hx hk =>
    exact ⟨_, rfl, by simp [List.prefix_iff_eq_take, h1, hb]⟩

/-- The order of the effects of a call and what each failure prevents. -/
theorem stages_core (fs : FileSystem) (env : Env) (filename : String) (token : Token)
    (w : World) :
    (∃ fp raw reg row, effectsOf fs env filename token w
        <+: [Event.query fp, Event.send raw, Event.send reg, Event.insert row])
      ∧ (fs filename = none →
          effectsOf fs env filename token w = []
            ∧ (uploadFile fs env filename token w).2.db = w.db)
      ∧ (∀ raw rest, sentRequests (effectsOf fs env filename token w) = raw :: rest →
          (env.roundTrip raw = none ∨ ∃ resp, env.roundTrip raw = some resp
              ∧ ¬ (200 ≤ resp.statusCode ∧ resp.statusCode ≤ 299)) →
          rest = [] ∧ insertedRows (effectsOf fs env filename token w) = []
            ∧ (uploadFile fs env filename token w).2.db = w.db)
      ∧ (∀ raw reg rest, sentRequests (effectsOf fs env filename token w) = raw :: reg :: rest →
          (env.roundTrip reg = none ∨ ∃ resp, env.roundTrip reg = some resp
              ∧ ¬ (200 ≤ resp.statusCode ∧ resp.statusCode ≤ 299)) →
          insertedRows (effectsOf fs env filename token w) = []
            ∧ (uploadFile fs env filename token w).2.db = w.db)
      ∧ (insertedRows (effectsOf fs env filename token w) ≠ []
            ∨ (uploadFile fs env filename token w).2.db ≠ w.db →
          ∃ raw reg resp1 resp2, sentRequests (effectsOf fs env filename token w) = [raw, reg]
            ∧ env.roundTrip raw = some resp1
            ∧ (200 ≤ resp1.statusCode ∧ resp1.statusCode ≤ 299)
            ∧ env.roundTrip reg = some resp2
            ∧ (200 ≤ resp2.statusCode ∧ resp2.statusCode ≤ 299)) := by
  unfold effectsOf
  rcases uploadFile_cases fs env filename token w with ⟨hf, h⟩ | ⟨f, e, hf, _, h⟩ | ⟨f, hf, hr, hl, h⟩
  · rw [h]
    simp only [List.drop_length]
    exact ⟨⟨"", newRequest "" "" [], newRequest "" "" [], ⟨"", "", 0⟩, List.nil_prefix⟩,
      by simp [sentRequests, insertedRows]⟩
  · rw [h]
    simp only [List.drop_length]
    exact ⟨⟨"", newRequest "" "" [], newRequest "" "" [], ⟨"", "", 0⟩, List.nil_prefix⟩,
      by simp [sentRequests, insertedRows, hf]⟩
  · refine ⟨?_, ?_⟩
    · obtain ⟨t, ht, hpre⟩ := h.effects
      rw [ht, drop_append_self]
      exact ⟨_, _, _, _, hpre⟩
    · generalize uploadFile fs env filename token w = r at h
      cases h
      case found =>
        simp [sentRequests, insertedRows, hf]
      case rawTransport =>
        simp [sentRequests, insertedRows, hf]
      case rawUnread =>
        simp [sentRequests, insertedRows, hf]
      case rawStatus =>
        simp [sentRequests, insertedRows, hf]
      case regTransport resp body hq h1 hb hs h2 =>
        have hs1 := (status_2xx_iff _).mp hs
        simp [sentRequests, insertedRows, hf, h1, h2, hs1]
      case regStatus resp body resp2 hq h1 hb hs h2 hs2 =>
        have hs1 := (status_2xx_iff _).mp hs
        simp [sentRequests, insertedRows, hf, h1, h2, hs1]
      case insertFailed resp body resp2 e hq h1 hb hs h2 hs2 he =>
        have hs1 := (status_2xx_iff _).mp hs
        have hs3 := (status_2xx_iff _).mp hs2
        simp only [sentRequests, insertedRows, hf, drop_append_self]
        refine ⟨by simp, ?_, ?_, ?_⟩
        · intro raw rest hraw
          simp only [List.cons.injEq] at hraw
          rw [← hraw.1, h1]
          simp [hs1]
        · intro raw reg rest hraw
          simp only [List.cons.injEq] at hraw
          rw [← hraw.2.1, h2]
          simp [hs3]
        · intro _
          exact ⟨_, _, resp, resp2, rfl, h1, hs1, h2, hs3⟩
      case recorded resp body resp2 hq h1 hb hs h2 hs2 hx hk =>
        have hs1 := (status_2xx_iff _).mp hs
        have hs3 := (status_2xx_iff _).mp hs2
        simp only [sentRequests, insertedRows, hf, drop_append_self]
        refine ⟨by simp, ?_, ?_, ?_⟩
        · intro raw rest hraw
          simp only [List.cons.injEq] at hraw
          rw [← hraw.1, h1]
          simp [hs1]
        · intro raw reg rest hraw
          simp only [List.cons.injEq] at hraw
          rw [← hraw.2.1, h2]
          simp [hs3]
        · intro _
          exact ⟨_, _, resp, resp2, rfl, h1, hs1, h2, hs3⟩

/-- C4: the stages of `uploadFile` run in the order lookup, raw upload,
registration, insert (the effects of a call are a beginning of that list); a
failed open leaves no effect; a raw upload that ends in a transport error or a
status outside 200..299 is followed by no other request and no insert; a
registration that ends so is followed by no insert; and an insert is only
attempted, and the table only changed, after both calls returned a 2xx
status; a call with any effect has opened the file and read its
first 8192 bytes, and a call that sends a request has seen the lookup end
without a row. -/
theorem stages_in_order (fs : FileSystem) (env : Env) (filename : String) (token : Token)
    (w : World) :
    (∃ fp raw reg row, effectsOf fs env filename token w
        <+: [Event.query fp, Event.send raw, Event.send reg, Event.insert row])
      ∧ (fs filename = none →
          effectsOf fs env filename token w = []
            ∧ (uploadFile fs env filename token w).2.db = w.db)
      ∧ (∀ raw rest, sentRequests (effectsOf fs env filename token w) = raw :: rest →
          (env.roundTrip raw = none ∨ ∃ resp, env.roundTrip raw = some resp
              ∧ ¬ (200 ≤ resp.statusCode ∧ resp.statusCode ≤ 299)) →
          rest = [] ∧ insertedRows (effectsOf fs env filename token w) = []
            ∧ (uploadFile fs env filename token w).2.db = w.db)
      ∧ (∀ raw reg rest, sentRequests (effectsOf fs env filename token w) = raw :: reg :: rest →
          (env.roundTrip reg = none ∨ ∃ resp, env.roundTrip reg = some resp
              ∧ ¬ (200 ≤ resp.statusCode ∧ resp.statusCode ≤ 299)) →
          insertedRows (effectsOf fs env filename token w) = []
            ∧ (uploadFile fs env filename token w).2.db = w.db)
      ∧ (insertedRows (effectsOf fs env filename token w) ≠ []
            ∨ (uploadFile fs env filename token w).2.db ≠ w.db →
          ∃ raw reg resp1 resp2, sentRequests (effectsOf fs env filename token w) = [raw, reg]
            ∧ env.roundTrip raw = some resp1
            ∧ (200 ≤ resp1.statusCode ∧ resp1.statusCode ≤ 299)
            ∧ env.roundTrip reg = some resp2
            ∧ (200 ≤ resp2.statusCode ∧ resp2.statusCode ≤ 299))
      ∧ (effectsOf fs env filename token w ≠ [] →
          ∃ f, fs filename = some f ∧ f.readable = true ∧ 8192 ≤ f.content.length
            ∧ (sentRequests (effectsOf fs env filename token w) ≠ [] →
                (queryRowScan env (fingerprintOf f.content) w).1 ≠ none)) := by
  obtain ⟨h1, h2, h3, h4, h5⟩ := stages_core fs env filename token w
  refine ⟨h1, h2, h3, h4, h5, ?_⟩
  intro hne
  unfold effectsOf at hne ⊢
  rcases uploadFile_cases fs env filename token w with ⟨_, h⟩ | ⟨f, e, _, _, h⟩ | ⟨f, hf, hr, hl, h⟩
  · rw [h] at hne; simp at hne
  · rw [h] at hne; simp at hne
  · refine ⟨f, hf, hr, hl, ?_⟩
    intro hsent
    rw [queryRowScan_miss_iff]
    generalize uploadFile fs env filename token w = r at h hsent
    cases h
    case found => simp [sentRequests] at hsent
    all_goals assumption

theorem stages_in_order_witness :
    effectsOf sampleFS acceptAll "dir/missing.jpg" sampleToken freshWorld = []
      ∧ (uploadFile sampleFS acceptAll "dir/missing.jpg" sampleToken freshWorld).2.db
        = freshWorld.db :=
  (stages_in_order sampleFS acceptAll "dir/missing.jpg" sampleToken freshWorld).2.1 rfl

/-! ## The dedup check -/

theorem hasKey_append (t : Table) (row : Row) (k : String) :
    Table.hasKey (t ++ [row]) k = (t.hasKey k || row.fingerprint == k) := by
  simp [Table.hasKey]

theorem hasKey_singleton (row : Row) : Table.hasKey [row] row.fingerprint = true := by
  simp [Table.hasKey]

/-- A known fingerprint with a working lookup: the call stops at the lookup. -/
theorem uploadFile_of_known (fs : FileSystem) (env : Env) (filename : String) (token : Token)
    (w : World) (f : OSFile) (hf : fs filename = some f) (hr : f.readable = true)
    (hlen : imageFingerprintSize ≤ f.content.length) (hq : env.queryFault = false)
    (hk : w.db.hasKey (fingerprintOf f.content) = true) :
    uploadFile fs env filename token w
      = (some UploadError.alreadyExists,
          { db := w.db, log := w.log ++ [Event.query (fingerprintOf f.content)] }) := by
  rw [uploadFile_of_long fs env filename token w f hf hr hlen,
    uploadFingerprinted_of_found env filename token _ _ w hq hk]
  simp [World.emit]

/-- A new fingerprint, both calls answered with a 2xx status and a working
insert: the row is recorded. -/
theorem uploadFile_of_new (fs : FileSystem) (env : Env) (filename : String) (token : Token)
    (w : World) (f : OSFile) (resp resp2 : Response) (body : List Nat)
    (hf : fs filename = some f) (hr : f.readable = true)
    (hlen : imageFingerprintSize ≤ f.content.length)
    (hk : w.db.hasKey (fingerprintOf f.content) = false)
    (h1 : env.roundTrip (rawUploadRequest token filename
      { content := f.content, readable := f.readable, offset := 0 }) = some resp)
    (hb : resp.body = some body) (hs : resp.statusCode / 100 = 2)
    (h2 : env.roundTrip (batchCreateRequest token body) = some resp2)
    (hs2 : resp2.statusCode / 100 = 2) (hx : env.execFault = false) :
    uploadFile fs env filename token w
      = (none,
          { db := w.db ++ [{ fingerprint := fingerprintOf f.content,
                             filename := filepathBase filename, uploaded := env.now }],
            log := w.log ++ [Event.query (fingerprintOf f.content),
              Event.send (rawUploadRequest token filename
                { content := f.content, readable := f.readable, offset := 0 }),
              Event.send (batchCreateRequest token body),
              Event.insert { fingerprint := fingerprintOf f.content,
                             filename := filepathBase filename, uploaded := env.now }] }) := by
  have h1' : env.roundTrip (rawUploadRequest token filename
      (File.seek { content := f.content, readable := f.readable,
                   offset := imageFingerprintSize } 0)) = some resp := by
    simpa [File.seek] using h1
  rw [uploadFile_of_long fs env filename token w f hf hr hlen,
    uploadFingerprinted_of_token env filename token _ _ w resp body (Or.inr hk) h1' hb hs,
    registerAndRecord_of_ok env filename token _ body _ resp2 h2 hs2]
  simp [dbExecInsert, hx, hk, World.emit, File.seek]

/-- A failing lookup and an unreachable service: the raw upload is still
attempted, whatever the table holds. -/
theorem uploadFile_of_failed_lookup (fs : FileSystem) (env : Env) (filename : String)
    (token : Token) (w : World) (f : OSFile) (hf : fs filename = some f)
    (hr : f.readable = true) (hlen : imageFingerprintSize ≤ f.content.length)
    (hq : env.queryFault = true)
    (h1 : env.roundTrip (rawUploadRequest token filename
      { content := f.content, readable := f.readable, offset := 0 }) = none) :
    uploadFile fs env filename token w
      = (some UploadError.uploadingImage,
          { db := w.db,
            log := w.log ++ [Event.query (fingerprintOf f.content),
              Event.send (rawUploadRequest token filename
                { content := f.content, readable := f.readable, offset := 0 })] }) := by
  have h1' : env.roundTrip (rawUploadRequest token filename
      (File.seek { content := f.content, readable := f.readable,
                   offset := imageFingerprintSize } 0)) = none := by
    simpa [File.seek] using h1
  rw [uploadFile_of_long fs env filename token w f hf hr hlen,
    uploadFingerprinted_of_transport env filename token _ _ w (Or.inl hq) h1', emit_emit]
  simp [File.seek]

/-- C3 as stated fails: with the fingerprint of `dir/a.jpg` in the table and a
lookup that ends in a database error, `uploadFile` sends the raw upload. -/
theorem known_fingerprint_not_always_skipped :
    ¬ ∀ (fs : FileSystem) (env : Env) (filename : String) (token : Token) (w : World)
        (f : OSFile), fs filename = some f → f.readable = true →
        8192 ≤ f.content.length → w.db.hasKey (fingerprintOf f.content) = true →
        sentRequests (effectsOf fs env filename token w) = []
          ∧ (uploadFile fs env filename token w).2.db = w.db
          ∧ (uploadFile fs env filename token w).1 ≠ none := by
  intro h
  have h' := (h sampleFS faultyLookup "dir/a.jpg" sampleToken
    { db := [{ fingerprint := fingerprintOf (imageX), filename := "a.jpg",
               uploaded := 0 }], log := [] }
    { content := imageX, readable := true } rfl rfl sample_length_a
    (hasKey_singleton _)).1
  unfold effectsOf at h'
  rw [uploadFile_of_failed_lookup sampleFS faultyLookup "dir/a.jpg" sampleToken _
    { content := imageX, readable := true } rfl rfl sample_length_a rfl rfl] at h'
  simp [sentRequests] at h'

/-- C3, amended: for every file whose fingerprint is a key of the table and
whose lookup does not end in a database error, `uploadFile` only adds the
lookup to the trace (no request is sent), leaves the table as it is and
returns the error `alreadyExists`.  With a fresh store, `dir/a.jpg` and
`dir/b.jpg` (both 9000 bytes `X`) processed one after the other, a service
that accepts every request and a store that does not fail: the first call
records one row, the second returns `alreadyExists`, sends nothing, and the
table holds exactly that one row. -/
theorem known_fingerprint_is_skipped :
    (∀ (fs : FileSystem) (env : Env) (filename : String) (token : Token) (w : World)
        (f : OSFile), fs filename = some f → f.readable = true →
        8192 ≤ f.content.length → env.queryFault = false →
        w.db.hasKey (fingerprintOf f.content) = true →
        sentRequests (effectsOf fs env filename token w) = []
          ∧ effectsOf fs env filename token w = [Event.query (fingerprintOf f.content)]
          ∧ (uploadFile fs env filename token w).2.db = w.db
          ∧ (uploadFile fs env filename token w).1 = some UploadError.alreadyExists)
      ∧ (∀ (env1 env2 : Env) (token : Token),
          env1.execFault = false →
          (∀ r, ∃ resp body, env1.roundTrip r = some resp ∧ resp.body = some body
            ∧ resp.statusCode / 100 = 2) →
          env2.queryFault = false →
          (uploadFile sampleFS env1 "dir/a.jpg" token freshWorld).1 = none
            ∧ (uploadFile sampleFS env2 "dir/b.jpg" token
                (uploadFile sampleFS env1 "dir/a.jpg" token freshWorld).2).1
              = some UploadError.alreadyExists
            ∧ sentRequests (effectsOf sampleFS env2 "dir/b.jpg" token
                (uploadFile sampleFS env1 "dir/a.jpg" token freshWorld).2) = []
            ∧ (uploadFile sampleFS env2 "dir/b.jpg" token
                (uploadFile sampleFS env1 "dir/a.jpg" token freshWorld).2).2.db
              = [{ fingerprint := fingerprintOf (imageX), filename := "a.jpg",
                   uploaded := env1.now }]) := by
  constructor
  · intro fs env filename token w f hf hr hlen hq hk
    unfold effectsOf
    rw [uploadFile_of_known fs env filename token w f hf hr hlen hq hk]
    simp [sentRequests]
  · intro env1 env2 token hx hall hq
    obtain ⟨resp, body, h1, hb, hs⟩ := hall (rawUploadRequest token "dir/a.jpg"
      { content := imageX, readable := true, offset := 0 })
    obtain ⟨resp2, body2, h2, _, hs2⟩ := hall (batchCreateRequest token body)
    have e1 := uploadFile_of_new sampleFS env1 "dir/a.jpg" token freshWorld
      { content := imageX, readable := true } resp resp2 body rfl rfl
      sample_length_a rfl h1 hb hs h2 hs2 hx
    have hbase : filepathBase "dir/a.jpg" = "a.jpg" := by decide
    rw [hbase] at e1
    unfold effectsOf
    rw [e1]
    rw [uploadFile_of_known sampleFS env2 "dir/b.jpg" token _
      { content := imageX, readable := true } rfl rfl sample_length_a hq
      (by simp [freshWorld, Table.hasKey])]
    simp [sentRequests, freshWorld]

theorem known_fingerprint_is_skipped_witness :
    (sentRequests (effectsOf sampleFS acceptAll "dir/b.jpg" sampleToken
        { db := [{ fingerprint := fingerprintOf (imageX), filename := "a.jpg",
                   uploaded := 0 }], log := [] }) = []
      ∧ effectsOf sampleFS acceptAll "dir/b.jpg" sampleToken
          { db := [{ fingerprint := fingerprintOf (imageX), filename := "a.jpg",
                     uploaded := 0 }], log := [] }
        = [Event.query (fingerprintOf (imageX))]
      ∧ (uploadFile sampleFS acceptAll "dir/b.jpg" sampleToken
          { db := [{ fingerprint := fingerprintOf (imageX), filename := "a.jpg",
                     uploaded := 0 }], log := [] }).2.db
        = [{ fingerprint := fingerprintOf (imageX), filename := "a.jpg",
             uploaded := 0 }]
      ∧ (uploadFile sampleFS acceptAll "dir/b.jpg" sampleToken
          { db := [{ fingerprint := fingerprintOf (imageX), filename := "a.jpg",
                     uploaded := 0 }], log := [] }).1 = some UploadError.alreadyExists)
    ∧ (uploadFile sampleFS acceptAll "dir/b.jpg" sampleToken
        (uploadFile sampleFS acceptAll "dir/a.jpg" sampleToken freshWorld).2).2.db
      = [{ fingerprint := fingerprintOf (imageX), filename := "a.jpg",
           uploaded := 1700000000 }] :=
  ⟨known_fingerprint_is_skipped.1 sampleFS acceptAll "dir/b.jpg" sampleToken
      { db := [{ fingerprint := fingerprintOf (imageX), filename := "a.jpg",
                 uploaded := 0 }], log := [] }
      { content := imageX, readable := true } rfl rfl sample_length_a rfl
      (hasKey_singleton _),
    (known_fingerprint_is_skipped.2 acceptAll acceptAll sampleToken rfl
      (fun _ => ⟨_, _, rfl, rfl, by decide⟩) rfl).2.2.2⟩

/-! ## The raw-upload request -/

theorem canonical_authorization : canonicalMIMEHeaderKey "Authorization" = "Authorization" := by
  decide

theorem canonical_content_type : canonicalMIMEHeaderKey "Content-type" = "Content-Type" := by
  decide

theorem canonical_upload_protocol :
    canonicalMIMEHeaderKey "X-Goog-Upload-Protocol" = "X-Goog-Upload-Protocol" := by
  decide

theorem canonical_upload_file_name :
    canonicalMIMEHeaderKey "X-Goog-Upload-File-Name" = "X-Goog-Upload-File-Name" := by
  decide

/-- The raw-upload request, field by field. -/
theorem rawUploadRequest_eq (token : Token) (filename : String) (upload : File) :
    rawUploadRequest token filename upload
      = { method := "POST", url := uploadsURL,
          header := [("Authorization", token.authorization),
            ("Content-Type", "application/octet-stream"),
            ("X-Goog-Upload-Protocol", "raw"),
            ("X-Goog-Upload-File-Name", filepathBase filename)],
          body := upload.content.drop upload.offset } := by
  simp [rawUploadRequest, Token.setAuthHeader, Request.headerSet, Header.set, newRequest,
    canonical_authorization, canonical_content_type, canonical_upload_protocol,
    canonical_upload_file_name, File.remaining]

/-- A lookup that ends in an error is followed by the raw upload built from
the rewound handle, and by the registration when the raw upload gave a token
with a 2xx status. -/
theorem Path.after_miss {env : Env} {filename : String} {token : Token}
    {fp : String} {upload : File} {w : World} {r : Option UploadError × World}
    (h : Path env filename token fp upload w r)
    (hq : env.queryFault = true ∨ w.db.hasKey fp = false) :
    r.1 ≠ some UploadError.alreadyExists
      ∧ ∃ t, r.2.log = w.log ++ Event.query fp
          :: Event.send (rawUploadRequest token filename (upload.seek 0)) :: t
        ∧ ∀ resp body,
            env.roundTrip (rawUploadRequest token filename (upload.seek 0)) = some resp →
            resp.body = some body → resp.statusCode / 100 = 2 →
            ∃ t2, t = Event.send (batchCreateRequest token body) :: t2 := by
  cases h
  case found hq2 hk =>
    rcases hq with hq | hq
    · rw [hq2] at hq; cases hq
    · rw [hk] at hq; cases hq
  case rawTransport _ h1 =>
    exact ⟨by simp, _, rfl, by intro resp body h; rw [h1] at h; cases h⟩
  case rawUnread resp0 _ h1 hb =>
    refine ⟨by simp, _, rfl, ?_⟩
    intro resp body h hb2
    rw [h1] at h; cases h
    rw [hb] at hb2; cases hb2
  case rawStatus resp0 body0 _ h1 hb hs =>
    refine ⟨by simp, _, rfl, ?_⟩
    intro resp body h _ hs2
    rw [h1] at h; cases h
    exact absurd hs2 hs
  case regTransport resp0 body0 _ h1 hb hs h2 =>
    refine ⟨by simp, _, rfl, ?_⟩
    intro resp body h hb2 _
    rw [h1] at h; cases h
    rw [hb] at hb2; cases hb2
    exact ⟨_, rfl⟩
  case regStatus resp0 body0 resp2 _ h1 hb hs h2 hs2 =>
    refine ⟨by simp, _, rfl, ?_⟩
    intro resp body h hb2 _
    rw [h1] at h; cases h
    rw [hb] at hb2; cases hb2
    exact ⟨_, rfl⟩
  case insertFailed resp0 body0 resp2 e _ h1 hb hs h2 hs2 he =>
    refine ⟨by simp, _, rfl, ?_⟩
    intro resp body h hb2 _
    rw [h1] at h; cases h
    rw [hb] at hb2; cases hb2
    exact ⟨_, rfl⟩
  case recorded resp0 body0 resp2 _ h1 hb hs h2 hs2 hx hk =>
    refine ⟨by simp, _, rfl, ?_⟩
    intro resp body h hb2 _
    rw [h1] at h; cases h
    rw [hb] at hb2; cases hb2
    exact ⟨_, rfl⟩

/-- A call that got past the fingerprint and whose lookup ended in an error. -/
theorem uploadFile_after_miss (fs : FileSystem) (env : Env) (filename : String) (token : Token)
    (w : World) (f : OSFile) (hf : fs filename = some f) (hr : f.readable = true)
    (hlen : imageFingerprintSize ≤ f.content.length)
    (hq : env.queryFault = true ∨ w.db.hasKey (fingerprintOf f.content) = false) :
    (uploadFile fs env filename token w).1 ≠ some UploadError.alreadyExists
      ∧ ∃ t, effectsOf fs env filename token w
          = Event.query (fingerprintOf f.content)
            :: Event.send (rawUploadRequest token filename
                { content := f.content, readable := f.readable, offset := 0 }) :: t
        ∧ ∀ resp body,
            env.roundTrip (rawUploadRequest token filename
              { content := f.content, readable := f.readable, offset := 0 }) = some resp →
            resp.body = some body → resp.statusCode / 100 = 2 →
            ∃ t2, t = Event.send (batchCreateRequest token body) :: t2 := by
  have hp := uploadFingerprinted_path env filename token (fingerprintOf f.content)
    { content := f.content, readable := f.readable, offset := imageFingerprintSize } w
  obtain ⟨h1, t, h2, h3⟩ := hp.after_miss hq
  unfold effectsOf
  rw [uploadFile_of_long fs env filename token w f hf hr hlen]
  refine ⟨h1, t, ?_, ?_⟩
  · rw [h2, drop_append_self]
    simp [File.seek]
  · simpa [File.seek] using h3

/-- C7: for every file that passes the dedup check, the first request sent is
a POST to the upload endpoint whose body is the whole content of the file
(the handle, left at offset 8192 by the fingerprint, is rewound first) and
whose header holds the authorization value of the token, the content type
`application/octet-stream`, the upload protocol `raw` and the base name of
the path as file name. -/
theorem raw_upload_sends_whole_file (fs : FileSystem) (env : Env) (filename : String)
    (token : Token) (w : World) (f : OSFile) (hf : fs filename = some f)
    (hr : f.readable = true) (hlen : 8192 ≤ f.content.length)
    (hmiss : (queryRowScan env (fingerprintOf f.content) w).1 ≠ none) :
    ∃ r t, effectsOf fs env filename token w
        = Event.query (fingerprintOf f.content) :: Event.send r :: t
      ∧ r.method = "POST" ∧ r.url = uploadsURL
      ∧ r.body = f.content
      ∧ r.header = [("Authorization", token.authorization),
          ("Content-Type", "application/octet-stream"),
          ("X-Goog-Upload-Protocol", "raw"),
          ("X-Goog-Upload-File-Name", filepathBase filename)]
      ∧ r.header.get "Authorization" = some token.authorization
      ∧ r.header.get "Content-type" = some "application/octet-stream"
      ∧ r.header.get "X-Goog-Upload-Protocol" = some "raw"
      ∧ r.header.get "X-Goog-Upload-File-Name" = some (filepathBase filename) := by
  obtain ⟨_, t, ht, _⟩ := uploadFile_after_miss fs env filename token w f hf hr hlen
    ((queryRowScan_miss_iff _ _ _).mp hmiss)
  refine ⟨_, t, ht, ?_⟩
  rw [rawUploadRequest_eq]
  simp [Header.get, canonical_authorization, canonical_content_type,
    canonical_upload_protocol, canonical_upload_file_name]

theorem raw_upload_sends_whole_file_witness :
    ∃ r t, effectsOf sampleFS acceptAll "dir/a.jpg" sampleToken freshWorld
        = Event.query (fingerprintOf imageX) :: Event.send r :: t
      ∧ r.method = "POST" ∧ r.url = uploadsURL
      ∧ r.body = imageX
      ∧ r.header = [("Authorization", "Bearer secret"),
          ("Content-Type", "application/octet-stream"),
          ("X-Goog-Upload-Protocol", "raw"),
          ("X-Goog-Upload-File-Name", filepathBase "dir/a.jpg")]
      ∧ r.header.get "Authorization" = some "Bearer secret"
      ∧ r.header.get "Content-type" = some "application/octet-stream"
      ∧ r.header.get "X-Goog-Upload-Protocol" = some "raw"
      ∧ r.header.get "X-Goog-Upload-File-Name" = some (filepathBase "dir/a.jpg") :=
  raw_upload_sends_whole_file sampleFS acceptAll "dir/a.jpg" sampleToken freshWorld
    { content := imageX, readable := true } rfl rfl sample_length_a
    (by simp [queryRowScan, acceptAll, freshWorld, Table.hasKey])

/-! ## A lookup that fails -/

/-- C10: `uploadFile` returns `alreadyExists` exactly when the lookup returns
no error; after every lookup error (no rows, or a failure of the database) the
raw upload is sent (and the registration after it when the raw upload gave a
token with a 2xx status); so a failed lookup of a fingerprint that is in the
table is followed by the remote calls. -/
theorem failed_lookup_proceeds (fs : FileSystem) (env : Env) (filename : String)
    (token : Token) (w : World) (f : OSFile) (hf : fs filename = some f)
    (hr : f.readable = true) (hlen : 8192 ≤ f.content.length) :
    ((uploadFile fs env filename token w).1 = some UploadError.alreadyExists
        ↔ (queryRowScan env (fingerprintOf f.content) w).1 = none)
      ∧ (∀ e, (queryRowScan env (fingerprintOf f.content) w).1 = some e →
          (e = StoreError.noRows ∨ e = StoreError.fault)
          ∧ ∃ t, effectsOf fs env filename token w
              = Event.query (fingerprintOf f.content)
                :: Event.send (rawUploadRequest token filename
                    { content := f.content, readable := f.readable, offset := 0 }) :: t
            ∧ ∀ resp body,
                env.roundTrip (rawUploadRequest token filename
                  { content := f.content, readable := f.readable, offset := 0 }) = some resp →
                resp.body = some body → resp.statusCode / 100 = 2 →
                ∃ t2, t = Event.send (batchCreateRequest token body) :: t2)
      ∧ (env.queryFault = true → w.db.hasKey (fingerprintOf f.content) = true →
          ∃ t, effectsOf fs env filename token w
              = Event.query (fingerprintOf f.content)
                :: Event.send (rawUploadRequest token filename
                    { content := f.content, readable := f.readable, offset := 0 }) :: t) := by
  refine ⟨?_, ?_, ?_⟩
  · constructor
    · intro h
      by_contra hne
      exact (uploadFile_after_miss fs env filename token w f hf hr hlen
        ((queryRowScan_miss_iff _ _ _).mp hne)).1 h
    · intro h
      obtain ⟨hq, hk⟩ := (queryRowScan_fst_eq_none _ _ _).mp h
      rw [uploadFile_of_known fs env filename token w f hf hr hlen hq hk]
  · intro e he
    have hne : (queryRowScan env (fingerprintOf f.content) w).1 ≠ none := by
      rw [he]; simp
    refine ⟨?_, (uploadFile_after_miss fs env filename token w f hf hr hlen
      ((queryRowScan_miss_iff _ _ _).mp hne)).2⟩
    unfold queryRowScan at he
    split at he
    · right; simpa using he.symm
    · split at he
      · simp at he
      · left; simpa using he.symm
  · intro hq _
    obtain ⟨t, ht, _⟩ :=
      (uploadFile_after_miss fs env filename token w f hf hr hlen (Or.inl hq)).2
    exact ⟨t, ht⟩

theorem failed_lookup_proceeds_witness :
    ∃ t, effectsOf sampleFS faultyLookup "dir/a.jpg" sampleToken
        { db := [{ fingerprint := fingerprintOf imageX, filename := "a.jpg", uploaded := 0 }],
          log := [] }
      = Event.query (fingerprintOf imageX)
        :: Event.send (rawUploadRequest sampleToken "dir/a.jpg"
            { content := imageX, readable := true, offset := 0 }) :: t :=
  (failed_lookup_proceeds sampleFS faultyLookup "dir/a.jpg" sampleToken
    { db := [{ fingerprint := fingerprintOf imageX, filename := "a.jpg", uploaded := 0 }],
      log := [] }
    { content := imageX, readable := true } rfl rfl sample_length_a).2.2 rfl
    (hasKey_singleton _)

/-! ## Running the pipeline twice -/

/-- A call leaves the table as it is, or appends the row of a fingerprint
that was not a key. -/
theorem uploadFile_db (fs : FileSystem) (env : Env) (filename : String) (token : Token)
    (w : World) :
    (uploadFile fs env filename token w).2.db = w.db
      ∨ ∃ f, fs filename = some f ∧ f.readable = true
          ∧ imageFingerprintSize ≤ f.content.length
          ∧ w.db.hasKey (fingerprintOf f.content) = false
          ∧ (uploadFile fs env filename token w).2.db
            = w.db ++ [{ fingerprint := fingerprintOf f.content,
                         filename := filepathBase filename, uploaded := env.now }] := by
  rcases uploadFile_cases fs env filename token w with ⟨_, h⟩ | ⟨f, e, _, _, h⟩ | ⟨f, hf, hr, hl, h⟩
  · rw [h]; exact Or.inl rfl
  · rw [h]; exact Or.inl rfl
  · generalize uploadFile fs env filename token w = r at h
    cases h
    case recorded resp body resp2 hq h1 hb hs h2 hs2 hx hk =>
      exact Or.inr ⟨f, hf, hr, hl, hk, rfl⟩
    all_goals exact Or.inl rfl

theorem hasKey_iff_mem_keys (t : Table) (k : String) : t.hasKey k = true ↔ k ∈ t.keys := by
  simp [Table.hasKey, Table.keys]

/-- A key of the table stays a key after a call. -/
theorem uploadFile_hasKey_mono (fs : FileSystem) (env : Env) (filename : String)
    (token : Token) (w : World) (k : String) (hk : w.db.hasKey k = true) :
    (uploadFile fs env filename token w).2.db.hasKey k = true := by
  rcases uploadFile_db fs env filename token w with h | ⟨f, _, _, _, _, h⟩
  · rw [h]; exact hk
  · rw [h, hasKey_append, hk]; rfl

/-- A key of the table stays a key through a run. -/
theorem runAll_hasKey_mono (fs : FileSystem) (token : Token) (jobs : List (String × Env))
    (w : World) (k : String) (hk : w.db.hasKey k = true) :
    (runAll fs token jobs w).db.hasKey k = true := by
  induction jobs generalizing w with
  | nil => exact hk
  | cons job rest ih =>
    exact ih _ (uploadFile_hasKey_mono fs job.2 job.1 token w k hk)

/-- A call keeps the keys of the table distinct. -/
theorem uploadFile_nodup (fs : FileSystem) (env : Env) (filename : String) (token : Token)
    (w : World) (hn : w.db.keys.Nodup) : (uploadFile fs env filename token w).2.db.keys.Nodup := by
  rcases uploadFile_db fs env filename token w with h | ⟨f, _, _, _, hk, h⟩
  · rw [h]; exact hn
  · rw [h]
    have hnot : fingerprintOf f.content ∉ w.db.keys := by
      intro hmem
      rw [← hasKey_iff_mem_keys, hk] at hmem
      cases hmem
    simp only [Table.keys, List.map_append, List.map_cons, List.map_nil]
    exact List.Nodup.append hn (List.nodup_singleton _) (by simpa [Table.keys] using hnot)

/-- A run keeps the keys of the table distinct. -/
theorem runAll_nodup (fs : FileSystem) (token : Token) (jobs : List (String × Env))
    (w : World) (hn : w.db.keys.Nodup) : (runAll fs token jobs w).db.keys.Nodup := by
  induction jobs generalizing w with
  | nil => exact hn
  | cons job rest ih => exact ih _ (uploadFile_nodup fs job.2 job.1 token w hn)

theorem runAll_append (fs : FileSystem) (token : Token) (a b : List (String × Env))
    (w : World) : runAll fs token (a ++ b) w = runAll fs token b (runAll fs token a w) := by
  induction a generalizing w with
  | nil => rfl
  | cons job rest ih => exact ih _

/-- A run over files whose fingerprints are all keys leaves the table as it
is. -/
theorem runAll_db_of_known (fs : FileSystem) (token : Token) (jobs : List (String × Env))
    (w : World)
    (hall : ∀ p f, p ∈ jobs.map Prod.fst → fs p = some f → f.readable = true →
      imageFingerprintSize ≤ f.content.length → w.db.hasKey (fingerprintOf f.content) = true) :
    (runAll fs token jobs w).db = w.db := by
  induction jobs generalizing w with
  | nil => rfl
  | cons job rest ih =>
    have hstep : (uploadFile fs job.2 job.1 token w).2.db = w.db := by
      rcases uploadFile_db fs job.2 job.1 token w with h | ⟨f, hf, hr, hl, hk, _⟩
      · exact h
      · rw [hall job.1 f (by simp) hf hr hl] at hk
        cases hk
    have := ih (uploadFile fs job.2 job.1 token w).2 (by
      intro p f hp hf hr hl
      rw [hstep]
      exact hall p f (by simp only [List.map_cons, List.mem_cons]; exact Or.inr hp) hf hr hl)
    simp only [runAll]
    rw [this, hstep]

/-- The first run on `dir/a.jpg` with a service that accepts everything. -/
theorem sample_first_run :
    runAll sampleFS sampleToken [("dir/a.jpg", acceptAll)] freshWorld
      = { db := [{ fingerprint := fingerprintOf imageX, filename := "a.jpg",
                   uploaded := 1700000000 }],
          log := [Event.query (fingerprintOf imageX),
            Event.send (rawUploadRequest sampleToken "dir/a.jpg"
              { content := imageX, readable := true, offset := 0 }),
            Event.send (batchCreateRequest sampleToken (bytesOf "tok")),
            Event.insert { fingerprint := fingerprintOf imageX, filename := "a.jpg",
                           uploaded := 1700000000 }] } := by
  have e1 := uploadFile_of_new sampleFS acceptAll "dir/a.jpg" sampleToken freshWorld
    { content := imageX, readable := true } _ _ _ rfl rfl sample_length_a rfl rfl rfl
    (by decide) rfl (by decide) rfl
  have hbase : filepathBase "dir/a.jpg" = "a.jpg" := by decide
  rw [hbase] at e1
  simp only [runAll, e1]
  rfl

/-- C5 as stated fails: after a first run that recorded `dir/a.jpg`, a second
run on the same file whose lookup ends in a database error sends the raw
upload although the fingerprint is a key of the table. -/
theorem second_run_may_send :
    ¬ ∀ (fs : FileSystem) (token : Token) (jobs1 jobs2 : List (String × Env)) (w0 : World),
        jobs1.map Prod.fst = jobs2.map Prod.fst → w0.db.keys.Nodup →
        ∀ (pre : List (String × Env)) (p : String) (env : Env) (post : List (String × Env))
          (f : OSFile), jobs2 = pre ++ (p, env) :: post → fs p = some f →
          f.readable = true → 8192 ≤ f.content.length →
          (runAll fs token jobs1 w0).db.hasKey (fingerprintOf f.content) = true →
          sentRequests (effectsOf fs env p token
            (runAll fs token pre (runAll fs token jobs1 w0))) = [] := by
  intro h
  have h' := h sampleFS sampleToken [("dir/a.jpg", acceptAll)] [("dir/a.jpg", faultyLookup)]
    freshWorld rfl (by simp [freshWorld, Table.keys]) [] "dir/a.jpg" faultyLookup []
    { content := imageX, readable := true } rfl rfl rfl sample_length_a
    (by rw [sample_first_run]; exact hasKey_singleton _)
  generalize runAll sampleFS sampleToken []
    (runAll sampleFS sampleToken [("dir/a.jpg", acceptAll)] freshWorld) = w1 at h'
  unfold effectsOf at h'
  rw [uploadFile_of_failed_lookup sampleFS faultyLookup "dir/a.jpg" sampleToken w1
    { content := imageX, readable := true } rfl rfl sample_length_a rfl rfl] at h'
  simp only [drop_append_self, sentRequests] at h'
  cases h'

/-- C5, amended: let S1 be the store after running `uploadFile` once on each
file, from a store with distinct keys.  In a second run from S1 (on the same
files or any others), a file whose fingerprint is a key of S1 and whose
lookup does not end in a database error causes no request; when every
fingerprint computed in the second run is a key of S1 the store after the
second run equals S1; and S1 holds exactly one row per recorded
fingerprint. -/
theorem second_run_idempotent (fs : FileSystem) (token : Token)
    (jobs1 jobs2 : List (String × Env)) (w0 : World) (hn : w0.db.keys.Nodup) :
    (∀ (pre : List (String × Env)) (p : String) (env : Env) (post : List (String × Env))
        (f : OSFile), jobs2 = pre ++ (p, env) :: post → fs p = some f →
        f.readable = true → 8192 ≤ f.content.length →
        (runAll fs token jobs1 w0).db.hasKey (fingerprintOf f.content) = true →
        env.queryFault = false →
        sentRequests (effectsOf fs env p token
          (runAll fs token pre (runAll fs token jobs1 w0))) = [])
      ∧ ((∀ p f, p ∈ jobs2.map Prod.fst → fs p = some f → f.readable = true →
            8192 ≤ f.content.length →
            (runAll fs token jobs1 w0).db.hasKey (fingerprintOf f.content) = true) →
          (runAll fs token jobs2 (runAll fs token jobs1 w0)).db
            = (runAll fs token jobs1 w0).db)
      ∧ (∀ k, (runAll fs token jobs1 w0).db.hasKey k = true →
          ((runAll fs token jobs1 w0).db.filter fun r => r.fingerprint = k).length = 1) := by
  refine ⟨?_, ?_, ?_⟩
  · intro pre p env post f _ hf hr hl hk hq
    have hk' := runAll_hasKey_mono fs token pre _ _ hk
    unfold effectsOf
    rw [uploadFile_of_known fs env p token _ f hf hr hl hq hk']
    simp [sentRequests]
  · intro hall
    exact runAll_db_of_known fs token jobs2 _ hall
  · intro k hk
    have hnd := runAll_nodup fs token jobs1 w0 hn
    have hmem := (hasKey_iff_mem_keys _ _).mp hk
    have hc := List.count_eq_one_of_mem hnd hmem
    rw [Table.keys, List.count_eq_countP, List.countP_map, List.countP_eq_length_filter] at hc
    rw [← hc]
    congr 2

theorem second_run_idempotent_witness :
    sentRequests (effectsOf sampleFS acceptAll "dir/a.jpg" sampleToken
        (runAll sampleFS sampleToken [] (runAll sampleFS sampleToken
          [("dir/a.jpg", acceptAll)] freshWorld))) = []
      ∧ (runAll sampleFS sampleToken [("dir/a.jpg", acceptAll)]
          (runAll sampleFS sampleToken [("dir/a.jpg", acceptAll)] freshWorld)).db
        = (runAll sampleFS sampleToken [("dir/a.jpg", acceptAll)] freshWorld).db
      ∧ ((runAll sampleFS sampleToken [("dir/a.jpg", acceptAll)] freshWorld).db.filter
          fun r => r.fingerprint = fingerprintOf imageX).length = 1 :=
  have h := second_run_idempotent sampleFS sampleToken [("dir/a.jpg", acceptAll)]
    [("dir/a.jpg", acceptAll)] freshWorld (by simp [freshWorld, Table.keys])
  have hk : (runAll sampleFS sampleToken [("dir/a.jpg", acceptAll)] freshWorld).db.hasKey
      (fingerprintOf imageX) = true := by
    rw [sample_first_run]; exact hasKey_singleton _
  ⟨h.1 [] "dir/a.jpg" acceptAll [] { content := imageX, readable := true } rfl rfl rfl
      sample_length_a hk rfl,
    h.2.1 (by
      intro p f hp hf _ _
      simp only [List.map_cons, List.map_nil, List.mem_singleton] at hp
      subst hp
      have : f = { content := imageX, readable := true } := by
        have : sampleFS "dir/a.jpg" = some { content := imageX, readable := true } := rfl
        rw [this] at hf
        exact (Option.some.inj hf).symm
      rw [this]
      exact hk),
    h.2.2 _ hk⟩

/-! ## Interleaved calls -/

/-- The steps of a call, taken one after the other with nothing in between,
are `uploadFingerprinted`. -/
theorem run_alone (env : Env) (token : Token) (filename fp : String) (upload : File)
    (w : World) :
    exec token [0, 0, 0, 0] ([(env, Run.lookup filename fp upload)], w)
      = ([(env, Run.done (uploadFingerprinted env filename token fp upload w).1)],
          (uploadFingerprinted env filename token fp upload w).2) := by
  simp only [exec, stepAt, Run.step, uploadFingerprinted, registerAndRecord]
  cases hq : queryRowScan env fp w with
  | mk e w1 =>
    cases e with
    | none => simp [Run.step]
    | some e =>
      simp only []
      cases h1 : clientDo env (rawUploadRequest token filename (upload.seek 0)) w1 with
      | mk resp w2 =>
        cases resp with
        | none => simp [Run.step]
        | some resp =>
          simp only []
          cases hb : resp.body with
          | none => simp [Run.step]
          | some body =>
            simp only []
            by_cases hs : resp.statusCode / 100 = 2
            · simp only [hs, ne_eq, not_true_eq_false, ite_false, Run.step]
              cases h2 : clientDo env (batchCreateRequest token body) w2 with
              | mk resp2 w3 =>
                cases resp2 with
                | none => simp [Run.step]
                | some resp2 =>
                  by_cases hs2 : resp2.statusCode / 100 = 2
                  · simp [hs2, Run.step]
                  · simp [hs2, Run.step]
            · simp [hs, Run.step]

theorem rowsOf_append (t : Table) (row : Row) (fp : String) :
    Table.rowsOf (t ++ [row]) fp = t.rowsOf fp + (if row.fingerprint = fp then 1 else 0) := by
  unfold Table.rowsOf
  by_cases h : row.fingerprint = fp <;> simp [List.filter_append, List.filter_cons, h]

theorem rowsOf_eq_zero_of_not_hasKey (t : Table) (fp : String) (h : t.hasKey fp = false) :
    t.rowsOf fp = 0 := by
  unfold Table.rowsOf
  rw [List.length_eq_zero, List.filter_eq_nil_iff]
  intro r hr
  have : ¬ (t.hasKey fp = true) := by rw [h]; simp
  intro hk
  apply this
  simp only [Table.hasKey, List.any_eq_true]
  exact ⟨r, hr, by simpa using hk⟩

theorem rowsOf_pos_of_hasKey (t : Table) (fp : String) (h : t.hasKey fp = true) :
    0 < t.rowsOf fp := by
  unfold Table.rowsOf
  simp only [Table.hasKey, List.any_eq_true] at h
  obtain ⟨r, hr, hk⟩ := h
  apply List.length_pos_of_mem (a := r)
  rw [List.mem_filter]
  exact ⟨hr, by simpa using hk⟩

/-- One step of a call on the fingerprint `fp` in which nothing fails: the
table stays as it is, or the call inserts the first row of `fp` and returns
nil. -/
theorem Run.step_spec (env : Env) (token : Token) (fp : String) (r : Run) (w : World)
    (henv : env.succeeds) (hr : r.onKey fp) :
    (r.step env token w).1.onKey fp
      ∧ (((r.step env token w).2.db = w.db
            ∧ ((r.step env token w).1 = Run.done none ↔ r = Run.done none)
            ∧ ((r.step env token w).1.failed → r.failed ∨ w.db.hasKey fp = true))
          ∨ (w.db.hasKey fp = false
            ∧ (∃ row, row.fingerprint = fp ∧ (r.step env token w).2.db = w.db ++ [row])
            ∧ r ≠ Run.done none ∧ (r.step env token w).1 = Run.done none
            ∧ ¬ r.failed)) := by
  obtain ⟨hq, hx, hall⟩ := henv
  cases r with
  | lookup filename k upload =>
    simp only [Run.onKey] at hr
    subst hr
    cases hk : w.db.hasKey k with
    | true =>
      simp [Run.step, queryRowScan, hq, hk, Run.onKey, Run.failed]
    | false =>
      simp [Run.step, queryRowScan, hq, hk, Run.onKey, Run.failed]
  | rawUpload filename k upload =>
    simp only [Run.onKey] at hr
    subst hr
    obtain ⟨resp, body, h1, hb, hs⟩ := hall (rawUploadRequest token filename (upload.seek 0))
    simp [Run.step, clientDo, h1, hb, hs, Run.onKey, Run.failed]
  | register filename k ut =>
    simp only [Run.onKey] at hr
    subst hr
    obtain ⟨resp, body, h1, hb, hs⟩ := hall (batchCreateRequest token ut)
    simp [Run.step, clientDo, h1, hs, Run.onKey, Run.failed]
  | insert filename k =>
    simp only [Run.onKey] at hr
    subst hr
    cases hk : w.db.hasKey k with
    | true =>
      simp [Run.step, dbExecInsert, hx, hk, Run.onKey, Run.failed]
    | false =>
      simp [Run.step, dbExecInsert, hx, hk, Run.onKey, Run.failed]
  | done e =>
    exact ⟨hr, Or.inl ⟨rfl, Iff.rfl, fun h => Or.inl h⟩⟩

theorem succeeded_cons (t : Env × Run) (rest : List (Env × Run)) :
    succeeded (t :: rest) = (if t.2 = Run.done none then 1 else 0) + succeeded rest := by
  unfold succeeded
  by_cases h : t.2 = Run.done none <;> simp [List.filter_cons, h, Nat.add_comm]

/-- One step of the system of calls racing on `fp`. -/
theorem stepAt_spec (token : Token) (fp : String) (i : Nat) (runs : List (Env × Run))
    (w : World) (hall : ∀ t ∈ runs, t.1.succeeds ∧ t.2.onKey fp) :
    (∀ t ∈ (stepAt token i runs w).1, t.1.succeeds ∧ t.2.onKey fp)
      ∧ (stepAt token i runs w).1.length = runs.length
      ∧ (((stepAt token i runs w).2.db = w.db
            ∧ succeeded (stepAt token i runs w).1 = succeeded runs
            ∧ ((∃ t ∈ (stepAt token i runs w).1, t.2.failed) →
                (∃ t ∈ runs, t.2.failed) ∨ w.db.hasKey fp = true))
          ∨ (w.db.hasKey fp = false
            ∧ (∃ row, row.fingerprint = fp ∧ (stepAt token i runs w).2.db = w.db ++ [row])
            ∧ succeeded (stepAt token i runs w).1 = succeeded runs + 1
            ∧ ((∃ t ∈ (stepAt token i runs w).1, t.2.failed) → ∃ t ∈ runs, t.2.failed))) := by
  induction runs generalizing i with
  | nil =>
    refine ⟨by simp [stepAt], by simp [stepAt], Or.inl ⟨by simp [stepAt], by simp [stepAt], ?_⟩⟩
    simp [stepAt]
  | cons t rest ih =>
    have ht := hall t (List.mem_cons_self _ _)
    have hrest : ∀ u ∈ rest, u.1.succeeds ∧ u.2.onKey fp :=
      fun u hu => hall u (List.mem_cons_of_mem _ hu)
    cases i with
    | zero =>
      obtain ⟨hshape, hstep⟩ := Run.step_spec t.1 token fp t.2 w ht.1 ht.2
      simp only [stepAt]
      refine ⟨?_, by simp, ?_⟩
      · intro u hu
        rcases List.mem_cons.mp hu with h | h
        · subst h; exact ⟨ht.1, hshape⟩
        · exact hrest u h
      · rcases hstep with ⟨hdb, hok, hfail⟩ | ⟨hk, hrow, hne, hdone, hnf⟩
        · refine Or.inl ⟨hdb, ?_, ?_⟩
          · rw [succeeded_cons, succeeded_cons]
            simp only [hok]
          · rintro ⟨u, hu, huf⟩
            rcases List.mem_cons.mp hu with h | h
            · subst h
              rcases hfail huf with h1 | h1
              · exact Or.inl ⟨t, List.mem_cons_self _ _, h1⟩
              · exact Or.inr h1
            · exact Or.inl ⟨u, List.mem_cons_of_mem _ h, huf⟩
        · refine Or.inr ⟨hk, hrow, ?_, ?_⟩
          · rw [succeeded_cons, succeeded_cons]
            simp only [hdone, hne, if_true, if_false]
            omega
          · rintro ⟨u, hu, huf⟩
            rcases List.mem_cons.mp hu with h | h
            · subst h
              simp only [hdone, Run.failed] at huf
            · exact ⟨u, List.mem_cons_of_mem _ h, huf⟩
    | succ i =>
      obtain ⟨h1, h2, h3⟩ := ih i hrest
      simp only [stepAt]
      refine ⟨?_, by simp [h2], ?_⟩
      · intro u hu
        rcases List.mem_cons.mp hu with h | h
        · subst h; exact ht
        · exact h1 u h
      · rcases h3 with ⟨hdb, hok, hfail⟩ | ⟨hk, hrow, hok, hfail⟩
        · refine Or.inl ⟨hdb, ?_, ?_⟩
          · rw [succeeded_cons, succeeded_cons, hok]
          · rintro ⟨u, hu, huf⟩
            rcases List.mem_cons.mp hu with h | h
            · subst h; exact Or.inl ⟨u, List.mem_cons_self _ _, huf⟩
            · rcases hfail ⟨u, h, huf⟩ with ⟨v, hv, hvf⟩ | h1
              · exact Or.inl ⟨v, List.mem_cons_of_mem _ hv, hvf⟩
              · exact Or.inr h1
        · refine Or.inr ⟨hk, hrow, ?_, ?_⟩
          · rw [succeeded_cons, succeeded_cons, hok]; omega
          · rintro ⟨u, hu, huf⟩
            rcases List.mem_cons.mp hu with h | h
            · subst h; exact ⟨u, List.mem_cons_self _ _, huf⟩
            · obtain ⟨v, hv, hvf⟩ := hfail ⟨u, h, huf⟩
              exact ⟨v, List.mem_cons_of_mem _ hv, hvf⟩

/-- A step keeps the system settled. -/
theorem Settled.after_step {fp : String} {runs : List (Env × Run)} {w : World}
    (h : Settled fp runs w) (token : Token) (i : Nat) :
    Settled fp (stepAt token i runs w).1 (stepAt token i runs w).2 := by
  obtain ⟨hall, hcount, hle, hfail⟩ := h
  obtain ⟨h1, _, h3⟩ := stepAt_spec token fp i runs w hall
  rcases h3 with ⟨hdb, hok, hf⟩ | ⟨hk, ⟨row, hrow, hdb⟩, hok, hf⟩
  · refine ⟨h1, by rw [hdb, hok]; exact hcount, by rw [hdb]; exact hle, ?_⟩
    intro hex
    rw [hdb]
    rcases hf hex with h | h
    · exact hfail h
    · have := rowsOf_pos_of_hasKey _ _ h
      omega
  · have h0 := rowsOf_eq_zero_of_not_hasKey _ _ hk
    have hnew : (stepAt token i runs w).2.db.rowsOf fp = 1 := by
      rw [hdb, rowsOf_append, h0, if_pos hrow]
    refine ⟨h1, by rw [hnew, hok, ← hcount, h0], by rw [hnew], fun _ => hnew⟩

/-- A schedule keeps the system settled. -/
theorem Settled.after_schedule {fp : String} (token : Token) (schedule : List Nat)
    {s : List (Env × Run) × World} (h : Settled fp s.1 s.2) :
    Settled fp (exec token schedule s).1 (exec token schedule s).2 := by
  induction schedule generalizing s with
  | nil => exact h
  | cons i rest ih => exact ih (h.after_step token i)

theorem exec_length (token : Token) (fp : String) (schedule : List Nat)
    (s : List (Env × Run) × World) (hall : ∀ t ∈ s.1, t.1.succeeds ∧ t.2.onKey fp) :
    (exec token schedule s).1.length = s.1.length := by
  induction schedule generalizing s with
  | nil => rfl
  | cons i rest ih =>
    obtain ⟨h1, h2, _⟩ := stepAt_spec token fp i s.1 s.2 hall
    simp only [exec]
    rw [ih _ h1, h2]

/-- The start of the race is settled. -/
theorem settled_start (fp : String) (calls : List (Env × String × File)) (w : World)
    (hcalls : ∀ c ∈ calls, c.1.succeeds) (hk : w.db.hasKey fp = false) :
    Settled fp (startAll fp calls) w := by
  have hnone : ∀ t ∈ startAll fp calls, ∃ c : Env × String × File,
      c ∈ calls ∧ t = (c.1, Run.lookup c.2.1 fp c.2.2) := by
    intro t ht
    simp only [startAll, List.mem_map] at ht
    obtain ⟨c, hc, rfl⟩ := ht
    exact ⟨c, hc, rfl⟩
  have h0 := rowsOf_eq_zero_of_not_hasKey _ _ hk
  refine ⟨?_, ?_, by omega, ?_⟩
  · intro t ht
    obtain ⟨c, hc, rfl⟩ := hnone t ht
    exact ⟨hcalls c hc, rfl⟩
  · rw [h0]
    symm
    unfold succeeded
    rw [List.length_eq_zero, List.filter_eq_nil_iff]
    intro t ht
    obtain ⟨c, _, rfl⟩ := hnone t ht
    simp
  · rintro ⟨t, ht, hf⟩
    obtain ⟨c, _, rfl⟩ := hnone t ht
    exact absurd hf (by simp [Run.failed])

/-! ### Every reachable table has distinct keys -/

theorem dbExecInsert_nodup (env : Env) (row : Row) (w : World) (hn : w.db.keys.Nodup) :
    (dbExecInsert env row w).2.db.keys.Nodup := by
  rw [dbExecInsert_db]
  split
  · rename_i h
    have hnot : row.fingerprint ∉ w.db.keys := by
      intro hmem
      rw [← hasKey_iff_mem_keys, h.2] at hmem
      cases hmem
    simp only [Table.keys, List.map_append, List.map_cons, List.map_nil]
    exact List.Nodup.append hn (List.nodup_singleton _) (by simpa [Table.keys] using hnot)
  · exact hn

theorem Run.step_db (env : Env) (token : Token) (r : Run) (w : World) :
    (r.step env token w).2.db = w.db
      ∨ ∃ row, (r.step env token w).2 = (dbExecInsert env row w).2 := by
  cases r with
  | lookup filename k upload =>
    left
    simp only [Run.step]
    have := queryRowScan_snd env k w
    cases hq : queryRowScan env k w with
    | mk e w1 =>
      rw [hq] at this
      simp only at this
      subst this
      cases e <;> rfl
  | rawUpload filename k upload =>
    left
    simp only [Run.step, clientDo]
    cases env.roundTrip (rawUploadRequest token filename (upload.seek 0)) with
    | none => rfl
    | some resp =>
      simp only []
      cases resp.body with
      | none => rfl
      | some body =>
        simp only []
        split <;> rfl
  | register filename k ut =>
    left
    simp only [Run.step, clientDo]
    cases env.roundTrip (batchCreateRequest token ut) with
    | none => rfl
    | some resp =>
      simp only []
      split <;> rfl
  | insert filename k =>
    right
    exact ⟨_, rfl⟩
  | done e => left; rfl

theorem Run.step_nodup (env : Env) (token : Token) (r : Run) (w : World)
    (hn : w.db.keys.Nodup) : (r.step env token w).2.db.keys.Nodup := by
  rcases Run.step_db env token r w with h | ⟨row, h⟩
  · rw [h]; exact hn
  · rw [h]; exact dbExecInsert_nodup env row w hn

theorem stepAt_nodup (token : Token) (i : Nat) (runs : List (Env × Run)) (w : World)
    (hn : w.db.keys.Nodup) : (stepAt token i runs w).2.db.keys.Nodup := by
  induction runs generalizing i with
  | nil => simpa [stepAt] using hn
  | cons t rest ih =>
    cases i with
    | zero => exact Run.step_nodup t.1 token t.2 w hn
    | succ i => exact ih i

theorem exec_nodup (token : Token) (schedule : List Nat) (s : List (Env × Run) × World)
    (hn : s.2.db.keys.Nodup) : (exec token schedule s).2.db.keys.Nodup := by
  induction schedule generalizing s with
  | nil => exact hn
  | cons i rest ih => exact ih _ (stepAt_nodup token i s.1 s.2 hn)

/-! ### Every call returns -/

theorem Run.step_stepsLeft (env : Env) (token : Token) (r : Run) (w : World) :
    (r.step env token w).1.stepsLeft ≤ r.stepsLeft - 1 := by
  cases r with
  | lookup filename k upload =>
    simp only [Run.step]
    cases queryRowScan env k w with
    | mk e w1 => cases e <;> simp [Run.stepsLeft]
  | rawUpload filename k upload =>
    simp only [Run.step, clientDo]
    cases env.roundTrip (rawUploadRequest token filename (upload.seek 0)) with
    | none => simp [Run.stepsLeft]
    | some resp =>
      simp only []
      cases resp.body with
      | none => simp [Run.stepsLeft]
      | some body =>
        simp only []
        split <;> simp [Run.stepsLeft]
  | register filename k ut =>
    simp only [Run.step, clientDo]
    cases env.roundTrip (batchCreateRequest token ut) with
    | none => simp [Run.stepsLeft]
    | some resp =>
      simp only []
      split <;> simp [Run.stepsLeft]
  | insert filename k => simp [Run.step, Run.stepsLeft]
  | done e => simp [Run.step, Run.stepsLeft]

theorem exec_append (token : Token) (a b : List Nat) (s : List (Env × Run) × World) :
    exec token (a ++ b) s = exec token b (exec token a s) := by
  induction a generalizing s with
  | nil => rfl
  | cons i rest ih => exact ih _

/-- A schedule for the calls after the first leaves the first call alone. -/
theorem exec_map_succ (token : Token) (schedule : List Nat) (t : Env × Run)
    (rest : List (Env × Run)) (w : World) :
    exec token (schedule.map Nat.succ) (t :: rest, w)
      = (t :: (exec token schedule (rest, w)).1, (exec token schedule (rest, w)).2) := by
  induction schedule generalizing rest w with
  | nil => rfl
  | cons i more ih =>
    simp only [List.map_cons, exec, stepAt]
    exact ih _ _

/-- One sweep: every call makes a step. -/
theorem sweep_stepsLeft (token : Token) (k : Nat) (runs : List (Env × Run)) (w : World)
    (h : ∀ t ∈ runs, t.2.stepsLeft ≤ k + 1) :
    ∀ t ∈ (exec token (List.range runs.length) (runs, w)).1, t.2.stepsLeft ≤ k := by
  induction runs generalizing w with
  | nil => intro t ht; simp [exec] at ht
  | cons u rest ih =>
    rw [List.length_cons, List.range_succ_eq_map]
    simp only [exec, stepAt]
    rw [exec_map_succ]
    intro t ht
    rcases List.mem_cons.mp ht with hh | hh
    · subst hh
      have := Run.step_stepsLeft u.1 token u.2 w
      have := h u (List.mem_cons_self _ _)
      simp only
      omega
    · exact ih _ (fun v hv => h v (List.mem_cons_of_mem _ hv)) t hh

theorem exec_range_length (token : Token) (n : Nat) (runs : List (Env × Run)) (w : World) :
    (exec token (List.range n) (runs, w)).1.length = runs.length := by
  have hstep : ∀ (i : Nat) (rs : List (Env × Run)) (w : World),
      (stepAt token i rs w).1.length = rs.length := by
    intro i rs
    induction rs generalizing i with
    | nil => intro w; simp [stepAt]
    | cons t rest ih =>
      intro w
      cases i with
      | zero => simp [stepAt]
      | succ i => simp [stepAt, ih i w]
  have hexec : ∀ (sch : List Nat) (s : List (Env × Run) × World),
      (exec token sch s).1.length = s.1.length := by
    intro sch
    induction sch with
    | nil => intro s; rfl
    | cons i more ih =>
      intro s
      simp only [exec]
      rw [ih, hstep]
  exact hexec _ _

theorem returned_of_stepsLeft (r : Run) (h : r.stepsLeft ≤ 0) : r.returned := by
  cases r <;> simp [Run.stepsLeft, Run.returned] at h ⊢

/-- After four sweeps every call has returned, whatever the outside does. -/
theorem fourSweeps_returned (token : Token) (runs : List (Env × Run)) (w : World) :
    ∀ t ∈ (exec token (fourSweeps runs.length) (runs, w)).1, t.2.returned := by
  have h4 : ∀ t ∈ runs, t.2.stepsLeft ≤ 3 + 1 := by
    intro t _
    cases t.2 <;> simp [Run.stepsLeft]
  unfold fourSweeps
  rw [exec_append, exec_append, exec_append]
  have l1 := exec_range_length token runs.length runs w
  have s1 := sweep_stepsLeft token 3 runs w h4
  generalize exec token (List.range runs.length) (runs, w) = st1 at l1 s1 ⊢
  obtain ⟨r1, w1⟩ := st1
  simp only at l1 s1
  rw [← l1] at *
  have l2 := exec_range_length token r1.length r1 w1
  have s2 := sweep_stepsLeft token 2 r1 w1 s1
  generalize exec token (List.range r1.length) (r1, w1) = st2 at l2 s2 ⊢
  obtain ⟨r2, w2⟩ := st2
  simp only at l2 s2
  rw [← l2] at *
  have l3 := exec_range_length token r2.length r2 w2
  have s3 := sweep_stepsLeft token 1 r2 w2 s2
  generalize exec token (List.range r2.length) (r2, w2) = st3 at l3 s3 ⊢
  obtain ⟨r3, w3⟩ := st3
  simp only at l3 s3
  rw [← l3] at *
  have s4 := sweep_stepsLeft token 0 r3 w3 s3
  intro t ht
  exact returned_of_stepsLeft _ (s4 t ht)

/-! ### The race -/

theorem step_lookup_miss (env : Env) (token : Token) (fn fp : String) (up : File) (w : World)
    (hq : env.queryFault = false) (hk : w.db.hasKey fp = false) :
    (Run.lookup fn fp up).step env token w
      = (Run.rawUpload fn fp up, { db := w.db, log := w.log ++ [Event.query fp] }) := by
  simp [Run.step, queryRowScan, hq, hk, World.emit]

theorem step_rawUpload_ok (env : Env) (token : Token) (fn fp : String) (up : File) (w : World)
    (resp : Response) (body : List Nat)
    (h : env.roundTrip (rawUploadRequest token fn (up.seek 0)) = some resp)
    (hb : resp.body = some body) (hs : resp.statusCode / 100 = 2) :
    (Run.rawUpload fn fp up).step env token w
      = (Run.register fn fp body,
          { db := w.db,
            log := w.log ++ [Event.send (rawUploadRequest token fn (up.seek 0))] }) := by
  simp [Run.step, clientDo, h, hb, hs, World.emit]

theorem step_register_ok (env : Env) (token : Token) (fn fp : String) (ut : List Nat)
    (w : World) (resp : Response)
    (h : env.roundTrip (batchCreateRequest token ut) = some resp)
    (hs : resp.statusCode / 100 = 2) :
    (Run.register fn fp ut).step env token w
      = (Run.insert fn fp,
          { db := w.db, log := w.log ++ [Event.send (batchCreateRequest token ut)] }) := by
  simp [Run.step, clientDo, h, hs, World.emit]

theorem step_insert_new (env : Env) (token : Token) (fn fp : String) (w : World)
    (hx : env.execFault = false) (hk : w.db.hasKey fp = false) :
    (Run.insert fn fp).step env token w
      = (Run.done none,
          { db := w.db ++ [{ fingerprint := fp, filename := filepathBase fn,
                             uploaded := env.now }],
            log := w.log ++ [Event.insert { fingerprint := fp, filename := filepathBase fn,
                                            uploaded := env.now }] }) := by
  simp [Run.step, dbExecInsert, hx, hk]

theorem step_insert_dup (env : Env) (token : Token) (fn fp : String) (w : World)
    (hx : env.execFault = false) (hk : w.db.hasKey fp = true) :
    (Run.insert fn fp).step env token w
      = (Run.done (some (UploadError.store StoreError.constraint)),
          { db := w.db,
            log := w.log ++ [Event.insert { fingerprint := fp, filename := filepathBase fn,
                                            uploaded := env.now }] }) := by
  simp [Run.step, dbExecInsert, hx, hk, World.emit]

/-- Two calls on the same new fingerprint that both pass the lookup before
either inserts: both perform the two remote calls, the first insert succeeds
and the second is rejected by the key. -/
theorem race_of_two (token : Token) (fp : String) (env1 env2 : Env) (fn1 fn2 : String)
    (up1 up2 : File) (w : World) (h1 : env1.succeeds) (h2 : env2.succeeds)
    (hk : w.db.hasKey fp = false) :
    ∃ body1 body2,
      exec token [0, 1, 0, 1, 0, 1, 0, 1] (startAll fp [(env1, fn1, up1), (env2, fn2, up2)], w)
        = ([(env1, Run.done none),
            (env2, Run.done (some (UploadError.store StoreError.constraint)))],
          { db := w.db ++ [{ fingerprint := fp, filename := filepathBase fn1,
                             uploaded := env1.now }],
            log := w.log ++ [Event.query fp, Event.query fp,
              Event.send (rawUploadRequest token fn1 (up1.seek 0)),
              Event.send (rawUploadRequest token fn2 (up2.seek 0)),
              Event.send (batchCreateRequest token body1),
              Event.send (batchCreateRequest token body2),
              Event.insert { fingerprint := fp, filename := filepathBase fn1,
                             uploaded := env1.now },
              Event.insert { fingerprint := fp, filename := filepathBase fn2,
                             uploaded := env2.now }] }) := by
  obtain ⟨hq1, hx1, hall1⟩ := h1
  obtain ⟨hq2, hx2, hall2⟩ := h2
  obtain ⟨r1, b1, e1, hb1, hs1⟩ := hall1 (rawUploadRequest token fn1 (up1.seek 0))
  obtain ⟨r2, b2, e2, hb2, hs2⟩ := hall2 (rawUploadRequest token fn2 (up2.seek 0))
  obtain ⟨r3, b3, e3, _, hs3⟩ := hall1 (batchCreateRequest token b1)
  obtain ⟨r4, b4, e4, _, hs4⟩ := hall2 (batchCreateRequest token b2)
  refine ⟨b1, b2, ?_⟩
  simp [exec, stepAt, startAll, step_lookup_miss, hq1, hq2, hx1, hx2, hk, hasKey_append,
    step_rawUpload_ok env1 token fn1 fp up1 _ r1 b1 e1 hb1 hs1,
    step_rawUpload_ok env2 token fn2 fp up2 _ r2 b2 e2 hb2 hs2,
    step_register_ok env1 token fn1 fp b1 _ r3 e3 hs3,
    step_register_ok env2 token fn2 fp b2 _ r4 e4 hs4,
    step_insert_new, step_insert_dup]

/-- C6: with a table whose insert fails when the key is present, a lookup
that does not fail and remote calls that all succeed, every interleaving of the
steps of N >= 1 calls on one fingerprint, started without that fingerprint and
run until all calls have returned, ends with exactly one row for it: exactly
one call returned nil and every other call returned the duplicate error of the
lookup or the key error of its insert.  Such complete interleavings exist for
every N (four sweeps over the calls); two calls that both pass the lookup both
perform the two remote calls.  In every reachable state, whatever the calls
and the outside do, no fingerprint has two rows. -/
theorem race_records_once :
    (∀ (token : Token) (fp : String) (calls : List (Env × String × File)) (w : World)
        (schedule : List Nat),
        0 < calls.length → (∀ c ∈ calls, c.1.succeeds) → w.db.hasKey fp = false →
        (∀ t ∈ (exec token schedule (startAll fp calls, w)).1, t.2.returned) →
        (exec token schedule (startAll fp calls, w)).2.db.rowsOf fp = 1
          ∧ succeeded (exec token schedule (startAll fp calls, w)).1 = 1
          ∧ (exec token schedule (startAll fp calls, w)).1.length = calls.length
          ∧ ∀ t ∈ (exec token schedule (startAll fp calls, w)).1,
              t.2 = Run.done none ∨ t.2 = Run.done (some UploadError.alreadyExists)
                ∨ t.2 = Run.done (some (UploadError.store StoreError.constraint)))
      ∧ (∀ (token : Token) (fp : String) (calls : List (Env × String × File)) (w : World),
          ∀ t ∈ (exec token (fourSweeps calls.length) (startAll fp calls, w)).1, t.2.returned)
      ∧ (∀ (token : Token) (fp : String) (env1 env2 : Env) (fn1 fn2 : String)
          (up1 up2 : File) (w : World), env1.succeeds → env2.succeeds →
          w.db.hasKey fp = false →
          ∃ body1 body2 w2,
            exec token [0, 1, 0, 1, 0, 1, 0, 1]
                (startAll fp [(env1, fn1, up1), (env2, fn2, up2)], w)
              = ([(env1, Run.done none),
                  (env2, Run.done (some (UploadError.store StoreError.constraint)))], w2)
            ∧ sentRequests w2.log = sentRequests w.log
                ++ [rawUploadRequest token fn1 (up1.seek 0),
                    rawUploadRequest token fn2 (up2.seek 0),
                    batchCreateRequest token body1, batchCreateRequest token body2]
            ∧ w2.db = w.db ++ [{ fingerprint := fp, filename := filepathBase fn1,
                                 uploaded := env1.now }])
      ∧ (∀ (token : Token) (runs : List (Env × Run)) (w : World) (schedule : List Nat),
          w.db.keys.Nodup → (exec token schedule (runs, w)).2.db.keys.Nodup) := by
  refine ⟨?_, ?_, ?_, ?_⟩
  · intro token fp calls w schedule hN hcalls hk hdone
    have hstart := settled_start fp calls w hcalls hk
    have hlen := exec_length token fp schedule (startAll fp calls, w) hstart.1
    obtain ⟨hall, hcount, hle, hfail⟩ :=
      Settled.after_schedule token schedule (s := (startAll fp calls, w)) hstart
    generalize exec token schedule (startAll fp calls, w) = final at hdone hlen hall hcount hle hfail
    have hshape : ∀ t ∈ final.1,
        t.2 = Run.done none ∨ t.2 = Run.done (some UploadError.alreadyExists)
          ∨ t.2 = Run.done (some (UploadError.store StoreError.constraint)) := by
      intro t ht
      have h1 := (hall t ht).2
      have h2 := hdone t ht
      cases hr : t.2 with
      | done e =>
        rw [hr] at h1
        simp only [Run.onKey] at h1
        rcases h1 with h | h | h <;> simp [h]
      | lookup _ _ _ => rw [hr] at h2; cases h2
      | rawUpload _ _ _ => rw [hr] at h2; cases h2
      | register _ _ _ => rw [hr] at h2; cases h2
      | insert _ _ => rw [hr] at h2; cases h2
    have hlen2 : 0 < final.1.length := by
      rw [hlen]
      simpa [startAll] using hN
    obtain ⟨t0, ht0⟩ := List.exists_mem_of_length_pos hlen2
    have hone : final.2.db.rowsOf fp = 1 := by
      rcases hshape t0 ht0 with h | h | h
      · have hpos : 0 < succeeded final.1 := by
          unfold succeeded
          apply List.length_pos_of_mem (a := t0)
          rw [List.mem_filter]
          exact ⟨ht0, by simpa using h⟩
        omega
      · exact hfail ⟨t0, ht0, by rw [h]; trivial⟩
      · exact hfail ⟨t0, ht0, by rw [h]; trivial⟩
    refine ⟨hone, by omega, ?_, hshape⟩
    rw [hlen]
    simp [startAll]
  · intro token fp calls w
    have := fourSweeps_returned token (startAll fp calls) w
    simpa [startAll] using this
  · intro token fp env1 env2 fn1 fn2 up1 up2 w h1 h2 hk
    obtain ⟨body1, body2, h⟩ := race_of_two token fp env1 env2 fn1 fn2 up1 up2 w h1 h2 hk
    refine ⟨body1, body2, _, h, ?_, rfl⟩
    simp [sentRequests_append, sentRequests]
  · intro token runs w schedule hn
    exact exec_nodup token schedule (runs, w) hn

theorem acceptAll_succeeds : acceptAll.succeeds :=
  ⟨rfl, rfl, fun _ => ⟨_, _, rfl, rfl, by decide⟩⟩

theorem race_records_once_witness :
    (exec sampleToken (fourSweeps 2)
        (startAll (fingerprintOf imageX) sampleCalls, freshWorld)).2.db.rowsOf
        (fingerprintOf imageX) = 1
      ∧ succeeded (exec sampleToken (fourSweeps 2)
          (startAll (fingerprintOf imageX) sampleCalls, freshWorld)).1 = 1 :=
  have h := race_records_once.1 sampleToken (fingerprintOf imageX) sampleCalls freshWorld
    (fourSweeps 2) (by decide)
    (by
      intro c hc
      simp only [sampleCalls, List.mem_cons, List.mem_singleton, List.not_mem_nil,
        or_false] at hc
      rcases hc with h | h <;> rw [h] <;> exact acceptAll_succeeds)
    rfl
    (race_records_once.2.1 sampleToken (fingerprintOf imageX) sampleCalls freshWorld)
  ⟨h.1, h.2.1⟩

/-! ## The worker pool -/

/-- A call is its first step followed by the steps of the run: `uploadFile`
is what a worker computes when nothing else moves. -/
theorem startRun_then_steps (fs : FileSystem) (env : Env) (filename : String) (token : Token)
    (w : World) :
    exec token [0, 0, 0, 0] ([(env, startRun fs filename)], w)
      = ([(env, Run.done (uploadFile fs env filename token w).1)],
          (uploadFile fs env filename token w).2) := by
  unfold startRun uploadFile
  cases osOpen fs filename with
  | none => simp [exec, stepAt, Run.step]
  | some upload =>
    simp only []
    cases hc : copyN sha256New upload imageFingerprintSize with
    | mk h rest =>
      obtain ⟨up2, n, e⟩ := rest
      cases e with
      | some e => simp [exec, stepAt, Run.step]
      | none => exact run_alone env token filename _ up2 w

theorem Worker.step_rel (fs : FileSystem) (env : Env) (token : Token) (wk : Worker)
    (s : Shared) :
    WorkRel [wk] s [(wk.step fs env token s).1] (wk.step fs env token s).2 := by
  cases wk with
  | idle =>
    cases hq : s.queue with
    | nil =>
      cases hc : s.closed with
      | true =>
        simp only [Worker.step, hq, hc, if_true]
        exact ⟨rfl, rfl, rfl, rfl, rfl, by simp [busyCount], by simp [receivedCount],
          by simp [inCallCount], fun _ => Or.inr ⟨hc, hq⟩, fun h => h,
          Or.inr (by simp [weightSum, Worker.weight]), rfl⟩
      | false =>
        simp only [Worker.step, hq, hc]
        exact ⟨rfl, rfl, rfl, rfl, rfl, rfl, fun _ => rfl, fun _ => rfl,
          by simp [exitedCount], fun h => h, Or.inl (by simp), rfl⟩
    | cons p rest =>
      simp only [Worker.step, hq]
      refine ⟨rfl, rfl, rfl, rfl, rfl, ?_, ?_, ?_, by simp [exitedCount], by simp [hq],
        Or.inr ?_, rfl⟩
      · simp [busyCount, hq]
      · intro q
        simp only [receivedCount, hq, List.count_cons]
        by_cases h : p = q <;> simp [h]
      · intro q; simp [inCallCount]
      · simp [weightSum, Worker.weight, hq]; omega
  | received p =>
    simp only [Worker.step]
    refine ⟨rfl, rfl, rfl, rfl, rfl, by simp [busyCount], ?_, ?_, by simp [exitedCount],
      fun h => h, Or.inr ?_, rfl⟩
    · intro q
      simp only [receivedCount, List.count_append, List.count_cons, List.count_nil]
      by_cases h : p = q
      · simp [h]; omega
      · simp [h]
    · intro q
      simp only [inCallCount, List.count_append, List.count_cons, List.count_nil]
      by_cases h : p = q <;> simp [h]
    · have : (startRun fs p).stepsLeft ≤ 4 := by
        cases startRun fs p <;> simp [Run.stepsLeft]
      simp [weightSum, Worker.weight]; omega
  | inCall p r =>
    have hgen : ∀ (r2 : Run) (w2 : World), r2.stepsLeft < r.stepsLeft →
        WorkRel [Worker.inCall p r] s [Worker.inCall p r2] { s with world := w2 } := by
      intro r2 w2 hlt
      exact ⟨rfl, rfl, rfl, rfl, rfl, by simp [busyCount], by simp [receivedCount],
        by simp [inCallCount], by simp [exitedCount], fun h => h,
        Or.inr (by simp [weightSum, Worker.weight]; omega), rfl⟩
    have hlt : ∀ (r : Run), 0 < r.stepsLeft →
        (r.step env token s.world).1.stepsLeft < r.stepsLeft := by
      intro r h
      have := Run.step_stepsLeft env token r s.world
      omega
    cases r with
    | done e =>
      simp only [Worker.step]
      refine ⟨rfl, rfl, rfl, rfl, by simp, by simp [busyCount]; omega,
        by simp [receivedCount], ?_, by simp [exitedCount], fun h => h, Or.inr ?_, rfl⟩
      · intro q
        simp only [inCallCount, List.map_append, List.map_cons, List.map_nil,
          List.count_append, List.count_cons, List.count_nil]
        by_cases h : p = q
        · simp [h]; omega
        · simp [h]
      · simp [weightSum, Worker.weight, Run.stepsLeft]
    | lookup a b c => exact hgen _ _ (hlt _ (by simp [Run.stepsLeft]))
    | rawUpload a b c => exact hgen _ _ (hlt _ (by simp [Run.stepsLeft]))
    | register a b c => exact hgen _ _ (hlt _ (by simp [Run.stepsLeft]))
    | insert a b => exact hgen _ _ (hlt _ (by simp [Run.stepsLeft]))
  | exited =>
    simp only [Worker.step]
    exact ⟨rfl, rfl, rfl, rfl, rfl, rfl, fun _ => rfl, fun _ => rfl,
      fun _ => Or.inl (by simp [exitedCount]), fun h => h, Or.inl rfl, rfl⟩

theorem busyCount_cons (wk : Worker) (rest : List Worker) :
    busyCount (wk :: rest) = busyCount [wk] + busyCount rest := by
  cases wk <;> simp [busyCount]

theorem receivedCount_cons (p : String) (wk : Worker) (rest : List Worker) :
    receivedCount p (wk :: rest) = receivedCount p [wk] + receivedCount p rest := by
  cases wk <;> simp [receivedCount]

theorem inCallCount_cons (p : String) (wk : Worker) (rest : List Worker) :
    inCallCount p (wk :: rest) = inCallCount p [wk] + inCallCount p rest := by
  cases wk <;> simp [inCallCount]

theorem exitedCount_cons (wk : Worker) (rest : List Worker) :
    exitedCount (wk :: rest) = exitedCount [wk] + exitedCount rest := by
  cases wk <;> simp [exitedCount]

theorem idleCount_cons (wk : Worker) (rest : List Worker) :
    idleCount (wk :: rest) = idleCount [wk] + idleCount rest := by
  cases wk <;> simp [idleCount]

theorem weightSum_cons (wk : Worker) (rest : List Worker) :
    weightSum (wk :: rest) = weightSum [wk] + weightSum rest := by
  simp [weightSum]

/-- An action of a worker of the pool. -/
theorem workAt_rel (fs : FileSystem) (env : Env) (token : Token) (i : Nat) (ws : List Worker)
    (s : Shared) :
    WorkRel ws s (workAt fs env token i ws s).1 (workAt fs env token i ws s).2 := by
  induction ws generalizing i with
  | nil =>
    simp only [workAt]
    exact ⟨rfl, rfl, rfl, rfl, rfl, rfl, fun _ => rfl, fun _ => rfl, fun h => Or.inl h,
      fun h => h, Or.inl rfl, rfl⟩
  | cons wk rest ih =>
    cases i with
    | zero =>
      have h := Worker.step_rel fs env token wk s
      simp only [workAt]
      generalize (wk.step fs env token s).1 = wk2 at h ⊢
      generalize (wk.step fs env token s).2 = s2 at h ⊢
      refine ⟨h.pending, h.holding, h.added, h.closed, h.count, ?_, ?_, ?_, ?_, h.drained,
        ?_, by simp⟩
      · have := h.flow
        have := busyCount_cons wk rest
        have := busyCount_cons wk2 rest
        omega
      · intro p
        have := h.uncalled p
        have := receivedCount_cons p wk rest
        have := receivedCount_cons p wk2 rest
        omega
      · intro p
        have := h.calls p
        have := inCallCount_cons p wk rest
        have := inCallCount_cons p wk2 rest
        omega
      · intro hpos
        have e1 := exitedCount_cons wk rest
        have e2 := exitedCount_cons wk2 rest
        by_cases h1 : 0 < exitedCount [wk2]
        · rcases h.leaving h1 with h2 | h2
          · left; omega
          · right; exact h2
        · left; omega
      · rcases h.measure with h1 | h1
        · left
          obtain ⟨h1a, h1b⟩ := Prod.mk.inj h1
          rw [(List.cons.inj h1a).1, h1b]
        · right
          have := weightSum_cons wk rest
          have := weightSum_cons wk2 rest
          omega
    | succ i =>
      have h := ih i
      simp only [workAt]
      generalize (workAt fs env token i rest s).1 = rest2 at h ⊢
      generalize (workAt fs env token i rest s).2 = s2 at h ⊢
      refine ⟨h.pending, h.holding, h.added, h.closed, h.count, ?_, ?_, ?_, ?_, h.drained,
        ?_, by simp [h.length]⟩
      · have := h.flow
        have := busyCount_cons wk rest
        have := busyCount_cons wk rest2
        omega
      · intro p
        have := h.uncalled p
        have := receivedCount_cons p wk rest
        have := receivedCount_cons p wk rest2
        omega
      · intro p
        have := h.calls p
        have := inCallCount_cons p wk rest
        have := inCallCount_cons p wk rest2
        omega
      · intro hpos
        have e1 := exitedCount_cons wk rest
        have e2 := exitedCount_cons wk rest2
        by_cases h1 : 0 < exitedCount rest2
        · rcases h.leaving h1 with h2 | h2
          · left; omega
          · right; exact h2
        · left; omega
      · rcases h.measure with h1 | h1
        · left
          obtain ⟨h1a, h1b⟩ := Prod.mk.inj h1
          rw [h1a, h1b]
        · right
          have := weightSum_cons wk rest
          have := weightSum_cons wk rest2
          omega

theorem poolInv_start (n : Nat) (paths : List String) (w : World) :
    PoolInv paths (poolStart n paths w) := by
  have hw : ∀ n, busyCount (List.replicate n Worker.idle) = 0
      ∧ exitedCount (List.replicate n Worker.idle) = 0
      ∧ ∀ p, receivedCount p (List.replicate n Worker.idle) = 0
        ∧ inCallCount p (List.replicate n Worker.idle) = 0 := by
    intro n
    induction n with
    | zero => simp [busyCount, exitedCount, receivedCount, inCallCount]
    | succ k ih =>
      simp only [List.replicate_succ, busyCount, exitedCount, receivedCount, inCallCount]
      exact ih
  obtain ⟨h1, h2, h3⟩ := hw n
  refine ⟨by simp [poolStart], by simp [poolStart], by simp [poolStart, h1], ?_, ?_,
    by simp [poolStart], ?_⟩
  · intro p; simp [poolStart, (h3 p).1]
  · intro p; simp [poolStart, (h3 p).2]
  · intro h; simp [poolStart, h2] at h

/-- Every action keeps the invariant of the pool. -/
theorem PoolInv.after_action {paths : List String} {st : List Worker × Shared} (h : PoolInv paths st)
    (fs : FileSystem) (token : Token) (a : Action) : PoolInv paths (poolStep fs token a st) := by
  obtain ⟨ws, s⟩ := st
  cases a with
  | add =>
    simp only [poolStep]
    cases hh : s.holding with
    | some q => simpa [hh] using h
    | none =>
      cases hp : s.pending with
      | nil => simpa [hh, hp] using h
      | cons p rest =>
        simp only []
        have hw := h.walked
        have hc := h.count
        have hf := h.flow
        simp only [hp, hh] at hw hc hf
        refine ⟨by simp [← hw], by simp; omega, by simp at hf ⊢; omega, ?_, h.calls, ?_,
          h.leaving⟩
        · intro q
          have := h.uncalled q
          simp only [hh] at this
          simp only [List.count_append, Option.toList, List.count_cons, List.count_nil] at this ⊢
          by_cases e : p = q <;> simp [e] at this ⊢ <;> omega
        · intro hcl
          have := (h.closing hcl).2
          simp [hp] at this
  | send =>
    simp only [poolStep]
    cases hh : s.holding with
    | none => simpa [hh] using h
    | some p =>
      simp only []
      split
      · have hf := h.flow
        simp only [hh] at hf
        refine ⟨h.walked, h.count, by simp at hf ⊢; omega, ?_, h.calls, ?_, ?_⟩
        · intro q
          have := h.uncalled q
          simp only [hh] at this
          simp only [List.count_append, Option.toList, List.count_cons, List.count_nil] at this ⊢
          by_cases e : p = q <;> simp [e] at this ⊢ <;> omega
        · intro hcl
          have := (h.closing hcl).1
          simp [hh] at this
        · intro hex
          have := (h.closing (h.leaving hex).1).1
          simp [hh] at this
      · simpa [hh] using h
  | close =>
    simp only [poolStep]
    cases hh : s.holding with
    | some q => simpa [hh] using h
    | none =>
      cases hp : s.pending with
      | cons p rest => simpa [hh, hp] using h
      | nil =>
        simp only []
        have hw := h.walked
        have hf := h.flow
        have hu := h.uncalled
        simp only [hh, hp] at hw hf hu
        exact ⟨hw, h.count, hf, hu, h.calls, fun _ => ⟨rfl, rfl⟩,
          fun hex => ⟨rfl, (h.leaving hex).2⟩⟩
  | work i env =>
    have r := workAt_rel fs env token i ws s
    simp only [poolStep]
    cases hwa : workAt fs env token i ws s with
    | mk ws2 s2 =>
    rw [hwa] at r
    simp only at r
    have hw := h.walked
    have hc := h.count
    have hf := h.flow
    simp only at hw hc hf
    refine ⟨?_, ?_, ?_, ?_, ?_, ?_, ?_⟩
    · simp only [r.added, r.pending]; exact hw
    · have := r.count
      simp only [r.added]; omega
    · have := r.flow
      simp only [r.added, r.holding]; omega
    · intro p
      have h1 := h.uncalled p
      have h2 := r.uncalled p
      simp only at h1
      simp only [r.added, r.holding]; omega
    · intro p
      have h1 := h.calls p
      have h2 := r.calls p
      simp only at h1 ⊢
      omega
    · intro hcl
      simp only [r.closed] at hcl
      simpa [r.holding, r.pending] using h.closing hcl
    · intro hex
      simp only at hex
      rcases r.leaving hex with h1 | h1
      · have := h.leaving h1
        exact ⟨by simp only [r.closed]; exact this.1, r.drained this.2⟩
      · exact ⟨by simp only [r.closed]; exact h1.1, r.drained h1.2⟩

/-- Every reachable state of the pool satisfies the invariant. -/
theorem PoolInv.after_actions {paths : List String} (fs : FileSystem) (token : Token)
    (actions : List Action) {st : List Worker × Shared} (h : PoolInv paths st) :
    PoolInv paths (poolExec fs token actions st) := by
  induction actions generalizing st with
  | nil => exact h
  | cons a rest ih => exact ih (h.after_action fs token a)

/-- An action changes nothing or takes the pool closer to the end. -/
theorem poolMeasure_step (fs : FileSystem) (token : Token) (a : Action)
    (st : List Worker × Shared) :
    poolStep fs token a st = st ∨ poolMeasure (poolStep fs token a st) < poolMeasure st := by
  obtain ⟨ws, s⟩ := st
  cases a with
  | add =>
    simp only [poolStep]
    cases hh : s.holding with
    | some q => left; rfl
    | none =>
      cases hp : s.pending with
      | nil => left; rfl
      | cons p rest =>
        right
        simp [poolMeasure, hh, hp]
        omega
  | send =>
    simp only [poolStep]
    cases hh : s.holding with
    | none => left; rfl
    | some p =>
      simp only []
      split
      · right
        simp [poolMeasure, hh]
        omega
      · left; rfl
  | close =>
    simp only [poolStep]
    cases hh : s.holding with
    | some q => left; rfl
    | none =>
      cases hp : s.pending with
      | cons p rest => left; rfl
      | nil =>
        simp only []
        cases hc : s.closed with
        | true =>
          left
          cases s
          simp only at hc hh hp
          subst hc hh hp
          rfl
        | false =>
          right
          simp [poolMeasure, hh, hp, hc]
  | work i env =>
    have r := workAt_rel fs env token i ws s
    simp only [poolStep]
    cases hwa : workAt fs env token i ws s with
    | mk ws2 s2 =>
    rw [hwa] at r
    simp only at r
    rcases r.measure with h | h
    · left; exact h
    · right
      simp only [poolMeasure, r.pending, r.holding, r.closed]
      omega

theorem Worker.step_changes (fs : FileSystem) (env : Env) (token : Token) (wk : Worker)
    (s : Shared) (h : (wk.step fs env token s).1 = wk) :
    wk = Worker.exited ∨ (wk = Worker.idle ∧ s.queue = [] ∧ s.closed = false) := by
  cases wk with
  | idle =>
    right
    cases hq : s.queue with
    | cons p rest => simp [Worker.step, hq] at h
    | nil =>
      cases hc : s.closed with
      | true => simp [Worker.step, hq, hc] at h
      | false => exact ⟨rfl, rfl, rfl⟩
  | received p => simp [Worker.step] at h
  | inCall p r =>
    exfalso
    have hlt := Run.step_stepsLeft env token r s.world
    cases r with
    | done e => simp [Worker.step] at h
    | lookup a b c =>
      simp only [Worker.step, Worker.inCall.injEq, true_and] at h
      rw [h] at hlt; simp [Run.stepsLeft] at hlt
    | rawUpload a b c =>
      simp only [Worker.step, Worker.inCall.injEq, true_and] at h
      rw [h] at hlt; simp [Run.stepsLeft] at hlt
    | register a b c =>
      simp only [Worker.step, Worker.inCall.injEq, true_and] at h
      rw [h] at hlt; simp [Run.stepsLeft] at hlt
    | insert a b =>
      simp only [Worker.step, Worker.inCall.injEq, true_and] at h
      rw [h] at hlt; simp [Run.stepsLeft] at hlt
  | exited => left; rfl

/-- When no worker can move, none holds a path, and an idle worker means an
empty open channel. -/
theorem workers_stuck (fs : FileSystem) (env : Env) (token : Token) (ws : List Worker)
    (s : Shared) (h : ∀ i, workAt fs env token i ws s = (ws, s)) :
    busyCount ws = 0 ∧ (∀ p, receivedCount p ws = 0 ∧ inCallCount p ws = 0)
      ∧ idleCount ws + exitedCount ws = ws.length
      ∧ (0 < idleCount ws → s.queue = [] ∧ s.closed = false) := by
  induction ws with
  | nil => simp [busyCount, receivedCount, inCallCount, idleCount, exitedCount]
  | cons wk rest ih =>
    have h0 := h 0
    simp only [workAt, Prod.mk.injEq, List.cons.injEq, and_true] at h0
    have hrest : ∀ i, workAt fs env token i rest s = (rest, s) := by
      intro i
      have := h (i + 1)
      simp only [workAt, Prod.mk.injEq, List.cons.injEq, true_and] at this
      exact Prod.ext this.1 this.2
    obtain ⟨i1, i2, i3, i4⟩ := ih hrest
    rcases Worker.step_changes fs env token wk s h0.1 with hw | ⟨hw, hq, hc⟩
    · subst hw
      refine ⟨by simpa [busyCount] using i1, ?_, ?_, ?_⟩
      · intro p; simpa [receivedCount, inCallCount] using i2 p
      · simp [idleCount, exitedCount]; omega
      · intro hpos; exact i4 (by simpa [idleCount] using hpos)
    · subst hw
      refine ⟨by simpa [busyCount] using i1, ?_, ?_, fun _ => ⟨hq, hc⟩⟩
      · intro p; simpa [receivedCount, inCallCount] using i2 p
      · simp [idleCount, exitedCount]; omega

/-- With at least one worker, a state of the pool in which no action changes
anything is the end of the run: every path was added, called and finished once,
and the counter is zero. -/
theorem stuck_is_complete (fs : FileSystem) (token : Token) (paths : List String)
    (st : List Worker × Shared) (hinv : PoolInv paths st) (hn : 0 < st.1.length)
    (hstuck : ∀ a, poolStep fs token a st = st) :
    st.2.pending = [] ∧ st.2.holding = none ∧ st.2.queue = [] ∧ st.2.closed = true
      ∧ busyCount st.1 = 0 ∧ exitedCount st.1 = st.1.length
      ∧ st.2.added = paths ∧ st.2.counter = 0
      ∧ st.2.called.Perm paths ∧ (st.2.finished.map Prod.fst).Perm paths := by
  obtain ⟨ws, s⟩ := st
  have hwork : ∀ i, workAt fs acceptAll token i ws s = (ws, s) :=
    fun i => hstuck (Action.work i acceptAll)
  obtain ⟨w1, w2, w3, w4⟩ := workers_stuck fs acceptAll token ws s hwork
  simp only at hn
  have hidle : idleCount ws = 0 := by
    by_contra hne
    obtain ⟨hq, hc⟩ := w4 (by omega)
    have hsend := hstuck Action.send
    have hadd := hstuck Action.add
    have hclose := hstuck Action.close
    simp only [poolStep] at hsend hadd hclose
    cases hh : s.holding with
    | some p =>
      simp only [hh, hq, List.length_nil, queueCapacity, Nat.zero_lt_succ, if_true,
        Prod.mk.injEq, true_and] at hsend
      have := congrArg Shared.holding hsend
      simp [hh] at this
    | none =>
      cases hp : s.pending with
      | cons p rest =>
        simp only [hh, hp, Prod.mk.injEq, true_and] at hadd
        have := congrArg Shared.holding hadd
        simp [hh] at this
      | nil =>
        simp only [hh, hp, Prod.mk.injEq, true_and] at hclose
        have := congrArg Shared.closed hclose
        simp [hc] at this
  obtain ⟨hcl, hq⟩ := hinv.leaving (by simp only; omega)
  obtain ⟨hh, hp⟩ := hinv.closing hcl
  have hw := hinv.walked
  have hc := hinv.count
  have hf := hinv.flow
  simp only at hcl hq hh hp hw hc hf
  rw [hp, List.append_nil] at hw
  rw [hh, hq, w1] at hf
  simp only [Option.toList, List.length_nil, Nat.zero_add, Nat.add_zero] at hf
  have hcalled : ∀ p, s.called.count p = paths.count p := by
    intro p
    have := hinv.uncalled p
    simp only [hh, hq, (w2 p).1, Option.toList, List.count_nil, Nat.zero_add] at this
    rw [← hw, this]
  have hfin : ∀ p, (s.finished.map Prod.fst).count p = paths.count p := by
    intro p
    have := hinv.calls p
    simp only [(w2 p).2, Nat.zero_add] at this
    rw [← this, hcalled p]
  refine ⟨hp, hh, hq, hcl, w1, by simp only; omega, hw, by simp only; omega, ?_, ?_⟩
  · exact List.perm_iff_count.mpr hcalled
  · exact List.perm_iff_count.mpr hfin

/-- From every state, some sequence of actions leads to a state in which no
action changes anything. -/
theorem pool_reaches_stuck (fs : FileSystem) (token : Token) (st : List Worker × Shared) :
    ∃ actions, ∀ a, poolStep fs token a (poolExec fs token actions st)
      = poolExec fs token actions st := by
  generalize hm : poolMeasure st = m
  induction m using Nat.strong_induction_on generalizing st with
  | _ m ih =>
    by_cases hstuck : ∀ a, poolStep fs token a st = st
    · exact ⟨[], hstuck⟩
    · push_neg at hstuck
      obtain ⟨a, ha⟩ := hstuck
      rcases poolMeasure_step fs token a st with h | h
      · exact absurd h ha
      · obtain ⟨actions, hact⟩ := ih _ (by rw [← hm]; exact h) (poolStep fs token a st) rfl
        exact ⟨a :: actions, hact⟩

theorem poolExec_append (fs : FileSystem) (token : Token) (a b : List Action)
    (st : List Worker × Shared) :
    poolExec fs token (a ++ b) st = poolExec fs token b (poolExec fs token a st) := by
  induction a generalizing st with
  | nil => rfl
  | cons x rest ih => exact ih _

theorem poolStep_length (fs : FileSystem) (token : Token) (a : Action)
    (st : List Worker × Shared) : (poolStep fs token a st).1.length = st.1.length := by
  obtain ⟨ws, s⟩ := st
  cases a with
  | add =>
    simp only [poolStep]
    split <;> rfl
  | send =>
    simp only [poolStep]
    split
    · split <;> rfl
    · rfl
  | close =>
    simp only [poolStep]
    split <;> rfl
  | work i env => exact (workAt_rel fs env token i ws s).length

theorem poolExec_length (fs : FileSystem) (token : Token) (actions : List Action)
    (st : List Worker × Shared) : (poolExec fs token actions st).1.length = st.1.length := by
  induction actions generalizing st with
  | nil => rfl
  | cons a rest ih =>
    simp only [poolExec]
    rw [ih, poolStep_length]

/-- C9: in every reachable state of the pool the counter is the number of
paths added minus the number of finished calls, it is not negative, and it is
zero exactly when every added path is finished; the paths added are a
beginning of the enqueued paths (one increment each), `uploadFile` is called at
most once per added path and `wg.Done()` runs at most once per call.  Every
action that changes the state takes the pool closer to the end, from every
reachable state the end can be reached, and with at least one worker a state
in which nothing can move is the end: every path was added once, called once
and finished once, whatever the calls returned, and the counter is zero. -/
theorem pool_tracks_completion (fs : FileSystem) (token : Token) (n : Nat)
    (paths : List String) (w : World) :
    (∀ actions,
        0 ≤ (poolAfter fs token n paths w actions).2.counter
          ∧ (poolAfter fs token n paths w actions).2.counter
            = ((poolAfter fs token n paths w actions).2.added.length : Int)
              - ((poolAfter fs token n paths w actions).2.finished.length : Int)
          ∧ ((poolAfter fs token n paths w actions).2.counter = 0
            ↔ (poolAfter fs token n paths w actions).2.finished.length
              = (poolAfter fs token n paths w actions).2.added.length)
          ∧ (poolAfter fs token n paths w actions).2.added
              ++ (poolAfter fs token n paths w actions).2.pending = paths
          ∧ (∀ p, (poolAfter fs token n paths w actions).2.called.count p
              ≤ (poolAfter fs token n paths w actions).2.added.count p)
          ∧ (∀ p, ((poolAfter fs token n paths w actions).2.finished.map Prod.fst).count p
              ≤ (poolAfter fs token n paths w actions).2.called.count p))
      ∧ (∀ actions a,
          poolStep fs token a (poolAfter fs token n paths w actions)
              = poolAfter fs token n paths w actions
            ∨ poolMeasure (poolStep fs token a (poolAfter fs token n paths w actions))
              < poolMeasure (poolAfter fs token n paths w actions))
      ∧ (∀ actions, ∃ more, ∀ a,
          poolStep fs token a (poolAfter fs token n paths w (actions ++ more))
            = poolAfter fs token n paths w (actions ++ more))
      ∧ (0 < n → ∀ actions,
          (∀ a, poolStep fs token a (poolAfter fs token n paths w actions)
            = poolAfter fs token n paths w actions) →
          (poolAfter fs token n paths w actions).2.added = paths
            ∧ (poolAfter fs token n paths w actions).2.counter = 0
            ∧ (poolAfter fs token n paths w actions).2.called.Perm paths
            ∧ ((poolAfter fs token n paths w actions).2.finished.map Prod.fst).Perm paths
            ∧ (poolAfter fs token n paths w actions).2.pending = []
            ∧ (poolAfter fs token n paths w actions).2.queue = []
            ∧ busyCount (poolAfter fs token n paths w actions).1 = 0) := by
  have hinv : ∀ actions, PoolInv paths (poolAfter fs token n paths w actions) :=
    fun actions => PoolInv.after_actions fs token actions (poolInv_start n paths w)
  refine ⟨?_, ?_, ?_, ?_⟩
  · intro actions
    have h := hinv actions
    generalize poolAfter fs token n paths w actions = st at h
    have hc := h.count
    have hf := h.flow
    refine ⟨by omega, by omega, by omega, h.walked, ?_, ?_⟩
    · intro p
      have := h.uncalled p
      omega
    · intro p
      have := h.calls p
      omega
  · intro actions a
    exact poolMeasure_step fs token a _
  · intro actions
    obtain ⟨more, hmore⟩ := pool_reaches_stuck fs token (poolAfter fs token n paths w actions)
    refine ⟨more, ?_⟩
    intro a
    unfold poolAfter at hmore ⊢
    rw [poolExec_append]
    exact hmore a
  · intro hn actions hstuck
    have hlen : 0 < (poolAfter fs token n paths w actions).1.length := by
      unfold poolAfter
      rw [poolExec_length]
      simpa [poolStart] using hn
    obtain ⟨h1, h2, h3, h4, h5, h6, h7, h8, h9, h10⟩ :=
      stuck_is_complete fs token paths _ (hinv actions) hlen hstuck
    exact ⟨h7, h8, h9, h10, h1, h3, h5⟩

theorem sample_pool_end :
    poolAfter sampleFS sampleToken 1 ["dir/missing.jpg", "dir/small.gif"] freshWorld
        sampleActions
      = ([Worker.exited],
          { pending := [], holding := none, queue := [], closed := true, counter := 0,
            world := freshWorld, added := ["dir/missing.jpg", "dir/small.gif"],
            called := ["dir/missing.jpg", "dir/small.gif"],
            finished := [("dir/missing.jpg", some UploadError.openingFile),
              ("dir/small.gif", some (UploadError.readingFile ReadError.eof))] }) := by
  rfl

theorem sample_pool_stuck (a : Action) :
    poolStep sampleFS sampleToken a
        (poolAfter sampleFS sampleToken 1 ["dir/missing.jpg", "dir/small.gif"] freshWorld
          sampleActions)
      = poolAfter sampleFS sampleToken 1 ["dir/missing.jpg", "dir/small.gif"] freshWorld
          sampleActions := by
  rw [sample_pool_end]
  cases a with
  | add => rfl
  | send => rfl
  | close => rfl
  | work i env =>
    cases i with
    | zero => rfl
    | succ i => cases i <;> rfl

theorem pool_tracks_completion_witness :
    (poolAfter sampleFS sampleToken 1 ["dir/missing.jpg", "dir/small.gif"] freshWorld
        sampleActions).2.added = ["dir/missing.jpg", "dir/small.gif"]
      ∧ (poolAfter sampleFS sampleToken 1 ["dir/missing.jpg", "dir/small.gif"] freshWorld
          sampleActions).2.counter = 0
      ∧ (poolAfter sampleFS sampleToken 1 ["dir/missing.jpg", "dir/small.gif"] freshWorld
          sampleActions).2.called.Perm ["dir/missing.jpg", "dir/small.gif"] :=
  have h := (pool_tracks_completion sampleFS sampleToken 1
    ["dir/missing.jpg", "dir/small.gif"] freshWorld).2.2.2 (by decide) sampleActions
    sample_pool_stuck
  ⟨h.1, h.2.1, h.2.2.1⟩

/-! ## The registration body -/

theorem hex4_hexByte : ∀ b, b < 128 →
    hex4 0x30 0x30 (hexByte (b / 16)) (hexByte (b % 16)) = some b := by
  decide

theorem isCont_bounds (b : Nat) (h : isCont b = true) : 0x80 ≤ b ∧ b ≤ 0xBF := by
  simpa [isCont] using h

theorem acceptSecond_bounds (b0 b1 : Nat) (h : acceptSecond b0 b1 = true) :
    0x80 ≤ b1 ∧ b1 ≤ 0xBF ∧ (b0 = 0xE0 → 0xA0 ≤ b1) ∧ (b0 = 0xED → b1 ≤ 0x9F)
      ∧ (b0 = 0xF0 → 0x90 ≤ b1) ∧ (b0 = 0xF4 → b1 ≤ 0x8F) := by
  unfold acceptSecond at h
  split_ifs at h <;> simp [isCont] at h <;> omega

/-- The results of `decodeRune` on a string that starts with a byte from
0x80 on. -/
theorem decodeRune_cases (b : Nat) (tl : List Nat) (hb : 0x80 ≤ b) :
    decodeRune (b :: tl) = (runeError, 1)
      ∨ (∃ b1 t, tl = b1 :: t ∧ 0xC2 ≤ b ∧ b ≤ 0xDF ∧ acceptSecond b b1 = true
          ∧ decodeRune (b :: tl) = ((b % 32) * 64 + b1 % 64, 2))
      ∨ (∃ b1 b2 t, tl = b1 :: b2 :: t ∧ 0xE0 ≤ b ∧ b ≤ 0xEF ∧ acceptSecond b b1 = true
          ∧ isCont b2 = true
          ∧ decodeRune (b :: tl) = (((b % 16) * 64 + b1 % 64) * 64 + b2 % 64, 3))
      ∨ (∃ b1 b2 b3 t, tl = b1 :: b2 :: b3 :: t ∧ 0xF0 ≤ b ∧ b ≤ 0xF4
          ∧ acceptSecond b b1 = true ∧ isCont b2 = true ∧ isCont b3 = true
          ∧ decodeRune (b :: tl)
            = ((((b % 8) * 64 + b1 % 64) * 64 + b2 % 64) * 64 + b3 % 64, 4)) := by
  have hnb : ¬ b < 0x80 := by omega
  by_cases h2 : 0xC2 ≤ b ∧ b ≤ 0xDF
  · cases tl with
    | nil => left; simp [decodeRune, hnb, h2]
    | cons b1 t =>
      cases ha : acceptSecond b b1 with
      | false => left; simp [decodeRune, hnb, h2, ha]
      | true =>
        right; left
        exact ⟨b1, t, rfl, h2.1, h2.2, ha, by simp [decodeRune, hnb, h2, ha]⟩
  · by_cases h3 : 0xE0 ≤ b ∧ b ≤ 0xEF
    · rcases tl with _ | ⟨b1, _ | ⟨b2, t⟩⟩
      · left; simp [decodeRune, hnb, h2, h3]
      · left; simp [decodeRune, hnb, h2, h3]
      · cases ha : acceptSecond b b1 with
        | false => left; simp [decodeRune, hnb, h2, h3, ha]
        | true =>
          cases hc : isCont b2 with
          | false => left; simp [decodeRune, hnb, h2, h3, ha, hc]
          | true =>
            right; right; left
            exact ⟨b1, b2, t, rfl, h3.1, h3.2, ha, hc,
              by simp [decodeRune, hnb, h2, h3, ha, hc]⟩
    · by_cases h4 : 0xF0 ≤ b ∧ b ≤ 0xF4
      · rcases tl with _ | ⟨b1, _ | ⟨b2, _ | ⟨b3, t⟩⟩⟩
        · left; simp [decodeRune, hnb, h2, h3, h4]
        · left; simp [decodeRune, hnb, h2, h3, h4]
        · left; simp [decodeRune, hnb, h2, h3, h4]
        · cases ha : acceptSecond b b1 with
          | false => left; simp [decodeRune, hnb, h2, h3, h4, ha]
          | true =>
            cases hc : isCont b2 with
            | false => left; simp [decodeRune, hnb, h2, h3, h4, ha, hc]
            | true =>
              cases hd : isCont b3 with
              | false => left; simp [decodeRune, hnb, h2, h3, h4, ha, hc, hd]
              | true =>
                right; right; right
                exact ⟨b1, b2, b3, t, rfl, h4.1, h4.2, ha, hc, hd,
                  by simp [decodeRune, hnb, h2, h3, h4, ha, hc, hd]⟩
      · left; simp [decodeRune, hnb, h2, h3, h4]

set_option maxHeartbeats 1600000 in
theorem decodeRune_multi (b : Nat) (tl : List Nat) (hb : 0x80 ≤ b)
    (hv : ¬ ((decodeRune (b :: tl)).1 = runeError ∧ (decodeRune (b :: tl)).2 = 1)) :
    2 ≤ (decodeRune (b :: tl)).2 ∧ (decodeRune (b :: tl)).2 ≤ (b :: tl).length
      ∧ (∀ x ∈ (b :: tl).take (decodeRune (b :: tl)).2, 0x80 ≤ x)
      ∧ ((decodeRune (b :: tl)).1 = 0x2028 →
          (b :: tl).take (decodeRune (b :: tl)).2 = [0xE2, 0x80, 0xA8])
      ∧ ((decodeRune (b :: tl)).1 = 0x2029 →
          (b :: tl).take (decodeRune (b :: tl)).2 = [0xE2, 0x80, 0xA9]) := by
  rcases decodeRune_cases b tl hb with h | ⟨b1, t, rfl, l, u, ha, h⟩
      | ⟨b1, b2, t, rfl, l, u, ha, hc, h⟩ | ⟨b1, b2, b3, t, rfl, l, u, ha, hc, hd, h⟩
  · rw [h] at hv; simp at hv
  · rw [h]
    have := acceptSecond_bounds b b1 ha
    refine ⟨by simp, by simp, ?_, ?_, ?_⟩
    · intro x hx
      simp at hx
      rcases hx with rfl | rfl <;> omega
    · intro hc; simp only at hc; omega
    · intro hc; simp only at hc; omega
  · rw [h]
    have := acceptSecond_bounds b b1 ha
    have := isCont_bounds b2 hc
    refine ⟨by simp, by simp, ?_, ?_, ?_⟩
    · intro x hx
      simp at hx
      rcases hx with rfl | rfl | rfl <;> omega
    · intro hc
      simp only at hc
      have e0 : b = 0xE2 := by omega
      have e1 : b1 = 0x80 := by omega
      have e2 : b2 = 0xA8 := by omega
      simp [e0, e1, e2]
    · intro hc
      simp only at hc
      have e0 : b = 0xE2 := by omega
      have e1 : b1 = 0x80 := by omega
      have e2 : b2 = 0xA9 := by omega
      simp [e0, e1, e2]
  · rw [h]
    have := acceptSecond_bounds b b1 ha
    have := isCont_bounds b2 hc
    have := isCont_bounds b3 hd
    refine ⟨by simp, by simp, ?_, ?_, ?_⟩
    · intro x hx
      simp at hx
      rcases hx with rfl | rfl | rfl | rfl <;> omega
    · intro hc; simp only at hc; omega
    · intro hc; simp only at hc; omega

/-! ### Reading back what the string encoder wrote -/

theorem appendStringLoop_ascii (fuel b : Nat) (tl : List Nat) (h : b < 0x80) :
    appendStringLoop (fuel + 1) (b :: tl)
      = (if htmlSafeSet b then [b] else escapeByte b) ++ appendStringLoop fuel tl := by
  simp [appendStringLoop, h]

theorem appendStringLoop_multi (fuel b : Nat) (tl : List Nat) (h : ¬ b < 0x80) :
    appendStringLoop (fuel + 1) (b :: tl)
      = if (decodeRune (b :: tl)).1 = runeError ∧ (decodeRune (b :: tl)).2 = 1 then
          bytesOf "\\ufffd" ++ appendStringLoop fuel tl
        else if (decodeRune (b :: tl)).1 = 0x2028 ∨ (decodeRune (b :: tl)).1 = 0x2029 then
          [0x5C, 0x75, 0x32, 0x30, 0x32, hexByte ((decodeRune (b :: tl)).1 % 16)]
            ++ appendStringLoop fuel ((b :: tl).drop (decodeRune (b :: tl)).2)
        else
          (b :: tl).take (decodeRune (b :: tl)).2
            ++ appendStringLoop fuel ((b :: tl).drop (decodeRune (b :: tl)).2) := by
  simp only [appendStringLoop, h, if_false]

theorem parse_quote (f : Nat) (rest : List Nat) :
    parseStringBody (f + 1) (0x22 :: rest) = some ([], rest) := by
  simp [parseStringBody]

theorem parse_plain (f b : Nat) (rest : List Nat) (h1 : b ≠ 0x22) (h2 : b ≠ 0x5C)
    (h3 : 0x20 ≤ b) :
    parseStringBody (f + 1) (b :: rest) = prepend [b] (parseStringBody f rest) := by
  have : ¬ b < 0x20 := by omega
  simp [parseStringBody, h1, h2, this]

theorem parse_plain_list (f : Nat) (l rest : List Nat) (h : ∀ x ∈ l, 0x80 ≤ x) :
    parseStringBody (f + l.length) (l ++ rest) = prepend l (parseStringBody f rest) := by
  induction l with
  | nil =>
    simp only [List.length_nil, Nat.add_zero, List.nil_append, prepend]
    cases parseStringBody f rest <;> simp
  | cons b tl ih =>
    have hb := h b (List.mem_cons_self _ _)
    rw [List.length_cons, ← Nat.add_assoc, List.cons_append,
      parse_plain _ b _ (by omega) (by omega) (by omega),
      ih (fun x hx => h x (List.mem_cons_of_mem _ hx))]
    cases parseStringBody f rest <;> simp [prepend]

theorem parse_simple_escape (f c v : Nat) (rest : List Nat) (hc : c ≠ 0x75)
    (hv : simpleEscape c = some v) :
    parseStringBody (f + 1) (0x5C :: c :: rest) = prepend [v] (parseStringBody f rest) := by
  simp [parseStringBody, hc, hv]

theorem parse_unicode_escape (f h1 h2 h3 h4 cp : Nat) (rest : List Nat)
    (hx : hex4 h1 h2 h3 h4 = some cp) (hlow : cp < 0xD800) :
    parseStringBody (f + 1) (0x5C :: 0x75 :: h1 :: h2 :: h3 :: h4 :: rest)
      = prepend (encodeRune cp) (parseStringBody f rest) := by
  have a1 : ¬ (0xD800 ≤ cp ∧ cp < 0xDC00) := by omega
  have a2 : ¬ (0xDC00 ≤ cp ∧ cp < 0xE000) := by omega
  simp [parseStringBody, hx, a1, a2]

theorem prepend_some (p d rest : List Nat) :
    prepend p (some (d, rest)) = some (p ++ d, rest) := rfl

theorem htmlSafeSet_bounds (b : Nat) (h : htmlSafeSet b = true) :
    0x20 ≤ b ∧ b ≠ 0x22 ∧ b ≠ 0x5C := by
  simp [htmlSafeSet] at h
  omega

theorem encodeRune_ascii (b : Nat) (h : b < 0x80) : encodeRune b = [b] := by
  simp [encodeRune, h]

/-- The string parser reads back the bytes of a valid UTF-8 string from what the
encoder wrote for it. -/
theorem parse_appendStringLoop (fuel : Nat) :
    ∀ (src rest : List Nat) (fuelD : Nat), src.length ≤ fuel → validLoop fuel src = true →
      (appendStringLoop fuel src).length + 1 ≤ fuelD →
      parseStringBody fuelD (appendStringLoop fuel src ++ 0x22 :: rest) = some (src, rest) := by
  induction fuel with
  | zero =>
    intro src rest fuelD hlen _ hf
    have : src = [] := List.length_eq_zero.mp (by omega)
    subst this
    obtain ⟨k, rfl⟩ : ∃ k, fuelD = k + 1 := ⟨fuelD - 1, by omega⟩
    simp [appendStringLoop, parse_quote]
  | succ n ih =>
    intro src rest fuelD hlen hv hf
    cases src with
    | nil =>
      obtain ⟨k, rfl⟩ : ∃ k, fuelD = k + 1 := ⟨fuelD - 1, by omega⟩
      simp [appendStringLoop, parse_quote]
    | cons b tl =>
      have hlen2 : tl.length ≤ n := by simpa using hlen
      by_cases hb : b < 0x80
      · have hv2 : validLoop n tl = true := by simpa [validLoop, hb] using hv
        rw [appendStringLoop_ascii n b tl hb] at hf ⊢
        have step : ∀ (chunk : List Nat) (k : Nat),
            (if htmlSafeSet b = true then [b] else escapeByte b) = chunk →
            chunk.length + (appendStringLoop n tl).length + 1 ≤ k + 1 →
            parseStringBody (k + 1) (chunk ++ (appendStringLoop n tl ++ 0x22 :: rest))
              = prepend [b] (parseStringBody k (appendStringLoop n tl ++ 0x22 :: rest)) →
            1 ≤ chunk.length →
            parseStringBody (k + 1)
                ((if htmlSafeSet b = true then [b] else escapeByte b)
                  ++ appendStringLoop n tl ++ 0x22 :: rest) = some (b :: tl, rest) := by
          intro chunk k hc hk hp h1
          rw [hc, List.append_assoc, hp, ih tl rest k hlen2 hv2 (by omega), prepend_some]
          rfl
        obtain ⟨k, rfl⟩ : ∃ k, fuelD = k + 1 := ⟨fuelD - 1, by omega⟩
        by_cases hs : htmlSafeSet b = true
        · obtain ⟨s1, s2, s3⟩ := htmlSafeSet_bounds b hs
          have hc : (if htmlSafeSet b = true then [b] else escapeByte b) = [b] := by simp [hs]
          rw [hc] at hf
          exact step [b] k hc (by simp only [List.length_append, List.length_cons, List.length_nil] at hf ⊢; omega) (parse_plain k b _ s2 s3 s1) (by simp)
        · have hc0 : (if htmlSafeSet b = true then [b] else escapeByte b) = escapeByte b := by
            simp [hs]
          by_cases e1 : b = 0x5C ∨ b = 0x22
          · have hc : escapeByte b = [0x5C, b] := by simp [escapeByte, e1]
            have hse : simpleEscape b = some b := by
              rcases e1 with rfl | rfl <;> decide
            rw [hc0, hc] at hf
            exact step [0x5C, b] k (hc0.trans hc) (by simp only [List.length_append, List.length_cons, List.length_nil] at hf ⊢; omega)
              (parse_simple_escape k b b _ (by omega) hse) (by simp)
          · by_cases e2 : b = 0x0A
            · subst e2
              have hc : escapeByte 0x0A = [0x5C, 0x6E] := by decide
              rw [hc0, hc] at hf
              exact step [0x5C, 0x6E] k (hc0.trans hc) (by simp only [List.length_append, List.length_cons, List.length_nil] at hf ⊢; omega)
                (parse_simple_escape k 0x6E 0x0A _ (by decide) (by decide)) (by simp)
            · by_cases e3 : b = 0x0D
              · subst e3
                have hc : escapeByte 0x0D = [0x5C, 0x72] := by decide
                rw [hc0, hc] at hf
                exact step [0x5C, 0x72] k (hc0.trans hc) (by simp only [List.length_append, List.length_cons, List.length_nil] at hf ⊢; omega)
                  (parse_simple_escape k 0x72 0x0D _ (by decide) (by decide)) (by simp)
              · by_cases e4 : b = 0x09
                · subst e4
                  have hc : escapeByte 0x09 = [0x5C, 0x74] := by decide
                  rw [hc0, hc] at hf
                  exact step [0x5C, 0x74] k (hc0.trans hc) (by simp only [List.length_append, List.length_cons, List.length_nil] at hf ⊢; omega)
                    (parse_simple_escape k 0x74 0x09 _ (by decide) (by decide)) (by simp)
                · have hc : escapeByte b
                      = [0x5C, 0x75, 0x30, 0x30, hexByte (b / 16), hexByte (b % 16)] := by
                    simp [escapeByte, e1, e2, e3, e4]
                  rw [hc0, hc] at hf
                  refine step _ k (hc0.trans hc) (by simp only [List.length_append, List.length_cons, List.length_nil] at hf ⊢; omega) ?_ (by simp)
                  rw [← encodeRune_ascii b hb]
                  exact parse_unicode_escape k _ _ _ _ b _ (hex4_hexByte b hb) (by omega)
      · have hge : 0x80 ≤ b := by omega
        have hv1 : ¬ ((decodeRune (b :: tl)).1 = runeError ∧ (decodeRune (b :: tl)).2 = 1) := by
          intro h
          simp [validLoop, hb, h] at hv
        have hv2 : validLoop n ((b :: tl).drop (decodeRune (b :: tl)).2) = true := by
          simpa [validLoop, hb, hv1] using hv
        obtain ⟨m1, m2, m3, m4, m5⟩ := decodeRune_multi b tl hge hv1
        have hdrop : ((b :: tl).drop (decodeRune (b :: tl)).2).length ≤ n := by
          rw [List.length_drop]
          simp only [List.length_cons] at hlen ⊢
          omega
        have hsplit : (b :: tl).take (decodeRune (b :: tl)).2
            ++ (b :: tl).drop (decodeRune (b :: tl)).2 = b :: tl := List.take_append_drop _ _
        rw [appendStringLoop_multi n b tl hb] at hf ⊢
        simp only [hv1, if_false] at hf ⊢
        by_cases hsep : (decodeRune (b :: tl)).1 = 0x2028 ∨ (decodeRune (b :: tl)).1 = 0x2029
        · simp only [hsep, if_true, List.length_append, List.length_cons, List.length_nil]
            at hf
          obtain ⟨k, rfl⟩ : ∃ k, fuelD = k + 1 := ⟨fuelD - 1, by omega⟩
          simp only [hsep, if_true, List.cons_append, List.nil_append, List.append_assoc]
          have hx : hex4 0x32 0x30 0x32 (hexByte ((decodeRune (b :: tl)).1 % 16))
              = some (decodeRune (b :: tl)).1 := by
            rcases hsep with h | h <;> rw [h] <;> decide
          have henc : encodeRune (decodeRune (b :: tl)).1
              = (b :: tl).take (decodeRune (b :: tl)).2 := by
            rcases hsep with h | h
            · rw [m4 h, h]; decide
            · rw [m5 h, h]; decide
          rw [parse_unicode_escape k _ _ _ _ _ _ hx (by rcases hsep with h | h <;> omega),
            ih _ rest k hdrop hv2 (by omega), prepend_some, henc, hsplit]
        · simp only [hsep, if_false, List.length_append] at hf
          have htake : ((b :: tl).take (decodeRune (b :: tl)).2).length
              = (decodeRune (b :: tl)).2 := by
            rw [List.length_take]; omega
          obtain ⟨k, hk⟩ : ∃ k, fuelD = k + ((b :: tl).take (decodeRune (b :: tl)).2).length :=
            ⟨fuelD - ((b :: tl).take (decodeRune (b :: tl)).2).length, by omega⟩
          simp only [hsep, if_false, List.append_assoc]
          rw [hk, parse_plain_list k _ _ m3, ih _ rest k hdrop hv2 (by omega), prepend_some,
            hsplit]

theorem parse_string_literal (s rest : List Nat) (hv : validUTF8 s = true) :
    parseStringBody (appendStringLoop s.length s ++ 0x22 :: rest).length
        (appendStringLoop s.length s ++ 0x22 :: rest) = some (s, rest) :=
  parse_appendStringLoop s.length s rest _ (Nat.le_refl _) hv
    (by simp only [List.length_append, List.length_cons]; omega)

theorem skipSpace_quote (rest : List Nat) : skipSpace (0x22 :: rest) = 0x22 :: rest := by
  simp [skipSpace, isSpace]

theorem parseValue_string (f : Nat) (s rest : List Nat) (hv : validUTF8 s = true) :
    parseValue (f + 1) (0x22 :: (appendStringLoop s.length s ++ 0x22 :: rest))
      = some (JSON.string s, rest) := by
  rw [parseValue, skipSpace_quote]
  simp only [if_true]
  rw [parse_string_literal s rest hv]
  rfl

theorem parseMembers_last (f : Nat) (key vb rest : List Nat) (v : JSON)
    (hk : validUTF8 key = true) (hv : parseValue f vb = some (v, 0x7D :: rest)) :
    parseMembers (f + 1) (0x22 :: (appendStringLoop key.length key ++ 0x22 :: 0x3A :: vb))
      = some ([(key, v)], rest) := by
  rw [parseMembers, skipSpace_quote]
  simp only [if_true]
  rw [parse_string_literal key _ hk]
  simp [skipSpace, isSpace, hv]

theorem parseMembers_more (f : Nat) (key vb rest rest2 : List Nat) (v : JSON)
    (ms : List (List Nat × JSON))
    (hk : validUTF8 key = true) (hv : parseValue f vb = some (v, 0x2C :: rest))
    (hm : parseMembers f rest = some (ms, rest2)) :
    parseMembers (f + 1) (0x22 :: (appendStringLoop key.length key ++ 0x22 :: 0x3A :: vb))
      = some ((key, v) :: ms, rest2) := by
  rw [parseMembers, skipSpace_quote]
  simp only [if_true]
  rw [parse_string_literal key _ hk]
  simp [skipSpace, isSpace, hv, hm]

theorem parseValue_object (f : Nat) (rest rest2 : List Nat) (ms : List (List Nat × JSON))
    (hm : parseMembers f (0x22 :: rest) = some (ms, rest2)) :
    parseValue (f + 1) (0x7B :: 0x22 :: rest) = some (JSON.object ms, rest2) := by
  simp [parseValue, skipSpace, isSpace, hm]

theorem parseElements_last (f : Nat) (vb rest : List Nat) (v : JSON)
    (hv : parseValue f vb = some (v, 0x5D :: rest)) :
    parseElements (f + 1) vb = some ([v], rest) := by
  simp [parseElements, skipSpace, isSpace, hv]

theorem parseValue_array (f : Nat) (rest rest2 : List Nat) (vs : List JSON)
    (hm : parseElements f (0x7B :: rest) = some (vs, rest2)) :
    parseValue (f + 1) (0x5B :: 0x7B :: rest) = some (JSON.array vs, rest2) := by
  simp [parseValue, skipSpace, isSpace, hm]

/-- The bytes of the registration body around the encoded token. -/
theorem newMediaItemsBody_eq (t : List Nat) :
    newMediaItemsBody t
      = 0x7B :: 0x22 :: (appendStringLoop (bytesOf "newMediaItems").length
            (bytesOf "newMediaItems")
          ++ 0x22 :: 0x3A :: 0x5B :: 0x7B :: 0x22 :: (appendStringLoop
              (bytesOf "description").length (bytesOf "description")
            ++ 0x22 :: 0x3A :: 0x22 :: (appendStringLoop ([] : List Nat).length []
              ++ 0x22 :: 0x2C :: 0x22 :: (appendStringLoop (bytesOf "simpleMediaItem").length
                  (bytesOf "simpleMediaItem")
                ++ 0x22 :: 0x3A :: 0x7B :: 0x22 :: (appendStringLoop
                    (bytesOf "uploadToken").length (bytesOf "uploadToken")
                  ++ 0x22 :: 0x3A :: 0x22 :: (appendStringLoop t.length t
                    ++ 0x22 :: 0x7D :: 0x7D :: 0x5D :: 0x7D :: [0x0A])))))) := by
  have hle : bytesLE (bytesOf "description") (bytesOf "simpleMediaItem") = true := by decide
  simp only [newMediaItemsBody, encoderEncode, jsonObject, jsonArray, jsonString, joinComma,
    sortMembers, insertMember, List.map_cons, List.map_nil, hle, if_true, List.append_assoc,
    List.cons_append, List.nil_append]

theorem valid_keys :
    validUTF8 (bytesOf "newMediaItems") = true ∧ validUTF8 (bytesOf "description") = true
      ∧ validUTF8 (bytesOf "simpleMediaItem") = true
      ∧ validUTF8 (bytesOf "uploadToken") = true ∧ validUTF8 [] = true := by
  decide

/-- The registration body for a valid UTF-8 token decodes to the expected
document. -/
theorem decode_newMediaItemsBody (t : List Nat) (hv : validUTF8 t = true) :
    jsonDecode (newMediaItemsBody t) = some (expectedDocument t) := by
  obtain ⟨k1, k2, k3, k4, k0⟩ := valid_keys
  have hlen : ∃ f, (newMediaItemsBody t).length = f + 10 := by
    refine ⟨(newMediaItemsBody t).length - 10, ?_⟩
    rw [newMediaItemsBody_eq]
    simp only [List.length_cons, List.length_append]
    omega
  obtain ⟨f, hf⟩ := hlen
  unfold jsonDecode
  rw [hf, newMediaItemsBody_eq]
  have p1 := parseValue_string f t (0x7D :: 0x7D :: 0x5D :: 0x7D :: [0x0A]) hv
  have p2 := parseMembers_last (f + 1) (bytesOf "uploadToken") _ _ _ k4 p1
  have p3 := parseValue_object (f + 2) _ _ _ p2
  have p4 := parseMembers_last (f + 3) (bytesOf "simpleMediaItem") _ _ _ k3 p3
  have p5 := parseValue_string (f + 3) [] (0x2C :: 0x22 :: (appendStringLoop
    (bytesOf "simpleMediaItem").length (bytesOf "simpleMediaItem")
      ++ 0x22 :: 0x3A :: 0x7B :: 0x22 :: (appendStringLoop
        (bytesOf "uploadToken").length (bytesOf "uploadToken")
      ++ 0x22 :: 0x3A :: 0x22 :: (appendStringLoop t.length t
        ++ 0x22 :: 0x7D :: 0x7D :: 0x5D :: 0x7D :: [0x0A])))) k0
  have p6 := parseMembers_more (f + 4) (bytesOf "description") _ _ _ _ _ k2 p5 p4
  have p7 := parseValue_object (f + 5) _ _ _ p6
  have p8 := parseElements_last (f + 6) _ _ _ p7
  have p9 := parseValue_array (f + 7) _ _ _ p8
  have p10 := parseMembers_last (f + 8) (bytesOf "newMediaItems") _ _ _ k1 p9
  have p11 := parseValue_object (f + 9) _ _ _ p10
  rw [p11]
  simp [skipSpace, isSpace, expectedDocument]

theorem decode_garbled :
    jsonDecode (newMediaItemsBody [0xFF]) = some (expectedDocument [0xEF, 0xBF, 0xBD]) := by
  rfl

theorem expectedDocument_injective (a b : List Nat)
    (h : expectedDocument a = expectedDocument b) : a = b := by
  simpa [expectedDocument] using h

theorem garbled_differs : jsonDecode (newMediaItemsBody [0xFF]) ≠ some (expectedDocument [0xFF]) := by
  rw [decode_garbled]
  intro h
  have := expectedDocument_injective _ _ (Option.some.inj h)
  simp at this


/-- C8 as stated fails: when the raw upload answers 200 with the one-byte body
`0xFF`, the registration body holds the escape of U+FFFD, and the upload token
decodes to the three bytes of U+FFFD instead of the response body. -/
theorem registration_body_garbles_invalid_token :
    ¬ ∀ (fs : FileSystem) (env : Env) (filename : String) (token : Token) (w : World)
        (f : OSFile) (resp : Response) (t : List Nat),
        fs filename = some f → f.readable = true → 8192 ≤ f.content.length →
        (queryRowScan env (fingerprintOf f.content) w).1 ≠ none →
        env.roundTrip (rawUploadRequest token filename
          { content := f.content, readable := f.readable, offset := 0 }) = some resp →
        resp.body = some t → resp.statusCode / 100 = 2 →
        ∃ reg rest, effectsOf fs env filename token w
            = Event.query (fingerprintOf f.content)
              :: Event.send (rawUploadRequest token filename
                  { content := f.content, readable := f.readable, offset := 0 })
              :: Event.send reg :: rest
          ∧ jsonDecode reg.body = some (expectedDocument t) := by
  intro h
  have hq : (queryRowScan garbledService (fingerprintOf imageX) freshWorld).1 ≠ none := by
    simp [queryRowScan, garbledService, freshWorld, Table.hasKey]
  obtain ⟨reg, rest, he, hd⟩ := h sampleFS garbledService "dir/a.jpg" sampleToken freshWorld
    { content := imageX, readable := true } { statusCode := 200, body := some [0xFF] } [0xFF]
    rfl rfl sample_length_a hq rfl rfl (by decide)
  obtain ⟨t, ht, hreg⟩ := (uploadFile_after_miss sampleFS garbledService "dir/a.jpg"
    sampleToken freshWorld { content := imageX, readable := true } rfl rfl sample_length_a
    ((queryRowScan_miss_iff _ _ _).mp hq)).2
  obtain ⟨t2, ht2⟩ := hreg { statusCode := 200, body := some [0xFF] } [0xFF] rfl rfl
    (by decide)
  rw [ht, ht2] at he
  simp only [List.cons.injEq, Event.send.injEq, true_and] at he
  have hbody : reg.body = newMediaItemsBody [0xFF] := by
    rw [← he.1]; rfl
  rw [hbody] at hd
  exact garbled_differs hd

/-- C8, amended: for every upload token `t` that is valid UTF-8 and is the
body of a 2xx raw-upload response, the third effect of `uploadFile` is a POST
to the registration endpoint whose body decodes to an object with the single
key `newMediaItems`, its value a list of one object with exactly the keys
`description` (the empty string) and `simpleMediaItem` (an object with the
single key `uploadToken`, whose value is `t`, byte for byte). -/
theorem registration_body_decodes (fs : FileSystem) (env : Env) (filename : String)
    (token : Token) (w : World) (f : OSFile) (resp : Response) (t : List Nat)
    (hf : fs filename = some f) (hr : f.readable = true) (hlen : 8192 ≤ f.content.length)
    (hmiss : (queryRowScan env (fingerprintOf f.content) w).1 ≠ none)
    (h1 : env.roundTrip (rawUploadRequest token filename
      { content := f.content, readable := f.readable, offset := 0 }) = some resp)
    (hb : resp.body = some t) (hs : resp.statusCode / 100 = 2) (hv : validUTF8 t = true) :
    ∃ reg rest, effectsOf fs env filename token w
        = Event.query (fingerprintOf f.content)
          :: Event.send (rawUploadRequest token filename
              { content := f.content, readable := f.readable, offset := 0 })
          :: Event.send reg :: rest
      ∧ reg.method = "POST" ∧ reg.url = batchCreateURL
      ∧ jsonDecode reg.body = some (JSON.object [(bytesOf "newMediaItems",
          JSON.array [JSON.object [
            (bytesOf "description", JSON.string []),
            (bytesOf "simpleMediaItem",
              JSON.object [(bytesOf "uploadToken", JSON.string t)])]])]) := by
  obtain ⟨u, hu, hreg⟩ := (uploadFile_after_miss fs env filename token w f hf hr hlen
    ((queryRowScan_miss_iff _ _ _).mp hmiss)).2
  obtain ⟨u2, hu2⟩ := hreg resp t h1 hb hs
  refine ⟨batchCreateRequest token t, u2, by rw [hu, hu2], rfl, rfl, ?_⟩
  exact decode_newMediaItemsBody t hv

theorem registration_body_decodes_witness :
    ∃ reg rest, effectsOf sampleFS acceptAll "dir/a.jpg" sampleToken freshWorld
        = Event.query (fingerprintOf imageX)
          :: Event.send (rawUploadRequest sampleToken "dir/a.jpg"
              { content := imageX, readable := true, offset := 0 })
          :: Event.send reg :: rest
      ∧ reg.method = "POST" ∧ reg.url = batchCreateURL
      ∧ jsonDecode reg.body = some (JSON.object [(bytesOf "newMediaItems",
          JSON.array [JSON.object [
            (bytesOf "description", JSON.string []),
            (bytesOf "simpleMediaItem",
              JSON.object [(bytesOf "uploadToken", JSON.string (bytesOf "tok"))])]])]) :=
  registration_body_decodes sampleFS acceptAll "dir/a.jpg" sampleToken freshWorld
    { content := imageX, readable := true } { statusCode := 200, body := some (bytesOf "tok") }
    (bytesOf "tok") rfl rfl sample_length_a
    (by simp [queryRowScan, acceptAll, freshWorld, Table.hasKey]) rfl rfl (by decide)
    (by decide)

end GooglePhotosUpload
